import Mathlib

/-!
# UEFI backend of the GUI library: software rasteriser, command interpreter, texture table

Shallow embedding of `backends/imgui_impl_uefi.cpp`.

* `INT32` values are `Int`, `UINT32` values are `Nat`; conversions and unsigned index
  arithmetic are reduced modulo `2^32` explicitly (`wrapI32`, `wrapU32`).
* `float` values are finite binary32 numbers `m * 2^e` (`F32`); every arithmetic operation
  computes the exact result and rounds it to nearest, ties to even, to 24 significant bits
  with minimum exponent `-149`.  Each operation is rounded on its own, as with scalar
  single precision instructions (no fused multiply-add, no excess precision).  The two
  zeros are identified (the code never divides by a zero and never inspects the sign of a
  zero).  Overflow to infinity is not modelled: it needs magnitudes beyond `2^127`, for
  which the `(INT32)` conversions of the code are undefined anyway.
* A pixel buffer is the memory behind a `UINT32*`: a function from cell index to cell value.
* Vertex and index buffers are lists; a read outside a buffer (undefined in the source
  language) yields index `0`, respectively the zero vertex.  Loop counters are not wrapped:
  element counts are lengths of index buffers, far below `2^32`.
* A user callback of a draw command is code of the application; its invocation is recorded
  as an effect and it is taken not to touch the backend data.
* Allocations, device reads and the assertion macro of the GUI library lie outside the
  program: their outcomes are arguments of the functions (`allocOk`, `keyRead`, `ptrRead`,
  `InitEnv`).  A call that does not return, or that reads through a null pointer, has the
  result `none`.
-/

set_option linter.unusedVariables false

namespace ImplUefi

/-! ## Machine integers -/

/-- Reduction of an integer to the `INT32` range (two's complement). -/
def wrapI32 (n : Int) : Int := (n + 2147483648) % 4294967296 - 2147483648

/-- Reduction of an integer to the `UINT32` range. -/
def wrapU32 (n : Int) : Nat := (n % 4294967296).toNat

/-- Integer `ImMin`: `lhs < rhs ? lhs : rhs`. -/
def ImMinI (lhs rhs : Int) : Int := if lhs < rhs then lhs else rhs

/-- Integer `ImMax`: `lhs >= rhs ? lhs : rhs`. -/
def ImMaxI (lhs rhs : Int) : Int := if lhs ≥ rhs then lhs else rhs

/-! ## Binary32 arithmetic -/

/-- Number of binary digits of `n`, by recursion on a fuel argument. -/
def bitLenAux : Nat → Nat → Nat
  | 0, _ => 0
  | fuel + 1, n => if n = 0 then 0 else bitLenAux fuel (n / 2) + 1

/-- Number of binary digits of `n` (`0` for `0`). -/
def bitLen (n : Nat) : Nat := bitLenAux n n

/-- A finite binary32 value `m * 2^e`. -/
structure F32 where
  m : Int
  e : Int
deriving DecidableEq

namespace F32

/-- The rational number denoted by a float. -/
def toRat (x : F32) : ℚ := x.m * (2 : ℚ) ^ x.e

/-- Representable binary32 values: at most 24 significant bits, exponent at least `-149`. -/
def IsF32 (x : F32) : Prop := x.m.natAbs ≤ 16777216 ∧ -149 ≤ x.e

instance (x : F32) : Decidable (IsF32 x) := by unfold IsF32; exact inferInstance

/-- The integer nearest to `n / 2^k`, ties to even. -/
def rne (n k : Nat) : Nat :=
  let q := n / 2 ^ k
  let r := n % 2 ^ k
  let half := 2 ^ (k - 1)
  if half < r ∨ (r = half ∧ q % 2 = 1) then q + 1 else q

/-- Rounding of the exact value `m * 2^e` to binary32: nearest, ties to even.  The
significand is shifted right by `s` bits, so that at most 24 bits remain and the exponent
is at least `-149`. -/
def round (m e : Int) : F32 :=
  let s : Int := max ((bitLen m.natAbs : Int) - 24) (-149 - e)
  if s ≤ 0 then ⟨m, e⟩
  else ⟨(if m < 0 then -(rne m.natAbs s.toNat : Int) else (rne m.natAbs s.toNat : Int)), e + s⟩

/-- Conversion `int -> float`. -/
def ofInt (n : Int) : F32 := round n 0

/-- Float addition. -/
def add (x y : F32) : F32 :=
  let e := min x.e y.e
  round (x.m * 2 ^ (x.e - e).toNat + y.m * 2 ^ (y.e - e).toNat) e

/-- Float negation (exact). -/
def neg (x : F32) : F32 := ⟨-x.m, x.e⟩

/-- Float subtraction. -/
def sub (x y : F32) : F32 := add x (neg y)

/-- Float multiplication. -/
def mul (x y : F32) : F32 := round (x.m * y.m) (x.e + y.e)

/-- Float division: the quotient is computed to at least 26 bits plus a sticky bit and then
rounded.  Division by zero does not occur in the code (the divisor is tested first); the
function returns zero there. -/
def div (x y : F32) : F32 :=
  let a := x.m.natAbs
  let b := y.m.natAbs
  if b = 0 then ⟨0, 0⟩ else
    let k := (26 + bitLen b) - bitLen a
    let n := a * 2 ^ k
    let q := n / b
    let sticky := if n % b = 0 then 0 else 1
    let mag : Int := ((2 * q + sticky : Nat) : Int)
    round (if decide (x.m < 0) != decide (y.m < 0) then -mag else mag) (x.e - y.e - k - 1)

/-- Float comparison `x < y`. -/
def lt (x y : F32) : Bool :=
  let e := min x.e y.e
  decide (x.m * 2 ^ (x.e - e).toNat < y.m * 2 ^ (y.e - e).toNat)

/-- Float comparison `x >= y`. -/
def ge (x y : F32) : Bool := !lt x y

/-- Float comparison `x > y`. -/
def gt (x y : F32) : Bool := lt y x

/-- Truncation toward zero of the denoted number. -/
def trunc (x : F32) : Int :=
  if 0 ≤ x.e then x.m * 2 ^ x.e.toNat else Int.tdiv x.m (2 ^ (-x.e).toNat)

/-- Conversion `(INT32)x`: truncation toward zero.  A value outside the `INT32` range is
undefined behaviour in the source language; the x86-64 conversion instruction returns
`INT32_MIN` there and so does this definition. -/
def toInt32 (x : F32) : Int :=
  if -2147483648 ≤ trunc x ∧ trunc x ≤ 2147483647 then trunc x else -2147483648

/-- The literal `1e-6f`. -/
def eps : F32 := div (ofInt 1) (ofInt 1000000)

/-- The largest float below one, `1 - 2^-24`. -/
def predOne : F32 := ⟨16777215, -24⟩

end F32

/-- Float `ImMin`.
Modelled from the spec: `ImMin` is declared by the GUI library, outside `src/`; it is the
minimum `lhs < rhs ? lhs : rhs`. -/
def ImMin (lhs rhs : F32) : F32 := if F32.lt lhs rhs then lhs else rhs

/-- Float `ImMax`.
Modelled from the spec: `ImMax` is declared by the GUI library, outside `src/`; it is the
maximum `lhs >= rhs ? lhs : rhs`. -/
def ImMax (lhs rhs : F32) : F32 := if F32.ge lhs rhs then lhs else rhs

/-! ## Pixel buffers -/

/-- The memory behind a `UINT32*`: cell index to cell value. -/
abbrev Buffer := Nat → Nat

/-- The assignment `buffer[i] = v`. -/
def Buffer.write (buffer : Buffer) (i v : Nat) : Buffer := fun j => if j = i then v else buffer j

/-- The cell index `y * width + x` of the source, with `INT32` operands `x`, `y` and a
`UINT32` operand `width`: the arithmetic is unsigned 32-bit. -/
def cellIndex (width : Nat) (x y : Int) : Nat :=
  (wrapU32 y * width + wrapU32 x) % 4294967296

/-- The values `lo, lo+1, ..., hi` of a loop `for (v = lo; v <= hi; v++)`. -/
def intRange (lo hi : Int) : List Int :=
  (List.range (hi + 1 - lo).toNat).map (fun (k : Nat) => lo + (k : Int))

/-! ## Rasteriser -/

/-- A 2D vector of floats. -/
structure ImVec2 where
  x : F32
  y : F32
deriving DecidableEq

/-- A 4D vector of floats. -/
structure ImVec4 where
  x : F32
  y : F32
  z : F32
  w : F32
deriving DecidableEq

/-- The value `denom` of `FillTriangle`: twice the signed area of the triangle. -/
def FillTriangle.denom (p0 p1 p2 : ImVec2) : F32 :=
  F32.add (F32.mul (F32.sub p1.y p2.y) (F32.sub p0.x p2.x))
          (F32.mul (F32.sub p2.x p1.x) (F32.sub p0.y p2.y))

/-- The test `denom < 1e-6f && denom > -1e-6f` of `FillTriangle`. -/
def FillTriangle.degenerate (p0 p1 p2 : ImVec2) : Bool :=
  F32.lt (FillTriangle.denom p0 p1 p2) F32.eps &&
    F32.gt (FillTriangle.denom p0 p1 p2) (F32.neg F32.eps)

/-- The weight `a` of `FillTriangle` at the pixel `(x, y)`. -/
def FillTriangle.a (p0 p1 p2 : ImVec2) (x y : Int) : F32 :=
  F32.div
    (F32.add (F32.mul (F32.sub p1.y p2.y) (F32.sub (F32.ofInt x) p2.x))
             (F32.mul (F32.sub p2.x p1.x) (F32.sub (F32.ofInt y) p2.y)))
    (FillTriangle.denom p0 p1 p2)

/-- The weight `b` of `FillTriangle` at the pixel `(x, y)`. -/
def FillTriangle.b (p0 p1 p2 : ImVec2) (x y : Int) : F32 :=
  F32.div
    (F32.add (F32.mul (F32.sub p2.y p0.y) (F32.sub (F32.ofInt x) p2.x))
             (F32.mul (F32.sub p0.x p2.x) (F32.sub (F32.ofInt y) p2.y)))
    (FillTriangle.denom p0 p1 p2)

/-- The weight `c = 1.0f - a - b` of `FillTriangle` at the pixel `(x, y)`. -/
def FillTriangle.c (p0 p1 p2 : ImVec2) (x y : Int) : F32 :=
  F32.sub (F32.sub (F32.ofInt 1) (FillTriangle.a p0 p1 p2 x y)) (FillTriangle.b p0 p1 p2 x y)

/-- The test `a >= 0 && b >= 0 && c >= 0` of `FillTriangle`. -/
def FillTriangle.inside (p0 p1 p2 : ImVec2) (x y : Int) : Bool :=
  F32.ge (FillTriangle.a p0 p1 p2 x y) (F32.ofInt 0) &&
    F32.ge (FillTriangle.b p0 p1 p2 x y) (F32.ofInt 0) &&
    F32.ge (FillTriangle.c p0 p1 p2 x y) (F32.ofInt 0)

/-- The body of the inner loop of `FillTriangle` at the pixel `(x, y)`. -/
def FillTriangle.pixel (width : Nat) (p0 p1 p2 : ImVec2) (col0 : Nat) (y : Int)
    (buffer : Buffer) (x : Int) : Buffer :=
  if FillTriangle.degenerate p0 p1 p2 then buffer
  else if FillTriangle.inside p0 p1 p2 x y then buffer.write (cellIndex width x y) col0
  else buffer

/-- The value `(INT32)ImMin(ImMin(p0.x, p1.x), p2.x)`: left edge of the integer bounding box. -/
def bboxMinX (p0 p1 p2 : ImVec2) : Int := F32.toInt32 (ImMin (ImMin p0.x p1.x) p2.x)

/-- The value `(INT32)ImMax(ImMax(p0.x, p1.x), p2.x)`: right edge of the integer bounding box. -/
def bboxMaxX (p0 p1 p2 : ImVec2) : Int := F32.toInt32 (ImMax (ImMax p0.x p1.x) p2.x)

/-- The value `(INT32)ImMin(ImMin(p0.y, p1.y), p2.y)`: top edge of the integer bounding box. -/
def bboxMinY (p0 p1 p2 : ImVec2) : Int := F32.toInt32 (ImMin (ImMin p0.y p1.y) p2.y)

/-- The value `(INT32)ImMax(ImMax(p0.y, p1.y), p2.y)`: bottom edge of the integer bounding box. -/
def bboxMaxY (p0 p1 p2 : ImVec2) : Int := F32.toInt32 (ImMax (ImMax p0.y p1.y) p2.y)

/-- The bound `minX` of `FillTriangle` after `minX = ImMax(minX, 0)`. -/
def FillTriangle.minX (p0 p1 p2 : ImVec2) : Int :=
  ImMaxI (bboxMinX p0 p1 p2) 0

/-- The bound `maxX` of `FillTriangle` after `maxX = ImMin(maxX, (INT32)width - 1)`. -/
def FillTriangle.maxX (width : Nat) (p0 p1 p2 : ImVec2) : Int :=
  ImMinI (bboxMaxX p0 p1 p2) (wrapI32 (wrapI32 width - 1))

/-- The bound `minY` of `FillTriangle` after `minY = ImMax(minY, 0)`. -/
def FillTriangle.minY (p0 p1 p2 : ImVec2) : Int :=
  ImMaxI (bboxMinY p0 p1 p2) 0

/-- The bound `maxY` of `FillTriangle` after `maxY = ImMin(maxY, (INT32)height - 1)`. -/
def FillTriangle.maxY (height : Nat) (p0 p1 p2 : ImVec2) : Int :=
  ImMinI (bboxMaxY p0 p1 p2) (wrapI32 (wrapI32 height - 1))

/-- The function `FillTriangle`: barycentric fill of the clamped bounding box. -/
def FillTriangle (buffer : Buffer) (width height : Nat) (p0 p1 p2 : ImVec2)
    (col0 col1 col2 : Nat) : Buffer :=
  (intRange (FillTriangle.minY p0 p1 p2) (FillTriangle.maxY height p0 p1 p2)).foldl
    (fun buf y =>
      (intRange (FillTriangle.minX p0 p1 p2) (FillTriangle.maxX width p0 p1 p2)).foldl
        (FillTriangle.pixel width p0 p1 p2 col0 y) buf)
    buffer

/-! ## Draw data of the GUI library -/

/-- A vertex of the GUI library: position, texture coordinate, packed colour. -/
structure ImDrawVert where
  pos : ImVec2
  uv : ImVec2
  col : Nat
deriving DecidableEq

instance : Inhabited ImDrawVert := ⟨⟨⟨⟨0, 0⟩, ⟨0, 0⟩⟩, ⟨⟨0, 0⟩, ⟨0, 0⟩⟩, 0⟩⟩

/-- The callback of a draw command: the sentinel `ImDrawCallback_ResetRenderState` or a
function of the application, identified by a number. -/
inductive ImDrawCallback where
  | ResetRenderState
  | User (fn : Nat)
deriving DecidableEq

/-- A draw command.  `UserCallback = none` is the null pointer. -/
structure ImDrawCmd where
  ClipRect : ImVec4
  TexId : Nat
  ElemCount : Nat
  UserCallback : Option ImDrawCallback
deriving DecidableEq

/-- A command list: commands, index buffer, vertex buffer. -/
structure ImDrawList where
  CmdBuffer : List ImDrawCmd
  IdxBuffer : List Nat
  VtxBuffer : List ImDrawVert
deriving DecidableEq

/-- The draw data of one frame. -/
structure ImDrawData where
  CmdLists : List ImDrawList
deriving DecidableEq

/-! ## Backend state -/

/-- The capacity of the texture table. -/
def MAX_TEXTURES : Nat := 256

/-- A texture slot.  `Pixels = none` is the null pointer. -/
structure UefiTexture where
  Pixels : Option (List Nat)
  Width : Int
  Height : Int
deriving DecidableEq

/-- The backend data.  `FrameBuffer = none` is the null pointer; the arrays `Textures`,
`TextureUsed` and `MouseButtonDown` are indexed by position and only read and written
below their capacity. -/
structure ImGui_ImplUefi_Data where
  Gop : Nat
  TextInput : Option Nat
  Pointer : Option Nat
  FrameBuffer : Option Buffer
  FrameBufferSize : Nat
  ScreenWidth : Nat
  ScreenHeight : Nat
  Textures : Nat → UefiTexture
  TextureUsed : Nat → Bool
  NextTextureId : Nat
  FontTextureId : Nat
  MouseButtonDown : Nat → Bool
  MouseX : Int
  MouseY : Int

/-- What the backend does to its collaborators during a call, in order. -/
inductive Effect where
  | Callback (fn : Nat) (list cmd : Nat)
  | Blt (pixels : Buffer) (srcX srcY dstX dstY width height delta : Nat)

/-! ## Command interpreter -/

/-- The call `SetMem (buffer, size, 0)` on a pixel buffer: the cells that lie completely
within the first `size` bytes become zero. -/
def clearBuffer (buffer : Buffer) (size : Nat) : Buffer :=
  fun i => if 4 * i + 4 ≤ size then 0 else buffer i

/-- The rejection test of a geometry command on its clip rectangle
`clipX < 0 || clipY < 0 || clipW <= 0 || clipH <= 0 || clipX >= (INT32)ScreenWidth ||
clipY >= (INT32)ScreenHeight`. -/
def clipRejected (ScreenWidth ScreenHeight : Nat) (clipX clipY clipW clipH : Int) : Bool :=
  decide (clipX < 0) || decide (clipY < 0) || decide (clipW ≤ 0) || decide (clipH ≤ 0) ||
    decide (clipX ≥ wrapI32 ScreenWidth) || decide (clipY ≥ wrapI32 ScreenHeight)

/-- The simple clipping check of one triangle: all three vertices on one side of the clip
rectangle.  Integer bounds are converted to float for the comparison; `clipX + clipW` is an
`INT32` addition. -/
def triangleRejected (clipX clipY clipW clipH : Int) (p0 p1 p2 : ImVec2) : Bool :=
  (F32.lt p0.x (F32.ofInt clipX) && F32.lt p1.x (F32.ofInt clipX) &&
      F32.lt p2.x (F32.ofInt clipX)) ||
  (F32.lt p0.y (F32.ofInt clipY) && F32.lt p1.y (F32.ofInt clipY) &&
      F32.lt p2.y (F32.ofInt clipY)) ||
  (F32.ge p0.x (F32.ofInt (wrapI32 (clipX + clipW))) &&
      F32.ge p1.x (F32.ofInt (wrapI32 (clipX + clipW))) &&
      F32.ge p2.x (F32.ofInt (wrapI32 (clipX + clipW)))) ||
  (F32.ge p0.y (F32.ofInt (wrapI32 (clipY + clipH))) &&
      F32.ge p1.y (F32.ofInt (wrapI32 (clipY + clipH))) &&
      F32.ge p2.y (F32.ofInt (wrapI32 (clipY + clipH))))

/-- One iteration of the triangle loop of a geometry command, at loop counter `i`:
`idx` is the index cursor (`idx_buffer` as an offset into the index buffer of the list).
Both branches of the texture test make the same `FillTriangle` call. -/
def renderTriangle (ScreenWidth ScreenHeight FontTextureId : Nat) (cmd : ImDrawCmd)
    (vtx : List ImDrawVert) (idxBuf : List Nat) (idx : Nat)
    (clipX clipY clipW clipH : Int) (fb : Buffer) (i : Nat) : Buffer :=
  let v0 := vtx.getD (idxBuf.getD (idx + i + 0) 0) default
  let v1 := vtx.getD (idxBuf.getD (idx + i + 1) 0) default
  let v2 := vtx.getD (idxBuf.getD (idx + i + 2) 0) default
  let p0 : ImVec2 := ⟨v0.pos.x, v0.pos.y⟩
  let p1 : ImVec2 := ⟨v1.pos.x, v1.pos.y⟩
  let p2 : ImVec2 := ⟨v2.pos.x, v2.pos.y⟩
  if triangleRejected clipX clipY clipW clipH p0 p1 p2 then fb
  else if cmd.TexId % 4294967296 = FontTextureId then
    FillTriangle fb ScreenWidth ScreenHeight p0 p1 p2 v0.col v1.col v2.col
  else
    FillTriangle fb ScreenWidth ScreenHeight p0 p1 p2 v0.col v1.col v2.col

/-- The state threaded through the command loop of one list: frame buffer, index cursor,
effects so far. -/
structure CmdState where
  fb : Buffer
  idx : Nat
  effects : List Effect

/-- The body of the command loop for the command at position `cmd_i` of list `n`.
A callback command and a drawn geometry command reach the statement
`idx_buffer += pcmd->ElemCount` at the end of the body; the `continue` of the clip
rectangle rejection leaves the body before it. -/
def renderCmd (ScreenWidth ScreenHeight FontTextureId : Nat) (vtx : List ImDrawVert)
    (idxBuf : List Nat) (n : Nat) (st : CmdState) (cmd_i : Nat) (cmd : ImDrawCmd) : CmdState :=
  match cmd.UserCallback with
  | some ImDrawCallback.ResetRenderState =>
      { st with idx := st.idx + cmd.ElemCount }
  | some (ImDrawCallback.User fn) =>
      { st with effects := st.effects ++ [Effect.Callback fn n cmd_i],
                idx := st.idx + cmd.ElemCount }
  | none =>
      let clipX := F32.toInt32 cmd.ClipRect.x
      let clipY := F32.toInt32 cmd.ClipRect.y
      let clipW := F32.toInt32 (F32.sub cmd.ClipRect.z cmd.ClipRect.x)
      let clipH := F32.toInt32 (F32.sub cmd.ClipRect.w cmd.ClipRect.y)
      if clipRejected ScreenWidth ScreenHeight clipX clipY clipW clipH then st
      else
        { st with
          fb := ((List.range ((cmd.ElemCount + 2) / 3)).map (fun k => 3 * k)).foldl
                  (renderTriangle ScreenWidth ScreenHeight FontTextureId cmd vtx idxBuf st.idx
                    clipX clipY clipW clipH) st.fb,
          idx := st.idx + cmd.ElemCount }

/-- The command loop over the commands of a list, from position `cmd_i` on. -/
def renderCmds (ScreenWidth ScreenHeight FontTextureId : Nat) (vtx : List ImDrawVert)
    (idxBuf : List Nat) (n : Nat) : CmdState → Nat → List ImDrawCmd → CmdState
  | st, _, [] => st
  | st, cmd_i, cmd :: rest =>
      renderCmds ScreenWidth ScreenHeight FontTextureId vtx idxBuf n
        (renderCmd ScreenWidth ScreenHeight FontTextureId vtx idxBuf n st cmd_i cmd)
        (cmd_i + 1) rest

/-- The loop over the command lists, from list number `n` on: every list starts with the
index cursor at the beginning of its own index buffer. -/
def renderLists (ScreenWidth ScreenHeight FontTextureId : Nat) :
    Buffer → List Effect → Nat → List ImDrawList → Buffer × List Effect
  | fb, effects, _, [] => (fb, effects)
  | fb, effects, n, cmd_list :: rest =>
      let st := renderCmds ScreenWidth ScreenHeight FontTextureId cmd_list.VtxBuffer
        cmd_list.IdxBuffer n ⟨fb, 0, effects⟩ 0 cmd_list.CmdBuffer
      renderLists ScreenWidth ScreenHeight FontTextureId st.fb st.effects (n + 1) rest

/-- The function `ImGui_ImplUefi_RenderDrawData` on registered backend data: the new backend
data and the effects on the collaborators.  `draw_data = none` is the null pointer. -/
def ImGui_ImplUefi_RenderDrawData (bd : ImGui_ImplUefi_Data) (draw_data : Option ImDrawData) :
    ImGui_ImplUefi_Data × List Effect :=
  match draw_data, bd.FrameBuffer with
  | none, _ => (bd, [])
  | _, none => (bd, [])
  | some dd, some fb0 =>
      let r := renderLists bd.ScreenWidth bd.ScreenHeight bd.FontTextureId
        (clearBuffer fb0 bd.FrameBufferSize) [] 0 dd.CmdLists
      ({ bd with FrameBuffer := some r.1 },
        r.2 ++ [Effect.Blt r.1 0 0 0 0 bd.ScreenWidth bd.ScreenHeight 0])

/-- The frame buffer after `ImGui_ImplUefi_RenderDrawData`, as a total function of the cell
index (all zero for a null frame buffer). -/
def frameBufferAfter (bd : ImGui_ImplUefi_Data) (draw_data : Option ImDrawData) : Buffer :=
  ((ImGui_ImplUefi_RenderDrawData bd draw_data).1.FrameBuffer).getD (fun _ => 0)

/-- A clip rectangle that lies fully outside `[0, ScreenWidth) x [0, ScreenHeight)`: its
right edge `z` or its bottom edge `w` is at most zero, or its left edge `x` is not below
the screen width, or its top edge `y` is not below the screen height. -/
def clipOutside (ScreenWidth ScreenHeight : Nat) (r : ImVec4) : Prop :=
  r.z.toRat ≤ 0 ∨ r.w.toRat ≤ 0 ∨ (ScreenWidth : ℚ) ≤ r.x.toRat ∨ (ScreenHeight : ℚ) ≤ r.y.toRat

/-! ## Write traces

The same loops, recording the pixels that are assigned instead of performing the
assignments.  `FillTriangle_eq_applyWrites` and `renderCmd_fb_eq_applyWrites` relate the
traces to the functions above. -/

/-- One assignment `FrameBuffer[y * width + x] = col`. -/
structure PixelWrite where
  x : Int
  y : Int
  col : Nat
deriving DecidableEq

/-- Performing the assignments of a trace, in order. -/
def applyWrites (width : Nat) (buffer : Buffer) (ws : List PixelWrite) : Buffer :=
  ws.foldl (fun buf p => buf.write (cellIndex width p.x p.y) p.col) buffer

/-- The assignments of one `FillTriangle` call, in loop order. -/
def FillTriangle.writes (width height : Nat) (p0 p1 p2 : ImVec2) (col0 : Nat) :
    List PixelWrite :=
  (intRange (FillTriangle.minY p0 p1 p2) (FillTriangle.maxY height p0 p1 p2)).flatMap
    (fun y =>
      ((intRange (FillTriangle.minX p0 p1 p2) (FillTriangle.maxX width p0 p1 p2)).filter
        (fun x => !FillTriangle.degenerate p0 p1 p2 && FillTriangle.inside p0 p1 p2 x y)).map
        (fun x => ⟨x, y, col0⟩))

/-- The assignments of one iteration of the triangle loop. -/
def renderTriangle.writes (ScreenWidth ScreenHeight : Nat)
    (vtx : List ImDrawVert) (idxBuf : List Nat) (idx : Nat)
    (clipX clipY clipW clipH : Int) (i : Nat) : List PixelWrite :=
  let v0 := vtx.getD (idxBuf.getD (idx + i + 0) 0) default
  let v1 := vtx.getD (idxBuf.getD (idx + i + 1) 0) default
  let v2 := vtx.getD (idxBuf.getD (idx + i + 2) 0) default
  let p0 : ImVec2 := ⟨v0.pos.x, v0.pos.y⟩
  let p1 : ImVec2 := ⟨v1.pos.x, v1.pos.y⟩
  let p2 : ImVec2 := ⟨v2.pos.x, v2.pos.y⟩
  if triangleRejected clipX clipY clipW clipH p0 p1 p2 then []
  else FillTriangle.writes ScreenWidth ScreenHeight p0 p1 p2 v0.col

/-- The assignments made while one command is processed with the index cursor at `idx`. -/
def renderCmd.writes (ScreenWidth ScreenHeight : Nat) (vtx : List ImDrawVert)
    (idxBuf : List Nat) (idx : Nat) (cmd : ImDrawCmd) : List PixelWrite :=
  match cmd.UserCallback with
  | some _ => []
  | none =>
      let clipX := F32.toInt32 cmd.ClipRect.x
      let clipY := F32.toInt32 cmd.ClipRect.y
      let clipW := F32.toInt32 (F32.sub cmd.ClipRect.z cmd.ClipRect.x)
      let clipH := F32.toInt32 (F32.sub cmd.ClipRect.w cmd.ClipRect.y)
      if clipRejected ScreenWidth ScreenHeight clipX clipY clipW clipH then []
      else
        ((List.range ((cmd.ElemCount + 2) / 3)).map (fun k => 3 * k)).flatMap
          (renderTriangle.writes ScreenWidth ScreenHeight vtx idxBuf idx clipX clipY clipW clipH)

/-! ## Texture table -/

/-- The packed pixel `(a << 24) | (r << 16) | (g << 8) | b` stored for source pixel `j`;
the four operands are `UINT8` values read from the source bytes `4j .. 4j+3`. -/
def convertPixel (pixels : Nat → Nat) (j : Nat) : Nat :=
  let r := pixels (j * 4 + 0) % 256
  let g := pixels (j * 4 + 1) % 256
  let b := pixels (j * 4 + 2) % 256
  let a := pixels (j * 4 + 3) % 256
  ((a <<< 24) ||| (r <<< 16) ||| (g <<< 8) ||| b) % 4294967296

/-- The scan `for (i = 1; i < MAX_TEXTURES; i++) if (!TextureUsed[i])`: the first position
at which the body of the loop is entered. -/
def firstFreeSlot (TextureUsed : Nat → Bool) : Option Nat :=
  (List.range' 1 (MAX_TEXTURES - 1)).find? (fun i => !TextureUsed i)

/-- The function `ImGui_ImplUefi_CreateTexture`: the returned handle and the new backend
data.  `allocOk` tells whether the call of `AllocatePool` returns a buffer; `pixels` is the
source byte array.  The body of the loop returns at the first unused slot: with `0` and the
slot still unused when the allocation failed, with the slot index otherwise. -/
def ImGui_ImplUefi_CreateTexture (bd : ImGui_ImplUefi_Data) (allocOk : Bool)
    (pixels : Nat → Nat) (width height : Int) : Nat × ImGui_ImplUefi_Data :=
  match firstFreeSlot bd.TextureUsed with
  | none => (0, bd)
  | some i =>
      if allocOk then
        (i, { bd with
              Textures := Function.update bd.Textures i
                ⟨some ((List.range (wrapI32 (width * height)).toNat).map (convertPixel pixels)),
                  width, height⟩,
              TextureUsed := Function.update bd.TextureUsed i true })
      else
        (0, { bd with Textures := Function.update bd.Textures i ⟨none, width, height⟩ })

/-- The function `ImGui_ImplUefi_DeleteTexture`. -/
def ImGui_ImplUefi_DeleteTexture (bd : ImGui_ImplUefi_Data) (texture_id : Nat) :
    ImGui_ImplUefi_Data :=
  if texture_id < MAX_TEXTURES ∧ bd.TextureUsed texture_id = true then
    { bd with
      Textures := Function.update bd.Textures texture_id
        { bd.Textures texture_id with Pixels := none },
      TextureUsed := Function.update bd.TextureUsed texture_id false }
  else bd

/-- The handles returned by consecutive calls of `ImGui_ImplUefi_CreateTexture`, one for
each entry `(pixels, width, height)` of `args`, whose allocations all succeed, and the
backend data after them. -/
def createTextures : List ((Nat → Nat) × Int × Int) → ImGui_ImplUefi_Data →
    List Nat × ImGui_ImplUefi_Data
  | [], bd => ([], bd)
  | a :: rest, bd =>
      let r := ImGui_ImplUefi_CreateTexture bd true a.1 a.2.1 a.2.2
      let rr := createTextures rest r.2
      (r.1 :: rr.1, rr.2)

/-! ## Frames that differ in texture handles only -/

/-- The command with its texture handle replaced by zero. -/
def ImDrawCmd.eraseTex (cmd : ImDrawCmd) : ImDrawCmd := { cmd with TexId := 0 }

/-- The list with the texture handles of all its commands replaced by zero. -/
def ImDrawList.eraseTex (l : ImDrawList) : ImDrawList :=
  { l with CmdBuffer := l.CmdBuffer.map ImDrawCmd.eraseTex }

/-- The frame with the texture handles of all its commands replaced by zero: two frames
differ only in texture handles when their images are equal. -/
def ImDrawData.eraseTex (dd : ImDrawData) : ImDrawData :=
  ⟨dd.CmdLists.map ImDrawList.eraseTex⟩

/-! ## Example states and frames -/

/-- Backend data with a `width` by `height` screen, an all-zero frame buffer of that size,
an empty texture table apart from the font texture in slot 1, and no input device. -/
def exampleData (width height : Nat) : ImGui_ImplUefi_Data :=
  { Gop := 1, TextInput := none, Pointer := none,
    FrameBuffer := some (fun _ => 0),
    FrameBufferSize := (width * height) % 4294967296 * 4,
    ScreenWidth := width, ScreenHeight := height,
    Textures := fun i => if i = 1 then ⟨some [], 0, 0⟩ else ⟨none, 0, 0⟩,
    TextureUsed := fun i => decide (i = 1),
    NextTextureId := 1, FontTextureId := 1,
    MouseButtonDown := fun _ => false, MouseX := 0, MouseY := 0 }

/-- Backend data as after a successful allocation of the backend data and the frame buffer,
before the font texture is created: no texture slot is used. -/
def emptyTableData (width height : Nat) : ImGui_ImplUefi_Data :=
  { exampleData width height with
    Textures := fun _ => ⟨none, 0, 0⟩, TextureUsed := fun _ => false, FontTextureId := 0 }

/-- A vertex at the integer position `(x, y)` with colour `col`. -/
def vertexAt (x y : Int) (col : Nat) : ImDrawVert :=
  ⟨⟨F32.ofInt x, F32.ofInt y⟩, ⟨F32.ofInt 0, F32.ofInt 0⟩, col⟩

/-- A geometry command with the clip rectangle `(x0, y0) - (x1, y1)`, the font texture and
`count` indices. -/
def geometryCmd (x0 y0 x1 y1 : Int) (count : Nat) : ImDrawCmd :=
  ⟨⟨F32.ofInt x0, F32.ofInt y0, F32.ofInt x1, F32.ofInt y1⟩, 1, count, none⟩

/-- The frame of the end-to-end scenario: one list, one command with the given clip
rectangle, one white triangle with vertices `(0,0)`, `(3,0)`, `(0,3)`. -/
def triangleFrame (x0 y0 x1 y1 : Int) : ImDrawData :=
  ⟨[⟨[geometryCmd x0 y0 x1 y1 3], [0, 1, 2],
      [vertexAt 0 0 4294967295, vertexAt 3 0 4294967295, vertexAt 0 3 4294967295]⟩]⟩

/-- The frame `triangleFrame` with the texture handle `tex` in its command. -/
def triangleFrameTex (x0 y0 x1 y1 : Int) (tex : Nat) : ImDrawData :=
  ⟨[⟨[{ geometryCmd x0 y0 x1 y1 3 with TexId := tex }], [0, 1, 2],
      [vertexAt 0 0 4294967295, vertexAt 3 0 4294967295, vertexAt 0 3 4294967295]⟩]⟩

/-- A frame of one list with two commands of three indices each: the first command has the
empty clip rectangle `(0,0) - (0,0)` and refers to a white triangle over the top left
corner, the second has the clip rectangle `(0,0) - (4,4)` and refers to a triangle of colour
`255` around the pixel `(3,3)`. -/
def twoCmdFrame : ImDrawData :=
  ⟨[⟨[geometryCmd 0 0 0 0 3, geometryCmd 0 0 4 4 3], [0, 1, 2, 3, 4, 5],
      [vertexAt 0 0 4294967295, vertexAt 2 0 4294967295, vertexAt 0 2 4294967295,
       vertexAt 3 3 255, vertexAt 4 3 255, vertexAt 3 4 255]⟩]⟩

/-! ## Device objects and sequences of texture table calls -/

/-- The number of unused slots among the `MAX_TEXTURES` slots of the table. -/
def freeSlotCount (TextureUsed : Nat → Bool) : Nat :=
  ((List.range MAX_TEXTURES).filter (fun i => !TextureUsed i)).length

/-- The function `ImGui_ImplUefi_CreateDeviceObjects`: `pixels`, `width` and `height` are
what `GetTexDataAsRGBA32` of the GUI library yields for the font atlas, `allocOk` tells
whether the pixel allocation of the texture succeeds.  The function returns `true` in
every case. -/
def ImGui_ImplUefi_CreateDeviceObjects (bd : ImGui_ImplUefi_Data) (allocOk : Bool)
    (pixels : Nat → Nat) (width height : Int) : Bool × ImGui_ImplUefi_Data :=
  let r := ImGui_ImplUefi_CreateTexture bd allocOk pixels width height
  (true, { r.2 with FontTextureId := r.1 })

/-- The function `ImGui_ImplUefi_DestroyDeviceObjects` on registered backend data. -/
def ImGui_ImplUefi_DestroyDeviceObjects (bd : ImGui_ImplUefi_Data) : ImGui_ImplUefi_Data :=
  if bd.FontTextureId ≠ 0 then
    { ImGui_ImplUefi_DeleteTexture bd bd.FontTextureId with FontTextureId := 0 }
  else bd

/-- The backend data as `AllocateZeroPool` returns it in `ImGui_ImplUefi_Init`: every field
is zero, every pointer is null. -/
def zeroData : ImGui_ImplUefi_Data :=
  { Gop := 0, TextInput := none, Pointer := none,
    FrameBuffer := none, FrameBufferSize := 0, ScreenWidth := 0, ScreenHeight := 0,
    Textures := fun _ => ⟨none, 0, 0⟩, TextureUsed := fun _ => false,
    NextTextureId := 0, FontTextureId := 0,
    MouseButtonDown := fun _ => false, MouseX := 0, MouseY := 0 }

/-- A call that touches the texture table, with the outcome of its allocation. -/
inductive TableOp where
  | Create (allocOk : Bool) (pixels : Nat → Nat) (width height : Int)
  | Delete (texture_id : Nat)
  | CreateDeviceObjects (allocOk : Bool) (pixels : Nat → Nat) (width height : Int)
  | DestroyDeviceObjects

/-- The backend data after one call. -/
def TableOp.run (bd : ImGui_ImplUefi_Data) : TableOp → ImGui_ImplUefi_Data
  | TableOp.Create allocOk pixels width height =>
      (ImGui_ImplUefi_CreateTexture bd allocOk pixels width height).2
  | TableOp.Delete texture_id => ImGui_ImplUefi_DeleteTexture bd texture_id
  | TableOp.CreateDeviceObjects allocOk pixels width height =>
      (ImGui_ImplUefi_CreateDeviceObjects bd allocOk pixels width height).2
  | TableOp.DestroyDeviceObjects => ImGui_ImplUefi_DestroyDeviceObjects bd

/-- The backend data after a sequence of calls. -/
def runOps (bd : ImGui_ImplUefi_Data) (ops : List TableOp) : ImGui_ImplUefi_Data :=
  ops.foldl TableOp.run bd

/-- The sizes of a call are positive and their product is an `int`: the expression
`width * height` of `ImGui_ImplUefi_CreateTexture` does not overflow. -/
def TableOp.sized : TableOp → Prop
  | TableOp.Create _ _ width height => 0 < width ∧ 0 < height ∧ width * height < 2147483648
  | TableOp.Delete _ => True
  | TableOp.CreateDeviceObjects _ _ width height =>
      0 < width ∧ 0 < height ∧ width * height < 2147483648
  | TableOp.DestroyDeviceObjects => True

/-- The invariant of the texture table: a used slot owns a buffer of exactly
`Width * Height` pixels, an unused slot owns no buffer. -/
def tableInvariant (bd : ImGui_ImplUefi_Data) : Prop :=
  ∀ i, (bd.TextureUsed i = true →
          ∃ l, (bd.Textures i).Pixels = some l ∧
            (l.length : Int) = (bd.Textures i).Width * (bd.Textures i).Height) ∧
       (bd.TextureUsed i = false → (bd.Textures i).Pixels = none)

/-- The call does not delete the texture with handle `j`: it is a creating call or a deleting
call for another handle. -/
def TableOp.keeps (j : Nat) : TableOp → Prop
  | TableOp.Create _ _ _ _ => True
  | TableOp.Delete texture_id => texture_id ≠ j
  | TableOp.CreateDeviceObjects _ _ _ _ => True
  | TableOp.DestroyDeviceObjects => False

/-! ## Input pipeline -/

/-- The abstract keys of the GUI library that the backend emits. -/
inductive ImGuiKey where
  | None | UpArrow | DownArrow | RightArrow | LeftArrow | Home | End | Insert | Delete
  | PageUp | PageDown | Escape
  | F1 | F2 | F3 | F4 | F5 | F6 | F7 | F8 | F9 | F10 | F11 | F12
deriving DecidableEq

/-- The scan code `SCAN_NULL`.
Modelled from the spec: the scan code constants are declared by the firmware headers, outside
`src/`; the values here and below are those of the UEFI specification. -/
def SCAN_NULL : Nat := 0

/-- The function `UefiKeyToImGuiKey`: the `switch` over the scan code constants
`SCAN_UP = 1`, `SCAN_DOWN = 2`, `SCAN_RIGHT = 3`, `SCAN_LEFT = 4`, `SCAN_HOME = 5`,
`SCAN_END = 6`, `SCAN_INSERT = 7`, `SCAN_DELETE = 8`, `SCAN_PAGE_UP = 9`,
`SCAN_PAGE_DOWN = 10`, `SCAN_F1 = 11` to `SCAN_F10 = 20`, `SCAN_F11 = 21`, `SCAN_F12 = 22`,
`SCAN_ESC = 23`.
Modelled from the spec: the numeric values of the constants are declared outside `src/`. -/
def UefiKeyToImGuiKey (scanCode : Nat) : ImGuiKey :=
  if scanCode = 1 then ImGuiKey.UpArrow
  else if scanCode = 2 then ImGuiKey.DownArrow
  else if scanCode = 3 then ImGuiKey.RightArrow
  else if scanCode = 4 then ImGuiKey.LeftArrow
  else if scanCode = 5 then ImGuiKey.Home
  else if scanCode = 6 then ImGuiKey.End
  else if scanCode = 7 then ImGuiKey.Insert
  else if scanCode = 8 then ImGuiKey.Delete
  else if scanCode = 9 then ImGuiKey.PageUp
  else if scanCode = 10 then ImGuiKey.PageDown
  else if scanCode = 23 then ImGuiKey.Escape
  else if scanCode = 11 then ImGuiKey.F1
  else if scanCode = 12 then ImGuiKey.F2
  else if scanCode = 13 then ImGuiKey.F3
  else if scanCode = 14 then ImGuiKey.F4
  else if scanCode = 15 then ImGuiKey.F5
  else if scanCode = 16 then ImGuiKey.F6
  else if scanCode = 17 then ImGuiKey.F7
  else if scanCode = 18 then ImGuiKey.F8
  else if scanCode = 19 then ImGuiKey.F9
  else if scanCode = 20 then ImGuiKey.F10
  else if scanCode = 21 then ImGuiKey.F11
  else if scanCode = 22 then ImGuiKey.F12
  else ImGuiKey.None

/-- A keystroke as `ReadKeyStroke` stores it: `UINT16` scan code and `CHAR16` character. -/
structure EFI_INPUT_KEY where
  ScanCode : Nat
  UnicodeChar : Nat
deriving DecidableEq

/-- The pointer state as `GetState` stores it: `INT32` movements, `BOOLEAN` (byte) buttons. -/
structure EFI_SIMPLE_POINTER_STATE where
  RelativeMovementX : Int
  RelativeMovementY : Int
  RelativeMovementZ : Int
  LeftButton : Nat
  RightButton : Nat
deriving DecidableEq

/-- An event that the backend puts into the input queue of the GUI library:
`AddKeyEvent`, `AddInputCharacter`, `AddMousePosEvent`, `AddMouseButtonEvent`. -/
inductive InputEvent where
  | Key (key : ImGuiKey) (down : Bool)
  | Char (c : Nat)
  | MousePos (x y : F32)
  | MouseButton (button : Nat) (down : Bool)
deriving DecidableEq

/-- Integer `ImClamp`.
Modelled from the spec: `ImClamp` is declared by the GUI library, outside `src/`; it is
`(v < mn) ? mn : (v > mx) ? mx : v`. -/
def ImClampI (v mn mx : Int) : Int := if v < mn then mn else if v > mx then mx else v

/-- The keyboard part of `ImGui_ImplUefi_ProcessInputEvents`: the events emitted for the
outcome `keyRead` of `ReadKeyStroke` (`none` when the call reports an error). -/
def processKeyboard (bd : ImGui_ImplUefi_Data) (keyRead : Option EFI_INPUT_KEY) :
    List InputEvent :=
  match bd.TextInput, keyRead with
  | some _, some key =>
      (if key.ScanCode ≠ SCAN_NULL then
          (if UefiKeyToImGuiKey key.ScanCode ≠ ImGuiKey.None then
            [InputEvent.Key (UefiKeyToImGuiKey key.ScanCode) true,
             InputEvent.Key (UefiKeyToImGuiKey key.ScanCode) false]
          else [])
        else []) ++
      (if key.UnicodeChar ≠ 0 then [InputEvent.Char key.UnicodeChar] else [])
  | _, _ => []

/-- The pointer part of `ImGui_ImplUefi_ProcessInputEvents`: the new backend data and the
events emitted for the outcome `ptrRead` of `GetState` (`none` when the call reports an
error).  The division by 1000 truncates toward zero; the additions are `INT32` additions. -/
def processPointer (bd : ImGui_ImplUefi_Data) (ptrRead : Option EFI_SIMPLE_POINTER_STATE) :
    ImGui_ImplUefi_Data × List InputEvent :=
  match bd.Pointer, ptrRead with
  | some _, some state =>
      let mouseX := ImClampI (wrapI32 (bd.MouseX + Int.tdiv state.RelativeMovementX 1000)) 0
        (wrapI32 (wrapI32 bd.ScreenWidth - 1))
      let mouseY := ImClampI (wrapI32 (bd.MouseY + Int.tdiv state.RelativeMovementY 1000)) 0
        (wrapI32 (wrapI32 bd.ScreenHeight - 1))
      let left : Bool := decide (state.LeftButton ≠ 0)
      let right : Bool := decide (state.RightButton ≠ 0)
      let ev1 := [InputEvent.MousePos (F32.ofInt mouseX) (F32.ofInt mouseY)]
      let down1 := if left ≠ bd.MouseButtonDown 0 then
          Function.update bd.MouseButtonDown 0 left else bd.MouseButtonDown
      let ev2 := if left ≠ bd.MouseButtonDown 0 then [InputEvent.MouseButton 0 left] else []
      let down2 := if right ≠ down1 1 then Function.update down1 1 right else down1
      let ev3 := if right ≠ down1 1 then [InputEvent.MouseButton 1 right] else []
      ({ bd with MouseX := mouseX, MouseY := mouseY, MouseButtonDown := down2 },
        ev1 ++ ev2 ++ ev3)
  | _, _ => (bd, [])

/-- The function `ImGui_ImplUefi_ProcessInputEvents` on registered backend data: the new
backend data and the events put into the input queue, in order.  `keyRead` and `ptrRead`
are the outcomes of the device reads; a read is only made when the device handle is not
null. -/
def ImGui_ImplUefi_ProcessInputEvents (bd : ImGui_ImplUefi_Data)
    (keyRead : Option EFI_INPUT_KEY) (ptrRead : Option EFI_SIMPLE_POINTER_STATE) :
    ImGui_ImplUefi_Data × List InputEvent :=
  ((processPointer bd ptrRead).1, processKeyboard bd keyRead ++ (processPointer bd ptrRead).2)

/-- The button events among the events. -/
def buttonEvents (events : List InputEvent) : List InputEvent :=
  events.filter (fun e => match e with
    | InputEvent.MouseButton _ _ => true
    | _ => false)

/-- Backend data with a pointer device and a keyboard on a 4 by 4 screen. -/
def pointerData : ImGui_ImplUefi_Data :=
  { exampleData 4 4 with TextInput := some 1, Pointer := some 2 }

/-! ## Line drawing

Signed `INT32` arithmetic of `DrawLine` is reduced with `wrapI32`; the theorems state the
ranges in which no operation overflows.  The loop `while (true)` is unrolled for at most
`fuel` iterations. -/

/-- The guarded assignment at the start of the loop body of `DrawLine`. -/
def DrawLine.plot (width height : Nat) (color : Nat) (buffer : Buffer) (p : Int × Int) :
    Buffer :=
  if 0 ≤ p.1 ∧ p.1 < wrapI32 width ∧ 0 ≤ p.2 ∧ p.2 < wrapI32 height then
    buffer.write (cellIndex width p.1 p.2) color
  else buffer

/-- The updates at the end of the loop body of `DrawLine`: the new `x0`, `y0` and `err`.
Both tests use the value `e2 = 2 * err` computed before the updates. -/
def DrawLine.next (dx dy sx sy : Int) (x0 y0 err : Int) : Int × Int × Int :=
  let e2 := wrapI32 (2 * err)
  let err1 := if e2 > wrapI32 (-dy) then wrapI32 (err - dy) else err
  let x0n := if e2 > wrapI32 (-dy) then wrapI32 (x0 + sx) else x0
  let err2 := if e2 < dx then wrapI32 (err1 + dx) else err1
  let y0n := if e2 < dx then wrapI32 (y0 + sy) else y0
  (x0n, y0n, err2)

/-- The loop of `DrawLine` for at most `fuel` iterations: the buffer reached and whether
the `break` was reached. -/
def DrawLine.loop (width height : Nat) (x1 y1 dx dy sx sy : Int) (color : Nat) :
    Nat → Buffer → Int → Int → Int → Buffer × Bool
  | 0, buffer, _, _, _ => (buffer, false)
  | fuel + 1, buffer, x0, y0, err =>
      if x0 = x1 ∧ y0 = y1 then (DrawLine.plot width height color buffer (x0, y0), true)
      else
        DrawLine.loop width height x1 y1 dx dy sx sy color fuel
          (DrawLine.plot width height color buffer (x0, y0))
          (DrawLine.next dx dy sx sy x0 y0 err).1
          (DrawLine.next dx dy sx sy x0 y0 err).2.1
          (DrawLine.next dx dy sx sy x0 y0 err).2.2

/-- The positions `(x0, y0)` of the iterations of the loop of `DrawLine`, for at most `fuel`
iterations. -/
def DrawLine.visited (x1 y1 dx dy sx sy : Int) : Nat → Int → Int → Int → List (Int × Int)
  | 0, _, _, _ => []
  | fuel + 1, x0, y0, err =>
      if x0 = x1 ∧ y0 = y1 then [(x0, y0)]
      else
        (x0, y0) :: DrawLine.visited x1 y1 dx dy sx sy fuel
          (DrawLine.next dx dy sx sy x0 y0 err).1
          (DrawLine.next dx dy sx sy x0 y0 err).2.1
          (DrawLine.next dx dy sx sy x0 y0 err).2.2

/-- The value `dx` of `DrawLine`: `(x1 - x0) >= 0 ? (x1 - x0) : -(x1 - x0)`. -/
def DrawLine.absDiff (a b : Int) : Int :=
  if wrapI32 (b - a) ≥ 0 then wrapI32 (b - a) else wrapI32 (-wrapI32 (b - a))

/-- The value `sx` of `DrawLine`: `x0 < x1 ? 1 : -1`. -/
def DrawLine.sign (a b : Int) : Int := if a < b then 1 else -1

/-- The early returns of `DrawLine`: both end points beyond the same bound of one axis. -/
def DrawLine.rejected (width height : Nat) (x0 y0 x1 y1 : Int) : Bool :=
  decide (x0 < 0 ∧ x1 < 0) || decide (y0 < 0 ∧ y1 < 0) ||
    decide (x0 ≥ wrapI32 width ∧ x1 ≥ wrapI32 width) ||
    decide (y0 ≥ wrapI32 height ∧ y1 ≥ wrapI32 height)

/-- The function `DrawLine` with its loop unrolled for at most `fuel` iterations: the
buffer reached and whether the function has returned. -/
def DrawLine.run (fuel : Nat) (buffer : Buffer) (width height : Nat) (x0 y0 x1 y1 : Int)
    (color : Nat) : Buffer × Bool :=
  if DrawLine.rejected width height x0 y0 x1 y1 then (buffer, true)
  else
    DrawLine.loop width height x1 y1 (DrawLine.absDiff x0 x1) (DrawLine.absDiff y0 y1)
      (DrawLine.sign x0 x1) (DrawLine.sign y0 y1) color fuel buffer x0 y0
      (wrapI32 (DrawLine.absDiff x0 x1 - DrawLine.absDiff y0 y1))

/-- The function `DrawLine`: the buffer it returns, `none` when the loop has not reached
its `break` within `fuel` iterations. -/
def DrawLine (fuel : Nat) (buffer : Buffer) (width height : Nat) (x0 y0 x1 y1 : Int)
    (color : Nat) : Option Buffer :=
  if (DrawLine.run fuel buffer width height x0 y0 x1 y1 color).2 then
    some (DrawLine.run fuel buffer width height x0 y0 x1 y1 color).1
  else none

/-- The positions of the loop iterations of a `DrawLine` call (none after an early
return). -/
def DrawLine.points (fuel : Nat) (width height : Nat) (x0 y0 x1 y1 : Int) :
    List (Int × Int) :=
  if DrawLine.rejected width height x0 y0 x1 y1 then []
  else
    DrawLine.visited x1 y1 (DrawLine.absDiff x0 x1) (DrawLine.absDiff y0 y1)
      (DrawLine.sign x0 x1) (DrawLine.sign y0 y1) fuel x0 y0
      (wrapI32 (DrawLine.absDiff x0 x1 - DrawLine.absDiff y0 y1))

/-- The position is inside the buffer as the guard of the loop body tests it. -/
def DrawLine.inBounds (width height : Nat) (p : Int × Int) : Bool :=
  decide (0 ≤ p.1 ∧ p.1 < wrapI32 width ∧ 0 ≤ p.2 ∧ p.2 < wrapI32 height)

/-- The exact result of an `INT32` operation is representable, so the operation does not
overflow. -/
def DrawLine.inRange (v : Int) : Bool := decide (-2147483648 ≤ v ∧ v < 2147483648)

/-- No `INT32` operation at the end of one loop iteration of `DrawLine` overflows: `2 * err`
and `-dy`, then `err - dy` and `x0 + sx` when the first test holds, then `err + dx` and
`y0 + sy` when the second test holds. -/
def DrawLine.stepOk (dx dy sx sy : Int) (x0 y0 err : Int) : Bool :=
  DrawLine.inRange (2 * err) && DrawLine.inRange (-dy) &&
    (if 2 * err > -dy then DrawLine.inRange (err - dy) && DrawLine.inRange (x0 + sx)
      else true) &&
    (if 2 * err < dx then
      DrawLine.inRange ((if 2 * err > -dy then err - dy else err) + dx) &&
        DrawLine.inRange (y0 + sy)
      else true)

/-- No `INT32` operation of the first `fuel` iterations of the loop of `DrawLine`
overflows. -/
def DrawLine.noOverflow (x1 y1 dx dy sx sy : Int) : Nat → Int → Int → Int → Bool
  | 0, _, _, _ => true
  | fuel + 1, x0, y0, err =>
      if x0 = x1 ∧ y0 = y1 then true
      else
        DrawLine.stepOk dx dy sx sy x0 y0 err &&
          DrawLine.noOverflow x1 y1 dx dy sx sy fuel
            (DrawLine.next dx dy sx sy x0 y0 err).1
            (DrawLine.next dx dy sx sy x0 y0 err).2.1
            (DrawLine.next dx dy sx sy x0 y0 err).2.2

/-- No `INT32` operation of `(b - a) >= 0 ? (b - a) : -(b - a)` overflows. -/
def DrawLine.absDiffOk (a b : Int) : Bool :=
  DrawLine.inRange (b - a) && (if b - a ≥ 0 then true else DrawLine.inRange (-(b - a)))

/-- No `INT32` operation of a `DrawLine` call overflows within the first `fuel` iterations
of its loop: the differences of the end points, their negations, `dx - dy`, and the
operations of the iterations. -/
def DrawLine.arithOk (fuel : Nat) (x0 y0 x1 y1 : Int) : Bool :=
  DrawLine.absDiffOk x0 x1 && DrawLine.absDiffOk y0 y1 &&
    DrawLine.inRange (DrawLine.absDiff x0 x1 - DrawLine.absDiff y0 y1) &&
    DrawLine.noOverflow x1 y1 (DrawLine.absDiff x0 x1) (DrawLine.absDiff y0 y1)
      (DrawLine.sign x0 x1) (DrawLine.sign y0 y1) fuel x0 y0
      (wrapI32 (DrawLine.absDiff x0 x1 - DrawLine.absDiff y0 y1))


/-! ## Input pipeline: events by channel, sequences of polls -/

/-- The keyboard events among the events: key events and text-input events. -/
def keyboardEvents (events : List InputEvent) : List InputEvent :=
  events.filter (fun e => match e with
    | InputEvent.Key _ _ => true
    | InputEvent.Char _ => true
    | _ => false)

/-- The position events among the events. -/
def positionEvents (events : List InputEvent) : List InputEvent :=
  events.filter (fun e => match e with
    | InputEvent.MousePos _ _ => true
    | _ => false)

/-- The backend data after a sequence of calls of `ImGui_ImplUefi_ProcessInputEvents`, one
for each pair of outcomes of the two device reads. -/
def pollAll (bd : ImGui_ImplUefi_Data)
    (reads : List (Option EFI_INPUT_KEY × Option EFI_SIMPLE_POINTER_STATE)) :
    ImGui_ImplUefi_Data :=
  reads.foldl (fun b r => (ImGui_ImplUefi_ProcessInputEvents b r.1 r.2).1) bd

/-! ## Lifecycle -/

/-- The fields of `ImGuiIO` that the backend reads and writes.
`BackendRendererUserData = none` is the null pointer: no backend data is registered. -/
structure ImGuiIO where
  BackendRendererUserData : Option ImGui_ImplUefi_Data
  BackendRendererName : Option String
  BackendFlags : Nat
  DisplaySize : ImVec2

/-- The flag `ImGuiBackendFlags_RendererHasTextures`.
Modelled from the spec: the constant is declared by the GUI library, outside `src/`; its
value there is `1 << 4`. -/
def ImGuiBackendFlags_RendererHasTextures : Nat := 16

/-- What `ImGui_ImplUefi_Init` reads of the graphics output protocol: its address and the
resolution of the current mode. -/
structure EFI_GRAPHICS_OUTPUT_PROTOCOL where
  address : Nat
  HorizontalResolution : Nat
  VerticalResolution : Nat
deriving DecidableEq

/-- The function `ImGui_ImplUefi_GetBackendData`: the registered backend data of the
current context, null when there is no current context (`none`). -/
def ImGui_ImplUefi_GetBackendData (ctx : Option ImGuiIO) : Option ImGui_ImplUefi_Data :=
  match ctx with
  | some io => io.BackendRendererUserData
  | none => none

/-- What the environment does during one call of `ImGui_ImplUefi_Init`: whether `IM_ASSERT`
is compiled to a check that halts the program, the outcomes of the three allocations, the
content of the frame buffer as allocated, and the font atlas of the GUI library. -/
structure InitEnv where
  assertsEnabled : Bool
  dataAllocOk : Bool
  frameBufferAllocOk : Bool
  frameBufferContent : Buffer
  textureAllocOk : Bool
  fontPixels : Nat → Nat
  fontWidth : Int
  fontHeight : Int

/-- The function `ImGui_ImplUefi_Init`: its return value and the `ImGuiIO` after the call;
`none` when the call does not return because `IM_ASSERT` halts the program.
`FrameBufferSize` is the `UINT32` product of the resolutions times `sizeof(UINT32)`. -/
def ImGui_ImplUefi_Init (io : ImGuiIO) (env : InitEnv) (gop : EFI_GRAPHICS_OUTPUT_PROTOCOL)
    (textInput pointer : Option Nat) : Option (Bool × ImGuiIO) :=
  if env.assertsEnabled = true ∧ io.BackendRendererUserData.isSome = true then none
  else if env.dataAllocOk = false then some (false, io)
  else
    let bd : ImGui_ImplUefi_Data :=
      { zeroData with
        Gop := gop.address, TextInput := textInput, Pointer := pointer, NextTextureId := 1,
        ScreenWidth := gop.HorizontalResolution, ScreenHeight := gop.VerticalResolution,
        FrameBufferSize :=
          (gop.HorizontalResolution * gop.VerticalResolution) % 4294967296 * 4 }
    let io1 : ImGuiIO :=
      { io with
        BackendRendererName := some "imgui_impl_uefi",
        BackendFlags := io.BackendFlags ||| ImGuiBackendFlags_RendererHasTextures,
        DisplaySize := ⟨F32.ofInt gop.HorizontalResolution, F32.ofInt gop.VerticalResolution⟩ }
    if env.frameBufferAllocOk = false then
      some (false, { io1 with BackendRendererUserData := some bd })
    else
      let r := ImGui_ImplUefi_CreateDeviceObjects
        { bd with FrameBuffer := some (clearBuffer env.frameBufferContent bd.FrameBufferSize) }
        env.textureAllocOk env.fontPixels env.fontWidth env.fontHeight
      some (r.1, { io1 with BackendRendererUserData := some r.2 })

/-- The function `ImGui_ImplUefi_RenderDrawData` as called by the application: the context
after the call and the effects; `none` when the call evaluates `bd->FrameBuffer` with a null
`bd` (no backend data registered).  The test `!draw_data || !bd->FrameBuffer` evaluates its
second operand only for a non-null `draw_data`. -/
def ImGui_ImplUefi_RenderDrawData.call (ctx : Option ImGuiIO) (draw_data : Option ImDrawData) :
    Option (Option ImGuiIO × List Effect) :=
  match draw_data, ImGui_ImplUefi_GetBackendData ctx with
  | none, _ => some (ctx, [])
  | some _, none => none
  | some dd, some bd =>
      let r := ImGui_ImplUefi_RenderDrawData bd (some dd)
      some (ctx.map (fun io => { io with BackendRendererUserData := some r.1 }), r.2)

/-- An `ImGuiIO` of a context for which no backend is registered. -/
def freshContext : ImGuiIO :=
  { BackendRendererUserData := none, BackendRendererName := none, BackendFlags := 0,
    DisplaySize := ⟨F32.ofInt 0, F32.ofInt 0⟩ }

/-- An environment in which asserts are compiled out, every allocation succeeds and the font
atlas is one white pixel. -/
def plainEnv : InitEnv :=
  { assertsEnabled := false, dataAllocOk := true, frameBufferAllocOk := true,
    frameBufferContent := fun _ => 7, textureAllocOk := true,
    fontPixels := fun _ => 255, fontWidth := 1, fontHeight := 1 }


/-! ## Write trace of a frame -/

/-- The amount by which the command loop advances the index cursor at a command:
`ElemCount`, and nothing for a geometry command that the clip rectangle test rejects (its
`continue` skips the advance). -/
def renderCmd.advance (ScreenWidth ScreenHeight : Nat) (cmd : ImDrawCmd) : Nat :=
  match cmd.UserCallback with
  | some _ => cmd.ElemCount
  | none =>
      if clipRejected ScreenWidth ScreenHeight (F32.toInt32 cmd.ClipRect.x)
          (F32.toInt32 cmd.ClipRect.y)
          (F32.toInt32 (F32.sub cmd.ClipRect.z cmd.ClipRect.x))
          (F32.toInt32 (F32.sub cmd.ClipRect.w cmd.ClipRect.y)) then 0
      else cmd.ElemCount

/-- The assignments made while the commands of a list are processed, the index cursor
being at `idx` before the first of them. -/
def renderCmds.writes (ScreenWidth ScreenHeight : Nat) (vtx : List ImDrawVert)
    (idxBuf : List Nat) : Nat → List ImDrawCmd → List PixelWrite
  | _, [] => []
  | idx, cmd :: rest =>
      renderCmd.writes ScreenWidth ScreenHeight vtx idxBuf idx cmd ++
        renderCmds.writes ScreenWidth ScreenHeight vtx idxBuf
          (idx + renderCmd.advance ScreenWidth ScreenHeight cmd) rest

/-- The assignments made while the command lists of a frame are processed. -/
def renderLists.writes (ScreenWidth ScreenHeight : Nat) : List ImDrawList → List PixelWrite
  | [] => []
  | cmd_list :: rest =>
      renderCmds.writes ScreenWidth ScreenHeight cmd_list.VtxBuffer cmd_list.IdxBuffer 0
          cmd_list.CmdBuffer ++
        renderLists.writes ScreenWidth ScreenHeight rest

/-- The effect is the invocation of a user callback. -/
def Effect.isCallback : Effect → Bool
  | Effect.Callback _ _ _ => true
  | Effect.Blt _ _ _ _ _ _ _ _ => false


/-! ## Basic lemmas -/

theorem mem_intRange (lo hi v : Int) : v ∈ intRange lo hi ↔ lo ≤ v ∧ v ≤ hi := by
  unfold intRange
  simp only [List.mem_map, List.mem_range]
  constructor
  · rintro ⟨k, hk, rfl⟩
    omega
  · rintro ⟨h1, h2⟩
    exact ⟨(v - lo).toNat, by omega, by omega⟩

theorem applyWrites_nil (width : Nat) (buffer : Buffer) : applyWrites width buffer [] = buffer :=
  rfl

theorem applyWrites_cons (width : Nat) (buffer : Buffer) (p : PixelWrite) (ws : List PixelWrite) :
    applyWrites width buffer (p :: ws) =
      applyWrites width (buffer.write (cellIndex width p.x p.y) p.col) ws := rfl

theorem applyWrites_append (width : Nat) (buffer : Buffer) (ws ws2 : List PixelWrite) :
    applyWrites width buffer (ws ++ ws2) = applyWrites width (applyWrites width buffer ws) ws2 := by
  unfold applyWrites
  exact List.foldl_append _ _ _ _

/-- A cell that no assignment of the trace addresses keeps its value. -/
theorem applyWrites_of_not_mem (width : Nat) (ws : List PixelWrite) (buffer : Buffer) (i : Nat)
    (h : ∀ p ∈ ws, cellIndex width p.x p.y ≠ i) : applyWrites width buffer ws i = buffer i := by
  induction ws generalizing buffer with
  | nil => rfl
  | cons p ws ih =>
    rw [applyWrites_cons, ih]
    · have hp := h p (List.mem_cons_self _ _)
      simp only [Buffer.write]
      rw [if_neg (fun hi => hp hi.symm)]
    · intro q hq
      exact h q (List.mem_cons_of_mem _ hq)

/-- A cell that some assignment addresses, all assignments carrying the colour `c`, holds `c`. -/
theorem applyWrites_of_mem (width : Nat) (c : Nat) (ws : List PixelWrite) (buffer : Buffer)
    (i : Nat) (hc : ∀ p ∈ ws, p.col = c) (h : ∃ p ∈ ws, cellIndex width p.x p.y = i) :
    applyWrites width buffer ws i = c := by
  induction ws generalizing buffer with
  | nil => obtain ⟨p, hp, _⟩ := h; cases hp
  | cons q ws ih =>
    rw [applyWrites_cons]
    by_cases hex : ∃ p ∈ ws, cellIndex width p.x p.y = i
    · exact ih _ (fun p hp => hc p (List.mem_cons_of_mem _ hp)) hex
    · rw [applyWrites_of_not_mem]
      · obtain ⟨p, hp, hpi⟩ := h
        rcases List.mem_cons.1 hp with rfl | hp2
        · simp [Buffer.write, hpi, hc p (List.mem_cons_self _ _)]
        · exact absurd ⟨p, hp2, hpi⟩ hex
      · intro p hp hpi
        exact hex ⟨p, hp, hpi⟩

theorem FillTriangle_row_eq (width : Nat) (p0 p1 p2 : ImVec2) (col0 : Nat) (y : Int)
    (xs : List Int) (buffer : Buffer) :
    xs.foldl (FillTriangle.pixel width p0 p1 p2 col0 y) buffer =
      applyWrites width buffer
        ((xs.filter (fun x => !FillTriangle.degenerate p0 p1 p2 &&
            FillTriangle.inside p0 p1 p2 x y)).map (fun x => ⟨x, y, col0⟩)) := by
  induction xs generalizing buffer with
  | nil => rfl
  | cons x xs ih =>
    rw [List.foldl_cons, ih, List.filter_cons]
    unfold FillTriangle.pixel
    cases hd : FillTriangle.degenerate p0 p1 p2 <;>
      cases hi : FillTriangle.inside p0 p1 p2 x y <;> simp [applyWrites_cons]

/-- The function `FillTriangle` performs exactly the assignments of its trace. -/
theorem FillTriangle_eq_applyWrites (buffer : Buffer) (width height : Nat) (p0 p1 p2 : ImVec2)
    (col0 col1 col2 : Nat) :
    FillTriangle buffer width height p0 p1 p2 col0 col1 col2 =
      applyWrites width buffer (FillTriangle.writes width height p0 p1 p2 col0) := by
  unfold FillTriangle FillTriangle.writes
  generalize intRange (FillTriangle.minY p0 p1 p2) (FillTriangle.maxY height p0 p1 p2) = ys
  induction ys generalizing buffer with
  | nil => rfl
  | cons y ys ih =>
    rw [List.foldl_cons, ih, List.flatMap_cons, applyWrites_append, FillTriangle_row_eq]

theorem mem_FillTriangle_writes (width height : Nat) (p0 p1 p2 : ImVec2) (col0 : Nat)
    (p : PixelWrite) :
    p ∈ FillTriangle.writes width height p0 p1 p2 col0 ↔
      (FillTriangle.minX p0 p1 p2 ≤ p.x ∧ p.x ≤ FillTriangle.maxX width p0 p1 p2) ∧
      (FillTriangle.minY p0 p1 p2 ≤ p.y ∧ p.y ≤ FillTriangle.maxY height p0 p1 p2) ∧
      FillTriangle.degenerate p0 p1 p2 = false ∧ FillTriangle.inside p0 p1 p2 p.x p.y = true ∧
      p.col = col0 := by
  unfold FillTriangle.writes
  simp only [List.mem_flatMap, List.mem_map, List.mem_filter, mem_intRange, Bool.and_eq_true,
    Bool.not_eq_true']
  constructor
  · rintro ⟨y, hy, x, ⟨hx, hd, hi⟩, rfl⟩
    exact ⟨hx, hy, hd, hi, rfl⟩
  · rintro ⟨hx, hy, hd, hi, hc⟩
    refine ⟨p.y, hy, p.x, ⟨hx, hd, hi⟩, ?_⟩
    cases p
    simp_all


theorem clamp_upper_lt (w : Nat) (v : Int) (h0 : 0 ≤ v) (h : v ≤ wrapI32 (wrapI32 w - 1)) :
    v < (w : Int) := by
  unfold wrapI32 at h
  omega

theorem clamp_upper_eq (w : Nat) (hw : w < 2147483648) :
    wrapI32 (wrapI32 w - 1) = (w : Int) - 1 := by
  unfold wrapI32
  omega

theorem ImMaxI_eq_max (a b : Int) : ImMaxI a b = max a b := by
  unfold ImMaxI
  split <;> omega

theorem ImMinI_eq_min (a b : Int) : ImMinI a b = min a b := by
  unfold ImMinI
  split <;> omega

theorem wrapU32_le (v : Int) (h0 : 0 ≤ v) : ((wrapU32 v : Nat) : Int) ≤ v := by
  unfold wrapU32
  omega

theorem wrapU32_eq (v : Int) (h0 : 0 ≤ v) (h1 : v < 4294967296) : wrapU32 v = v.toNat := by
  unfold wrapU32
  omega

/-- Inside a `w` by `h` grid the cell index and the row-major offset are below `w * h`. -/
theorem cellIndex_lt (w h : Nat) (x y : Int) (hx0 : 0 ≤ x) (hx : x < w) (hy0 : 0 ≤ y)
    (hy : y < h) :
    cellIndex w x y ≤ y.toNat * w + x.toNat ∧ y.toNat * w + x.toNat < w * h := by
  have h1 : wrapU32 y ≤ y.toNat := by have := wrapU32_le y hy0; omega
  have h2 : wrapU32 x ≤ x.toNat := by have := wrapU32_le x hx0; omega
  have h3 : y.toNat + 1 ≤ h := by omega
  have h4 : x.toNat < w := by omega
  have h5 : (y.toNat + 1) * w ≤ h * w := Nat.mul_le_mul_right w h3
  have h6 : wrapU32 y * w ≤ y.toNat * w := Nat.mul_le_mul_right w h1
  constructor
  · unfold cellIndex
    calc (wrapU32 y * w + wrapU32 x) % 4294967296 ≤ wrapU32 y * w + wrapU32 x := Nat.mod_le _ _
      _ ≤ y.toNat * w + x.toNat := Nat.add_le_add h6 h2
  · calc y.toNat * w + x.toNat < y.toNat * w + w := by omega
      _ = (y.toNat + 1) * w := by ring
      _ ≤ h * w := h5
      _ = w * h := Nat.mul_comm _ _

/-- Every assignment of `FillTriangle` is inside the clamped bounding box. -/
theorem FillTriangle_writes_box (width height : Nat) (p0 p1 p2 : ImVec2) (col0 : Nat)
    (p : PixelWrite) (hp : p ∈ FillTriangle.writes width height p0 p1 p2 col0) :
    (max (bboxMinX p0 p1 p2) 0 ≤ p.x ∧ p.x ≤ min (bboxMaxX p0 p1 p2) ((width : Int) - 1)) ∧
    (max (bboxMinY p0 p1 p2) 0 ≤ p.y ∧ p.y ≤ min (bboxMaxY p0 p1 p2) ((height : Int) - 1)) := by
  rw [mem_FillTriangle_writes] at hp
  obtain ⟨⟨hx1, hx2⟩, ⟨hy1, hy2⟩, -⟩ := hp
  unfold FillTriangle.minX at hx1
  unfold FillTriangle.maxX at hx2
  unfold FillTriangle.minY at hy1
  unfold FillTriangle.maxY at hy2
  rw [ImMaxI_eq_max] at hx1 hy1
  rw [ImMinI_eq_min] at hx2 hy2
  simp only [max_le_iff, le_min_iff] at hx1 hx2 hy1 hy2 ⊢
  have hx3 := clamp_upper_lt width p.x hx1.2 hx2.2
  have hy3 := clamp_upper_lt height p.y hy1.2 hy2.2
  exact ⟨⟨hx1, hx2.1, by omega⟩, ⟨hy1, hy2.1, by omega⟩⟩

/-- C3: `FillTriangle` changes only cells of the bounding box of the vertices clamped to the
buffer: a cell that is not the cell `y * w + x` of a pixel `(x, y)` with
`max(minX,0) <= x <= min(maxX,w-1)` and `max(minY,0) <= y <= min(maxY,h-1)` keeps its value;
every assignment is to such a pixel, and its index `y * w + x` is below `w * h`; nothing is
assigned when `w = 0`, `h = 0` or the bounding box is off the screen. -/
theorem FillTriangle_frame (buffer : Buffer) (w h : Nat) (p0 p1 p2 : ImVec2)
    (col0 col1 col2 : Nat) :
    (∀ i, (¬ ∃ x y : Int,
          (max (bboxMinX p0 p1 p2) 0 ≤ x ∧ x ≤ min (bboxMaxX p0 p1 p2) ((w : Int) - 1)) ∧
          (max (bboxMinY p0 p1 p2) 0 ≤ y ∧ y ≤ min (bboxMaxY p0 p1 p2) ((h : Int) - 1)) ∧
          i = cellIndex w x y) →
        FillTriangle buffer w h p0 p1 p2 col0 col1 col2 i = buffer i) ∧
    (∀ p ∈ FillTriangle.writes w h p0 p1 p2 col0,
        (max (bboxMinX p0 p1 p2) 0 ≤ p.x ∧ p.x ≤ min (bboxMaxX p0 p1 p2) ((w : Int) - 1)) ∧
        (max (bboxMinY p0 p1 p2) 0 ≤ p.y ∧ p.y ≤ min (bboxMaxY p0 p1 p2) ((h : Int) - 1)) ∧
        cellIndex w p.x p.y ≤ p.y.toNat * w + p.x.toNat ∧
        p.y.toNat * w + p.x.toNat < w * h) ∧
    ((w = 0 ∨ h = 0 ∨ bboxMaxX p0 p1 p2 < 0 ∨ bboxMaxY p0 p1 p2 < 0 ∨
        (w : Int) ≤ bboxMinX p0 p1 p2 ∨ (h : Int) ≤ bboxMinY p0 p1 p2) →
      FillTriangle.writes w h p0 p1 p2 col0 = [] ∧
      FillTriangle buffer w h p0 p1 p2 col0 col1 col2 = buffer) := by
  refine ⟨?_, ?_, ?_⟩
  · intro i hi
    rw [FillTriangle_eq_applyWrites]
    apply applyWrites_of_not_mem
    intro p hp hpi
    have hb := FillTriangle_writes_box w h p0 p1 p2 col0 p hp
    exact hi ⟨p.x, p.y, hb.1, hb.2, hpi.symm⟩
  · intro p hp
    have hb := FillTriangle_writes_box w h p0 p1 p2 col0 p hp
    have hb2 := hb
    simp only [max_le_iff, le_min_iff] at hb2
    have hl := cellIndex_lt w h p.x p.y hb2.1.1.2 (by omega) hb2.2.1.2 (by omega)
    exact ⟨hb.1, hb.2, hl.1, hl.2⟩
  · intro hoff
    have hnil : FillTriangle.writes w h p0 p1 p2 col0 = [] := by
      apply List.eq_nil_iff_forall_not_mem.2
      intro p hp
      have hb := FillTriangle_writes_box w h p0 p1 p2 col0 p hp
      simp only [max_le_iff, le_min_iff] at hb
      omega
    refine ⟨hnil, ?_⟩
    rw [FillTriangle_eq_applyWrites, hnil]
    rfl


/-! ## Float comparisons and the denoted rationals -/

theorem F32.toRat_eq_scaled (x : F32) (e : Int) (h : e ≤ x.e) :
    x.toRat = ((x.m * 2 ^ (x.e - e).toNat : Int) : ℚ) * (2 : ℚ) ^ e := by
  unfold F32.toRat
  have h1 : x.e = ((x.e - e).toNat : Int) + e := by omega
  have h2 : (2 : ℚ) ^ x.e = (2 : ℚ) ^ (x.e - e).toNat * (2 : ℚ) ^ e := by
    conv_lhs => rw [h1]
    rw [zpow_add₀ (by norm_num : (2 : ℚ) ≠ 0), zpow_natCast]
  rw [h2]
  push_cast
  ring

/-- The comparison `x < y` of the model is the comparison of the denoted rationals. -/
theorem F32.lt_iff (x y : F32) : F32.lt x y = true ↔ x.toRat < y.toRat := by
  unfold F32.lt
  simp only [decide_eq_true_eq]
  rw [F32.toRat_eq_scaled x (min x.e y.e) (min_le_left _ _),
    F32.toRat_eq_scaled y (min x.e y.e) (min_le_right _ _)]
  have hpos : (0 : ℚ) < (2 : ℚ) ^ (min x.e y.e) := zpow_pos (by norm_num) _
  rw [mul_lt_mul_right hpos]
  exact Int.cast_lt.symm

theorem F32.ge_iff (x y : F32) : F32.ge x y = true ↔ y.toRat ≤ x.toRat := by
  unfold F32.ge
  rw [Bool.not_eq_true', ← Bool.not_eq_true, F32.lt_iff, not_lt]

theorem F32.gt_iff (x y : F32) : F32.gt x y = true ↔ y.toRat < x.toRat := by
  unfold F32.gt
  exact F32.lt_iff y x

theorem F32.toRat_neg (x : F32) : (F32.neg x).toRat = -x.toRat := by
  unfold F32.neg F32.toRat
  push_cast
  ring

theorem F32.toRat_ofInt_zero : (F32.ofInt 0).toRat = 0 := by
  have h : F32.ofInt 0 = ⟨0, 0⟩ := by decide
  rw [h]
  simp [F32.toRat]

theorem F32.eps_eq : F32.eps = ⟨8796093, -43⟩ := by decide

theorem F32.eps_pos : 0 < F32.eps.toRat := by
  rw [F32.eps_eq]
  unfold F32.toRat
  positivity

/-- The test of `FillTriangle` on `denom` holds exactly when the denoted value lies strictly
between `-1e-6f` and `1e-6f`. -/
theorem FillTriangle.degenerate_iff (p0 p1 p2 : ImVec2) :
    FillTriangle.degenerate p0 p1 p2 = true ↔
      -F32.eps.toRat < (FillTriangle.denom p0 p1 p2).toRat ∧
      (FillTriangle.denom p0 p1 p2).toRat < F32.eps.toRat := by
  unfold FillTriangle.degenerate
  rw [Bool.and_eq_true, F32.lt_iff, F32.gt_iff, F32.toRat_neg]
  exact And.comm

theorem rowMajor_injective (w a b c d : Nat) (hb : b < w) (hd : d < w)
    (h : a * w + b = c * w + d) : a = c ∧ b = d := by
  rcases Nat.lt_trichotomy a c with hlt | heq | hgt
  · exfalso
    have h1 : (a + 1) * w ≤ c * w := Nat.mul_le_mul_right w hlt
    have h2 : (a + 1) * w = a * w + w := by ring
    omega
  · subst heq
    exact ⟨rfl, by omega⟩
  · exfalso
    have h1 : (c + 1) * w ≤ a * w := Nat.mul_le_mul_right w hgt
    have h2 : (c + 1) * w = c * w + w := by ring
    omega

/-- Without unsigned wrap-around the cell index is the row-major offset. -/
theorem cellIndex_eq (w h : Nat) (hwh : w * h ≤ 4294967296) (x y : Int) (hx0 : 0 ≤ x)
    (hx : x < w) (hy0 : 0 ≤ y) (hy : y < h) : cellIndex w x y = y.toNat * w + x.toNat := by
  have hlt := (cellIndex_lt w h x y hx0 hx hy0 hy).2
  have hw : w ≤ 4294967296 := by
    rcases Nat.eq_zero_or_pos h with h0 | hpos
    · omega
    · calc w = w * 1 := (Nat.mul_one w).symm
        _ ≤ w * h := Nat.mul_le_mul_left w hpos
        _ ≤ 4294967296 := hwh
  have hh : h ≤ 4294967296 := by
    rcases Nat.eq_zero_or_pos w with h0 | hpos
    · omega
    · calc h = 1 * h := (Nat.one_mul h).symm
        _ ≤ w * h := Nat.mul_le_mul_right h hpos
        _ ≤ 4294967296 := hwh
  unfold cellIndex
  rw [wrapU32_eq y hy0 (by omega), wrapU32_eq x hx0 (by omega)]
  exact Nat.mod_eq_of_lt (by omega)

theorem renderTriangle_eq_applyWrites (W H F : Nat) (cmd : ImDrawCmd) (vtx : List ImDrawVert)
    (idxBuf : List Nat) (idx : Nat) (cx cy cw ch : Int) (fb : Buffer) (i : Nat) :
    renderTriangle W H F cmd vtx idxBuf idx cx cy cw ch fb i =
      applyWrites W fb (renderTriangle.writes W H vtx idxBuf idx cx cy cw ch i) := by
  unfold renderTriangle renderTriangle.writes
  simp only
  split
  · rfl
  · split <;> exact FillTriangle_eq_applyWrites _ _ _ _ _ _ _ _ _

theorem foldl_applyWrites_flatMap {α : Type} (W : Nat) (g : α → List PixelWrite) (l : List α)
    (fb : Buffer) :
    l.foldl (fun b i => applyWrites W b (g i)) fb = applyWrites W fb (l.flatMap g) := by
  induction l generalizing fb with
  | nil => rfl
  | cons a l ih => rw [List.foldl_cons, ih, List.flatMap_cons, applyWrites_append]

/-- Processing a command performs exactly the assignments of its trace. -/
theorem renderCmd_fb_eq_applyWrites (W H F : Nat) (vtx : List ImDrawVert) (idxBuf : List Nat)
    (n : Nat) (st : CmdState) (cmd_i : Nat) (cmd : ImDrawCmd) :
    (renderCmd W H F vtx idxBuf n st cmd_i cmd).fb =
      applyWrites W st.fb (renderCmd.writes W H vtx idxBuf st.idx cmd) := by
  unfold renderCmd renderCmd.writes
  cases hcb : cmd.UserCallback with
  | some cb => cases cb <;> rfl
  | none =>
    simp only
    split
    · rfl
    · simp only
      have hfun : renderTriangle W H F cmd vtx idxBuf st.idx (F32.toInt32 cmd.ClipRect.x)
          (F32.toInt32 cmd.ClipRect.y) (F32.toInt32 (F32.sub cmd.ClipRect.z cmd.ClipRect.x))
          (F32.toInt32 (F32.sub cmd.ClipRect.w cmd.ClipRect.y)) =
          fun b i => applyWrites W b (renderTriangle.writes W H vtx idxBuf st.idx
            (F32.toInt32 cmd.ClipRect.x) (F32.toInt32 cmd.ClipRect.y)
            (F32.toInt32 (F32.sub cmd.ClipRect.z cmd.ClipRect.x))
            (F32.toInt32 (F32.sub cmd.ClipRect.w cmd.ClipRect.y)) i) := by
        funext b i
        exact renderTriangle_eq_applyWrites _ _ _ _ _ _ _ _ _ _ _ _ _
      rw [hfun, foldl_applyWrites_flatMap]

/-- The index cursor after a command: advanced by `ElemCount` for a callback command and
for a geometry command that passes the clip rectangle test, not advanced for a geometry
command that the test rejects. -/
theorem renderCmd_idx (W H F : Nat) (vtx : List ImDrawVert) (idxBuf : List Nat)
    (n : Nat) (st : CmdState) (cmd_i : Nat) (cmd : ImDrawCmd) :
    (renderCmd W H F vtx idxBuf n st cmd_i cmd).idx =
      if cmd.UserCallback = none ∧
          clipRejected W H (F32.toInt32 cmd.ClipRect.x) (F32.toInt32 cmd.ClipRect.y)
            (F32.toInt32 (F32.sub cmd.ClipRect.z cmd.ClipRect.x))
            (F32.toInt32 (F32.sub cmd.ClipRect.w cmd.ClipRect.y)) = true
      then st.idx else st.idx + cmd.ElemCount := by
  unfold renderCmd
  cases hcb : cmd.UserCallback with
  | some cb => cases cb <;> simp
  | none =>
    simp only
    split <;> simp_all

/-- C1, evaluation at the failing input: the command with the empty clip rectangle
`(0,0) - (0,0)` and three indices leaves the index cursor at `0`; the command after it then
draws the triangle of the first three indices instead of its own. -/
theorem RenderDrawData_cursor_stuck :
    (renderCmd 4 4 1 [] [0, 1, 2, 3, 4, 5] 0 ⟨fun _ => 0, 0, []⟩ 0 (geometryCmd 0 0 0 0 3)).idx = 0 ∧
    (geometryCmd 0 0 0 0 3).ElemCount = 3 ∧
    frameBufferAfter (exampleData 4 4) (some twoCmdFrame) 0 = 4294967295 ∧
    frameBufferAfter (exampleData 4 4) (some twoCmdFrame) 15 = 0 := by
  decide

/-- C5, evaluation at the scenario: after rendering the triangle `(0,0)`, `(3,0)`, `(0,3)` on
the 4 by 4 screen the frame buffer is white at `(0,0)` and `(0,1)`, and zero at `(1,0)` and
`(3,3)`: at `(1,0)` the weights are `a = fl(6/9)`, `b = fl(3/9)` and
`c = (1 - a) - b = -2^-25`. -/
theorem RenderDrawData_scenario :
    frameBufferAfter (exampleData 4 4) (some (triangleFrame 0 0 4 4)) (0 * 4 + 0) = 4294967295 ∧
    frameBufferAfter (exampleData 4 4) (some (triangleFrame 0 0 4 4)) (1 * 4 + 0) = 4294967295 ∧
    frameBufferAfter (exampleData 4 4) (some (triangleFrame 0 0 4 4)) (0 * 4 + 1) = 0 ∧
    frameBufferAfter (exampleData 4 4) (some (triangleFrame 0 0 4 4)) (3 * 4 + 3) = 0 ∧
    FillTriangle.a (vertexAt 0 0 0).pos (vertexAt 3 0 0).pos (vertexAt 0 3 0).pos 1 0
      = ⟨11184811, -24⟩ ∧
    FillTriangle.b (vertexAt 0 0 0).pos (vertexAt 3 0 0).pos (vertexAt 0 3 0).pos 1 0
      = ⟨11184811, -25⟩ ∧
    FillTriangle.c (vertexAt 0 0 0).pos (vertexAt 3 0 0).pos (vertexAt 0 3 0).pos 1 0
      = ⟨-1, -25⟩ := by
  decide


/-- C2, counterexample: with the clip rectangle `(0,0) - (2,2)` on a 4 by 4 screen
(`clipX = clipY = 0`, `clipW = clipH = 2`) the triangle `(0,0)`, `(3,0)`, `(0,3)` overlaps
the rectangle partly; processing the command assigns the pixel `(0, 3)`, which lies below
the rectangle, and the frame buffer is white there afterwards. -/
theorem RenderDrawData_writes_outside_clip :
    (⟨0, 3, 4294967295⟩ : PixelWrite) ∈
      renderCmd.writes 4 4 [vertexAt 0 0 4294967295, vertexAt 3 0 4294967295,
        vertexAt 0 3 4294967295] [0, 1, 2] 0 (geometryCmd 0 0 2 2 3) ∧
    F32.toInt32 (geometryCmd 0 0 2 2 3).ClipRect.y = 0 ∧
    F32.toInt32 (F32.sub (geometryCmd 0 0 2 2 3).ClipRect.w (geometryCmd 0 0 2 2 3).ClipRect.y)
      = 2 ∧
    ¬ ((3 : Int) < 0 + 2) ∧
    frameBufferAfter (exampleData 4 4) (some (triangleFrame 0 0 2 2)) (3 * 4 + 0) = 4294967295 := by
  decide

/-- C2, amended: every assignment made while a command is processed is to a pixel of the
screen, `0 <= x < ScreenWidth` and `0 <= y < ScreenHeight`, at an index below
`ScreenWidth * ScreenHeight`, and it is an assignment of `FillTriangle` for a triangle of
the command that does not have all three vertices on one side of the clip rectangle. -/
theorem renderCmd_writes_on_screen (W H : Nat) (vtx : List ImDrawVert) (idxBuf : List Nat)
    (idx : Nat) (cmd : ImDrawCmd) (p : PixelWrite)
    (hp : p ∈ renderCmd.writes W H vtx idxBuf idx cmd) :
    (0 ≤ p.x ∧ p.x < (W : Int) ∧ 0 ≤ p.y ∧ p.y < (H : Int)) ∧
    cellIndex W p.x p.y < W * H ∧
    ∃ k, 3 * k < cmd.ElemCount ∧
      triangleRejected (F32.toInt32 cmd.ClipRect.x) (F32.toInt32 cmd.ClipRect.y)
        (F32.toInt32 (F32.sub cmd.ClipRect.z cmd.ClipRect.x))
        (F32.toInt32 (F32.sub cmd.ClipRect.w cmd.ClipRect.y))
        (vtx.getD (idxBuf.getD (idx + 3 * k + 0) 0) default).pos
        (vtx.getD (idxBuf.getD (idx + 3 * k + 1) 0) default).pos
        (vtx.getD (idxBuf.getD (idx + 3 * k + 2) 0) default).pos = false ∧
      p ∈ FillTriangle.writes W H
        (vtx.getD (idxBuf.getD (idx + 3 * k + 0) 0) default).pos
        (vtx.getD (idxBuf.getD (idx + 3 * k + 1) 0) default).pos
        (vtx.getD (idxBuf.getD (idx + 3 * k + 2) 0) default).pos
        (vtx.getD (idxBuf.getD (idx + 3 * k + 0) 0) default).col := by
  unfold renderCmd.writes at hp
  cases hcb : cmd.UserCallback with
  | some cb => rw [hcb] at hp; cases hp
  | none =>
    rw [hcb] at hp
    simp only at hp
    split at hp
    · cases hp
    · rw [List.mem_flatMap] at hp
      obtain ⟨i, hi, hpi⟩ := hp
      rw [List.mem_map] at hi
      obtain ⟨k, hk, rfl⟩ := hi
      rw [List.mem_range] at hk
      unfold renderTriangle.writes at hpi
      simp only at hpi
      split at hpi
      · cases hpi
      · rename_i hrej
        have hb := FillTriangle_writes_box _ _ _ _ _ _ p hpi
        simp only [max_le_iff, le_min_iff] at hb
        have hl := cellIndex_lt W H p.x p.y hb.1.1.2 (by omega) hb.2.1.2 (by omega)
        refine ⟨⟨hb.1.1.2, by omega, hb.2.1.2, by omega⟩, by omega, k, by omega, ?_, hpi⟩
        simpa using hrej

/-- C2, witness of the amended statement: the assignment of the pixel `(0, 3)` in the
counterexample is on the 4 by 4 screen. -/
theorem renderCmd_writes_on_screen_witness :
    ((0 : Int) ≤ 0 ∧ (0 : Int) < 4 ∧ (0 : Int) ≤ 3 ∧ (3 : Int) < 4) ∧
    cellIndex 4 0 3 < 4 * 4 :=
  have h := renderCmd_writes_on_screen 4 4 [vertexAt 0 0 4294967295, vertexAt 3 0 4294967295,
    vertexAt 0 3 4294967295] [0, 1, 2] 0 (geometryCmd 0 0 2 2 3) ⟨0, 3, 4294967295⟩ (by decide)
  ⟨h.1, h.2.1⟩

/-! ## Texture handles of commands -/

theorem renderTriangle_tex (W H F F2 : Nat) (cmd cmd2 : ImDrawCmd) (vtx : List ImDrawVert)
    (idxBuf : List Nat) (idx : Nat) (cx cy cw ch : Int) :
    renderTriangle W H F cmd vtx idxBuf idx cx cy cw ch =
      renderTriangle W H F2 cmd2 vtx idxBuf idx cx cy cw ch := by
  funext fb i
  rw [renderTriangle_eq_applyWrites, renderTriangle_eq_applyWrites]

theorem renderCmd_tex (W H F F2 : Nat) (vtx : List ImDrawVert) (idxBuf : List Nat) (n : Nat)
    (st : CmdState) (cmd_i : Nat) (cmd cmd2 : ImDrawCmd)
    (h : cmd.eraseTex = cmd2.eraseTex) :
    renderCmd W H F vtx idxBuf n st cmd_i cmd = renderCmd W H F2 vtx idxBuf n st cmd_i cmd2 := by
  obtain ⟨r, t, c, u⟩ := cmd
  obtain ⟨r2, t2, c2, u2⟩ := cmd2
  simp only [ImDrawCmd.eraseTex, ImDrawCmd.mk.injEq, true_and] at h
  obtain ⟨rfl, rfl, rfl⟩ := h
  unfold renderCmd
  simp only
  rw [renderTriangle_tex W H F F2 ⟨r, t, c, u⟩ ⟨r, t2, c, u⟩]

theorem renderCmds_tex (W H F F2 : Nat) (vtx : List ImDrawVert) (idxBuf : List Nat) (n : Nat)
    (cmds cmds2 : List ImDrawCmd) (st : CmdState) (cmd_i : Nat)
    (h : cmds.map ImDrawCmd.eraseTex = cmds2.map ImDrawCmd.eraseTex) :
    renderCmds W H F vtx idxBuf n st cmd_i cmds = renderCmds W H F2 vtx idxBuf n st cmd_i cmds2 := by
  induction cmds generalizing cmds2 st cmd_i with
  | nil =>
    cases cmds2 with
    | nil => rfl
    | cons c2 r2 => simp at h
  | cons c r ih =>
    cases cmds2 with
    | nil => simp at h
    | cons c2 r2 =>
      simp only [List.map_cons, List.cons.injEq] at h
      unfold renderCmds
      rw [renderCmd_tex W H F F2 vtx idxBuf n st cmd_i c c2 h.1]
      exact ih r2 _ _ h.2

theorem renderLists_tex (W H F F2 : Nat) (ls ls2 : List ImDrawList) (fb : Buffer)
    (effects : List Effect) (n : Nat)
    (h : ls.map ImDrawList.eraseTex = ls2.map ImDrawList.eraseTex) :
    renderLists W H F fb effects n ls = renderLists W H F2 fb effects n ls2 := by
  induction ls generalizing ls2 fb effects n with
  | nil =>
    cases ls2 with
    | nil => rfl
    | cons c2 r2 => simp at h
  | cons l r ih =>
    cases ls2 with
    | nil => simp at h
    | cons l2 r2 =>
      simp only [List.map_cons, List.cons.injEq] at h
      obtain ⟨cb, ib, vb⟩ := l
      obtain ⟨cb2, ib2, vb2⟩ := l2
      have h1 := h.1
      simp only [ImDrawList.eraseTex, ImDrawList.mk.injEq] at h1
      obtain ⟨hc, rfl, rfl⟩ := h1
      unfold renderLists
      simp only
      rw [renderCmds_tex W H F F2 vb ib n cb cb2 _ _ hc]
      exact ih r2 _ _ _ h.2

/-- C8: two frames that differ only in the texture handles of their commands give the same
frame buffer (and the same backend data and effects), whatever the font texture handles of
the two backend states are. -/
theorem RenderDrawData_texture_independent (bd : ImGui_ImplUefi_Data) (dd dd2 : ImDrawData)
    (font font2 : Nat) (h : dd.eraseTex = dd2.eraseTex) :
    frameBufferAfter { bd with FontTextureId := font } (some dd) =
      frameBufferAfter { bd with FontTextureId := font2 } (some dd2) := by
  have hl : dd.CmdLists.map ImDrawList.eraseTex = dd2.CmdLists.map ImDrawList.eraseTex := by
    simpa [ImDrawData.eraseTex] using h
  unfold frameBufferAfter ImGui_ImplUefi_RenderDrawData
  cases hfb : bd.FrameBuffer with
  | none => simp [hfb]
  | some fb0 =>
    simp only [hfb]
    rw [renderLists_tex bd.ScreenWidth bd.ScreenHeight font font2 dd.CmdLists dd2.CmdLists _ _ _ hl]


/-- C8, witness: the scenario frame with texture handle `1` under font texture `1`, and
with texture handle `77` under font texture `5`. -/
theorem RenderDrawData_texture_independent_witness :
    frameBufferAfter { exampleData 4 4 with FontTextureId := 1 } (some (triangleFrame 0 0 4 4)) =
      frameBufferAfter { exampleData 4 4 with FontTextureId := 5 }
        (some (triangleFrameTex 0 0 4 4 77)) :=
  RenderDrawData_texture_independent (exampleData 4 4) (triangleFrame 0 0 4 4)
    (triangleFrameTex 0 0 4 4 77) 1 5 (by decide)


/-! ## The texture table -/

theorem firstFreeSlot_eq_some_iff (used : Nat → Bool) (i : Nat) :
    firstFreeSlot used = some i ↔
      used i = false ∧ 1 ≤ i ∧ i < 256 ∧ ∀ j, 1 ≤ j → j < i → used j = true := by
  unfold firstFreeSlot MAX_TEXTURES
  rw [List.find?_range'_eq_some]
  simp only [Bool.not_eq_true', List.mem_range'_1, Bool.not_not]
  constructor
  · rintro ⟨h1, ⟨h2, h3⟩, h4⟩
    exact ⟨h1, h2, by omega, h4⟩
  · rintro ⟨h1, h2, h3, h4⟩
    exact ⟨h1, ⟨h2, by omega⟩, h4⟩

theorem firstFreeSlot_eq_none_iff (used : Nat → Bool) :
    firstFreeSlot used = none ↔ ∀ i, 1 ≤ i → i < 256 → used i = true := by
  unfold firstFreeSlot MAX_TEXTURES
  rw [List.find?_eq_none]
  simp only [List.mem_range'_1, Bool.not_eq_true', Bool.not_eq_false]
  constructor
  · intro h i h1 h2
    exact h i ⟨h1, by omega⟩
  · intro h i hi
    exact h i hi.1 (by omega)

/-- C9: when the allocation succeeds and `i` is the smallest index in `1..255` whose slot is
unused, `ImGui_ImplUefi_CreateTexture` returns `i`, marks exactly slot `i` used and stores
the width and height in it; it returns `0` exactly when every slot `1..255` is used or the
allocation fails, and then no slot is marked used. -/
theorem CreateTexture_first_free (bd : ImGui_ImplUefi_Data) (allocOk : Bool)
    (pixels : Nat → Nat) (width height : Int) :
    (∀ i, allocOk = true → 1 ≤ i → i < 256 → bd.TextureUsed i = false →
        (∀ j, 1 ≤ j → j < i → bd.TextureUsed j = true) →
        (ImGui_ImplUefi_CreateTexture bd allocOk pixels width height).1 = i ∧
        (ImGui_ImplUefi_CreateTexture bd allocOk pixels width height).2.TextureUsed =
          Function.update bd.TextureUsed i true ∧
        ((ImGui_ImplUefi_CreateTexture bd allocOk pixels width height).2.Textures i).Width
          = width ∧
        ((ImGui_ImplUefi_CreateTexture bd allocOk pixels width height).2.Textures i).Height
          = height) ∧
    ((ImGui_ImplUefi_CreateTexture bd allocOk pixels width height).1 = 0 ↔
        ((∀ i, 1 ≤ i → i < 256 → bd.TextureUsed i = true) ∨ allocOk = false)) ∧
    ((ImGui_ImplUefi_CreateTexture bd allocOk pixels width height).1 = 0 →
        (ImGui_ImplUefi_CreateTexture bd allocOk pixels width height).2.TextureUsed =
          bd.TextureUsed) := by
  refine ⟨?_, ?_, ?_⟩
  · intro i hok h1 h2 hfree hmin
    have hs : firstFreeSlot bd.TextureUsed = some i :=
      (firstFreeSlot_eq_some_iff _ _).2 ⟨hfree, h1, h2, hmin⟩
    unfold ImGui_ImplUefi_CreateTexture
    rw [hs, hok]
    simp
  · unfold ImGui_ImplUefi_CreateTexture
    cases hs : firstFreeSlot bd.TextureUsed with
    | none =>
      simp only [true_iff]
      exact Or.inl ((firstFreeSlot_eq_none_iff _).1 hs)
    | some i =>
      have hi := (firstFreeSlot_eq_some_iff _ _).1 hs
      cases allocOk with
      | false => simp
      | true =>
        simp only [if_true, Bool.true_eq_false, or_false]
        constructor
        · intro h0
          omega
        · intro hall
          have := hall i hi.2.1 hi.2.2.1
          rw [hi.1] at this
          cases this
  · unfold ImGui_ImplUefi_CreateTexture
    cases hs : firstFreeSlot bd.TextureUsed with
    | none => simp
    | some i =>
      have hi := (firstFreeSlot_eq_some_iff _ _).1 hs
      cases allocOk with
      | false => simp
      | true =>
        simp only [if_true]
        intro h0
        omega

/-- One successful call on a table whose used slots are exactly `1..k`, `k < 255`, returns
`k + 1` and makes the used slots exactly `1..k+1`. -/
theorem CreateTexture_step (bd : ImGui_ImplUefi_Data) (pixels : Nat → Nat) (width height : Int)
    (k : Nat) (hk : k < 255) (hinv : ∀ i, bd.TextureUsed i = true ↔ (1 ≤ i ∧ i ≤ k)) :
    (ImGui_ImplUefi_CreateTexture bd true pixels width height).1 = k + 1 ∧
    ∀ i, (ImGui_ImplUefi_CreateTexture bd true pixels width height).2.TextureUsed i = true ↔
      (1 ≤ i ∧ i ≤ k + 1) := by
  have hs : firstFreeSlot bd.TextureUsed = some (k + 1) := by
    rw [firstFreeSlot_eq_some_iff]
    refine ⟨?_, by omega, by omega, ?_⟩
    · rw [← Bool.not_eq_true, hinv]
      omega
    · intro j h1 h2
      exact (hinv j).2 ⟨h1, by omega⟩
  unfold ImGui_ImplUefi_CreateTexture
  rw [hs]
  simp only [if_true, true_and]
  intro i
  by_cases hi : i = k + 1
  · subst hi
    simp
  · rw [Function.update_noteq hi, hinv]
    omega

theorem createTextures_from (args : List ((Nat → Nat) × Int × Int)) :
    ∀ (bd : ImGui_ImplUefi_Data) (k : Nat), k + args.length ≤ 255 →
      (∀ i, bd.TextureUsed i = true ↔ (1 ≤ i ∧ i ≤ k)) →
      (createTextures args bd).1 = List.range' (k + 1) args.length ∧
      ∀ i, (createTextures args bd).2.TextureUsed i = true ↔ (1 ≤ i ∧ i ≤ k + args.length) := by
  induction args with
  | nil =>
    intro bd k _ hinv
    exact ⟨rfl, hinv⟩
  | cons a rest ih =>
    intro bd k hk hinv
    simp only [List.length_cons] at hk ⊢
    have hstep := CreateTexture_step bd a.1 a.2.1 a.2.2 k (by omega) hinv
    have hrec := ih (ImGui_ImplUefi_CreateTexture bd true a.1 a.2.1 a.2.2).2 (k + 1)
      (by omega) hstep.2
    unfold createTextures
    simp only
    rw [hstep.1, hrec.1, List.range'_succ]
    refine ⟨rfl, ?_⟩
    intro i
    rw [hrec.2 i]
    omega

/-- C10: from a table without used slot and with allocations that succeed, 255 consecutive
calls of `ImGui_ImplUefi_CreateTexture`, with any arguments, return the handles
`1, 2, ..., 255` in that order, and a call after them returns `0` and leaves the backend
data unchanged. -/
theorem CreateTexture_capacity (bd : ImGui_ImplUefi_Data)
    (args : List ((Nat → Nat) × Int × Int)) (pixels : Nat → Nat) (width height : Int)
    (hlen : args.length = 255) (hempty : ∀ i, bd.TextureUsed i = false) :
    (createTextures args bd).1 = List.range' 1 255 ∧
    ImGui_ImplUefi_CreateTexture (createTextures args bd).2 true pixels width height =
      (0, (createTextures args bd).2) := by
  have hinv : ∀ i, bd.TextureUsed i = true ↔ (1 ≤ i ∧ i ≤ 0) := by
    intro i
    rw [hempty i]
    constructor
    · intro h; cases h
    · intro h; omega
  have h255 := createTextures_from args bd 0 (by omega) hinv
  rw [hlen] at h255
  have hnone : firstFreeSlot (createTextures args bd).2.TextureUsed = none := by
    rw [firstFreeSlot_eq_none_iff]
    intro i h1 h2
    exact (h255.2 i).2 ⟨h1, by omega⟩
  refine ⟨h255.1, ?_⟩
  unfold ImGui_ImplUefi_CreateTexture
  rw [hnone]

/-- C10, witness: the table of `emptyTableData` has no used slot; 255 textures of one white
pixel are created. -/
theorem CreateTexture_capacity_witness :
    (createTextures (List.replicate 255 (fun _ => 255, 1, 1)) (emptyTableData 4 4)).1 =
      List.range' 1 255 ∧
    ImGui_ImplUefi_CreateTexture
        (createTextures (List.replicate 255 (fun _ => 255, 1, 1)) (emptyTableData 4 4)).2
        true (fun _ => 255) 1 1 =
      (0, (createTextures (List.replicate 255 (fun _ => 255, 1, 1)) (emptyTableData 4 4)).2) :=
  CreateTexture_capacity (emptyTableData 4 4) (List.replicate 255 (fun _ => 255, 1, 1))
    (fun _ => 255) 1 1 (List.length_replicate _ _) (fun _ => rfl)

/-! ## Truncation and rounding of floats -/

theorem tdiv_bounds (m d : Int) (hd : 0 < d) :
    (0 ≤ m → d * Int.tdiv m d ≤ m ∧ m < d * Int.tdiv m d + d) ∧
    (m ≤ 0 → m ≤ d * Int.tdiv m d ∧ d * Int.tdiv m d - d < m) := by
  constructor
  · intro hm
    rw [Int.tdiv_eq_ediv hm (le_of_lt hd)]
    have h1 := Int.ediv_add_emod m d
    have h2 := Int.emod_nonneg m (ne_of_gt hd)
    have h3 := Int.emod_lt_of_pos m hd
    constructor <;> linarith
  · intro hm
    have hneg : Int.tdiv m d = -Int.tdiv (-m) d := by
      rw [Int.neg_tdiv, neg_neg]
    rw [hneg, Int.tdiv_eq_ediv (by omega) (le_of_lt hd)]
    have h1 := Int.ediv_add_emod (-m) d
    have h2 := Int.emod_nonneg (-m) (ne_of_gt hd)
    have h3 := Int.emod_lt_of_pos (-m) hd
    constructor <;> nlinarith

theorem F32.toRat_of_nonneg_exp (x : F32) (h : 0 ≤ x.e) :
    x.toRat = ((x.m * 2 ^ x.e.toNat : Int) : ℚ) := by
  have := F32.toRat_eq_scaled x 0 h
  simpa using this

theorem F32.toRat_of_neg_exp (x : F32) (h : x.e < 0) :
    x.toRat * ((2 ^ (-x.e).toNat : Int) : ℚ) = (x.m : ℚ) := by
  unfold F32.toRat
  have h1 : x.e = -(((-x.e).toNat : Int)) := by omega
  have h2 : (2 : ℚ) ^ x.e = ((2 : ℚ) ^ (-x.e).toNat)⁻¹ := by
    conv_lhs => rw [h1]
    rw [zpow_neg, zpow_natCast]
  rw [h2]
  push_cast
  have hpos : (0 : ℚ) < (2 : ℚ) ^ (-x.e).toNat := by positivity
  field_simp

/-- Truncation is within one of the denoted number, and below it for non-negative numbers. -/
theorem F32.trunc_bounds (x : F32) :
    ((F32.trunc x : Int) : ℚ) - 1 < x.toRat ∧ x.toRat < (F32.trunc x : Int) + 1 ∧
    (0 ≤ x.toRat → ((F32.trunc x : Int) : ℚ) ≤ x.toRat) := by
  unfold F32.trunc
  by_cases he : 0 ≤ x.e
  · rw [if_pos he, F32.toRat_of_nonneg_exp x he]
    refine ⟨by linarith, by linarith, fun _ => le_refl _⟩
  · rw [if_neg he]
    have hlt : x.e < 0 := by omega
    have hx := F32.toRat_of_neg_exp x hlt
    have hd : (0 : Int) < 2 ^ (-x.e).toNat := by positivity
    have hdq : (0 : ℚ) < ((2 ^ (-x.e).toNat : Int) : ℚ) := by exact_mod_cast hd
    have hb := tdiv_bounds x.m (2 ^ (-x.e).toNat) hd
    generalize (2 : Int) ^ (-x.e).toNat = d at *
    generalize Int.tdiv x.m d = t at *
    rcases le_total 0 x.m with hm | hm
    · have h1 := (hb.1 hm).1
      have h2 := (hb.1 hm).2
      have h1q : (d : ℚ) * t ≤ x.m := by exact_mod_cast h1
      have h2q : (x.m : ℚ) < d * t + d := by exact_mod_cast h2
      rw [← hx] at h1q h2q
      refine ⟨?_, ?_, ?_⟩
      · nlinarith
      · nlinarith
      · intro _
        nlinarith
    · have h1 := (hb.2 hm).1
      have h2 := (hb.2 hm).2
      have h1q : (x.m : ℚ) ≤ d * t := by exact_mod_cast h1
      have h2q : (d : ℚ) * t - d < x.m := by exact_mod_cast h2
      rw [← hx] at h1q h2q
      have hxle : x.toRat ≤ 0 := by
        have : (x.m : ℚ) ≤ 0 := by exact_mod_cast hm
        rw [← hx] at this
        nlinarith
      refine ⟨?_, ?_, ?_⟩
      · nlinarith
      · nlinarith
      · intro h0
        have hx0 : x.toRat = 0 := le_antisymm hxle h0
        have ht : t ≤ 0 := by
          by_contra hc
          have h1t : 1 ≤ t := by omega
          nlinarith
        rw [hx0]
        exact_mod_cast ht

/-- The conversion `(INT32)x` of a number below one is at most zero. -/
theorem F32.toInt32_nonpos_of_lt_one (x : F32) (h : x.toRat < 1) : F32.toInt32 x ≤ 0 := by
  have hb := F32.trunc_bounds x
  have ht : F32.trunc x ≤ 0 := by
    by_contra hc
    have h1 : (1 : Int) ≤ F32.trunc x := by omega
    have h1q : (1 : ℚ) ≤ ((F32.trunc x : Int) : ℚ) := by exact_mod_cast h1
    rcases le_or_lt 0 x.toRat with h0 | h0
    · have := hb.2.2 h0
      linarith
    · have := hb.1
      linarith
  unfold F32.toInt32
  split <;> omega

/-- The conversion `(INT32)x` of a number at most `-1` is negative. -/
theorem F32.toInt32_neg_of_le_neg_one (x : F32) (h : x.toRat ≤ -1) : F32.toInt32 x < 0 := by
  have hb := F32.trunc_bounds x
  have ht : F32.trunc x < 0 := by
    by_contra hc
    have h1 : (0 : Int) ≤ F32.trunc x := by omega
    have h1q : (0 : ℚ) ≤ ((F32.trunc x : Int) : ℚ) := by exact_mod_cast h1
    have := hb.1
    linarith
  unfold F32.toInt32
  split <;> omega

/-- The conversion `(INT32)x` of a number not below the natural number `n` is negative (out
of range) or not below `n`. -/
theorem F32.toInt32_of_ge_nat (x : F32) (n : Nat) (h : (n : ℚ) ≤ x.toRat) :
    F32.toInt32 x < 0 ∨ (n : Int) ≤ F32.toInt32 x := by
  have hb := F32.trunc_bounds x
  have ht : (n : Int) ≤ F32.trunc x := by
    by_contra hc
    have h1 : F32.trunc x + 1 ≤ (n : Int) := by omega
    have h1q : ((F32.trunc x : Int) : ℚ) + 1 ≤ (n : ℚ) := by exact_mod_cast h1
    have := hb.2.1
    linarith
  unfold F32.toInt32
  split
  · exact Or.inr ht
  · exact Or.inl (by omega)


theorem bitLenAux_zero (fuel : Nat) : bitLenAux fuel 0 = 0 := by
  cases fuel <;> simp [bitLenAux]

theorem bitLenAux_spec : ∀ (fuel n : Nat), n ≤ fuel → 0 < n →
    2 ^ (bitLenAux fuel n - 1) ≤ n ∧ n < 2 ^ (bitLenAux fuel n) ∧ 0 < bitLenAux fuel n := by
  intro fuel
  induction fuel with
  | zero => intro n h1 h2; omega
  | succ fuel ih =>
    intro n h1 h2
    have hn : n ≠ 0 := by omega
    simp only [bitLenAux, if_neg hn]
    rcases Nat.eq_zero_or_pos (n / 2) with h0 | hpos
    · rw [h0, bitLenAux_zero]
      have : n = 1 := by omega
      subst this
      simp
    · obtain ⟨i1, i2, i3⟩ := ih (n / 2) (by omega) hpos
      generalize bitLenAux fuel (n / 2) = L at *
      obtain ⟨j, rfl⟩ : ∃ j, L = j + 1 := ⟨L - 1, by omega⟩
      simp only [Nat.add_sub_cancel] at i1 ⊢
      have e1 : 2 ^ (j + 1) = 2 * 2 ^ j := by ring
      have e2 : 2 ^ (j + 1 + 1) = 2 * 2 ^ (j + 1) := by ring
      refine ⟨?_, ?_, by omega⟩
      · rw [e1]; omega
      · rw [e2]; omega

/-- The number of binary digits: `2^(bitLen n - 1) <= n < 2^(bitLen n)` for positive `n`. -/
theorem bitLen_spec (n : Nat) (h : 0 < n) :
    2 ^ (bitLen n - 1) ≤ n ∧ n < 2 ^ (bitLen n) ∧ 0 < bitLen n :=
  bitLenAux_spec n n (le_refl n) h

/-- Rounding to nearest does not cross an integer bound. -/
theorem F32.rne_le (n k Y : Nat) (hk : 0 < k) (h : n ≤ Y * 2 ^ k) : F32.rne n k ≤ Y := by
  unfold F32.rne
  simp only
  have hpos : 0 < 2 ^ k := Nat.two_pow_pos k
  have hhalf : 0 < 2 ^ (k - 1) := Nat.two_pow_pos (k - 1)
  have hq : n / 2 ^ k ≤ Y := by
    rw [← Nat.lt_succ_iff, Nat.div_lt_iff_lt_mul hpos]
    calc n ≤ Y * 2 ^ k := h
      _ < Y.succ * 2 ^ k := by
        rw [Nat.succ_mul]
        omega
  split
  · rename_i hc
    have hr : 0 < n % 2 ^ k := by
      rcases hc with h1 | ⟨h1, _⟩
      · omega
      · omega
    have hdiv := Nat.div_add_mod n (2 ^ k)
    by_contra hcon
    have hqY : n / 2 ^ k = Y := by omega
    rw [hqY] at hdiv
    have : 2 ^ k * Y = Y * 2 ^ k := Nat.mul_comm _ _
    omega
  · exact hq

theorem F32.round_m_nonpos (m e : Int) (hm : m ≤ 0) : (F32.round m e).m ≤ 0 := by
  unfold F32.round
  simp only
  split
  · exact hm
  · simp only
    split
    · omega
    · have h0 : m = 0 := by omega
      subst h0
      have hr : ∀ k : Nat, F32.rne (Int.natAbs 0) k = 0 := by
        intro k
        unfold F32.rne
        simp
      rw [hr]
      simp

theorem F32.toRat_nonpos_of_m_nonpos (x : F32) (h : x.m ≤ 0) : x.toRat ≤ 0 := by
  unfold F32.toRat
  have h1 : (x.m : ℚ) ≤ 0 := by exact_mod_cast h
  have h2 : (0 : ℚ) < (2 : ℚ) ^ x.e := zpow_pos (by norm_num) _
  nlinarith

theorem F32.toRat_nonneg_of_m_nonneg (x : F32) (h : 0 ≤ x.m) : 0 ≤ x.toRat := by
  unfold F32.toRat
  have h1 : (0 : ℚ) ≤ (x.m : ℚ) := by exact_mod_cast h
  have h2 : (0 : ℚ) < (2 : ℚ) ^ x.e := zpow_pos (by norm_num) _
  positivity

theorem two_zpow_add_toNat (e s : Int) (hs : 0 < s) :
    (2 : ℚ) ^ (e + s) = (2 : ℚ) ^ s.toNat * (2 : ℚ) ^ e := by
  have h1 : e + s = (s.toNat : Int) + e := by omega
  rw [h1, zpow_add₀ (by norm_num : (2 : ℚ) ≠ 0), zpow_natCast]

/-- Rounding is monotone against a representable non-negative bound: an exact value that
is at most the float `y` rounds to a float that is at most `y`. -/
theorem F32.round_toRat_le (m e : Int) (y : F32) (hy : F32.IsF32 y) (hy0 : 0 ≤ y.m)
    (h : (m : ℚ) * (2 : ℚ) ^ e ≤ y.toRat) : (F32.round m e).toRat ≤ y.toRat := by
  rcases le_or_lt m 0 with hm | hm
  · exact le_trans (F32.toRat_nonpos_of_m_nonpos _ (F32.round_m_nonpos m e hm))
      (F32.toRat_nonneg_of_m_nonneg y hy0)
  · have hn : ((m.natAbs : Nat) : Int) = m := Int.natAbs_of_nonneg (le_of_lt hm)
    have hnpos : 0 < m.natAbs := by omega
    obtain ⟨b1, b2, b3⟩ := bitLen_spec m.natAbs hnpos
    have hpe : (0 : ℚ) < (2 : ℚ) ^ e := zpow_pos (by norm_num) _
    unfold F32.round
    simp only
    split
    · exact h
    · rename_i hs
      have hspos : 0 < max (((bitLen m.natAbs : Nat) : Int) - 24) (-149 - e) := by omega
      rw [if_neg (by omega)]
      generalize hsdef : max (((bitLen m.natAbs : Nat) : Int) - 24) (-149 - e) = s at *
      have hk : 0 < s.toNat := by omega
      have hpow := two_zpow_add_toNat e s hspos
      have hres : (⟨(F32.rne m.natAbs s.toNat : Int), e + s⟩ : F32).toRat =
          (F32.rne m.natAbs s.toNat : ℚ) * ((2 : ℚ) ^ s.toNat * (2 : ℚ) ^ e) := by
        unfold F32.toRat
        simp only
        rw [hpow]
        push_cast
        ring
      rw [hres]
      have hmq : (m : ℚ) = (m.natAbs : ℚ) := by
        conv_lhs => rw [← hn]
        exact Int.cast_natCast _
      rw [hmq] at h
      rcases le_or_lt (e + s) y.e with hcase | hcase
      · -- the bound is a multiple of the rounding unit
        have hyq := F32.toRat_eq_scaled y (e + s) hcase
        have hYnn : 0 ≤ y.m * 2 ^ (y.e - (e + s)).toNat := by positivity
        obtain ⟨Y, hY⟩ : ∃ Y : Nat, (Y : Int) = y.m * 2 ^ (y.e - (e + s)).toNat :=
          ⟨(y.m * 2 ^ (y.e - (e + s)).toNat).toNat, by omega⟩
        rw [← hY, hpow, Int.cast_natCast] at hyq
        rw [hyq] at h ⊢
        have hle : (m.natAbs : ℚ) ≤ (Y : ℚ) * (2 : ℚ) ^ s.toNat := by
          have h3 : (m.natAbs : ℚ) * (2 : ℚ) ^ e ≤
              ((Y : ℚ) * (2 : ℚ) ^ s.toNat) * (2 : ℚ) ^ e := by
            calc (m.natAbs : ℚ) * (2 : ℚ) ^ e ≤
                  (Y : ℚ) * ((2 : ℚ) ^ s.toNat * (2 : ℚ) ^ e) := h
              _ = ((Y : ℚ) * (2 : ℚ) ^ s.toNat) * (2 : ℚ) ^ e := by ring
          exact le_of_mul_le_mul_right h3 hpe
        have hleN : m.natAbs ≤ Y * 2 ^ s.toNat := by exact_mod_cast hle
        have hr := F32.rne_le m.natAbs s.toNat Y hk hleN
        have hrq : (F32.rne m.natAbs s.toNat : ℚ) ≤ (Y : ℚ) := by exact_mod_cast hr
        have hpp : (0 : ℚ) ≤ (2 : ℚ) ^ s.toNat * (2 : ℚ) ^ e := by positivity
        exact mul_le_mul_of_nonneg_right hrq hpp
      · -- the bound lies below the next rounding unit: the value is a power of two
        have hsL : s = ((bitLen m.natAbs : Nat) : Int) - 24 := by
          have := hy.2
          omega
        have hkL : bitLen m.natAbs - 1 = 23 + s.toNat := by omega
        rw [hkL] at b1
        have hym : (y.m : ℚ) ≤ 16777216 := by
          have h1 := hy.1
          have h2 : y.m ≤ 16777216 := by omega
          exact_mod_cast h2
        have hye : (2 : ℚ) ^ y.e ≤ (2 : ℚ) ^ (e + s - 1) :=
          zpow_le_zpow_right₀ (by norm_num) (by omega)
        have hsplit : (2 : ℚ) ^ (e + s - 1) = (2 : ℚ) ^ s.toNat * (2 : ℚ) ^ e / 2 := by
          rw [zpow_sub₀ (by norm_num : (2 : ℚ) ≠ 0), hpow]
          simp
        have hypos : (0 : ℚ) < (2 : ℚ) ^ y.e := zpow_pos (by norm_num) _
        have hyle : y.toRat ≤ 8388608 * ((2 : ℚ) ^ s.toNat * (2 : ℚ) ^ e) := by
          unfold F32.toRat
          calc (y.m : ℚ) * (2 : ℚ) ^ y.e ≤ 16777216 * (2 : ℚ) ^ y.e :=
                mul_le_mul_of_nonneg_right hym (le_of_lt hypos)
            _ ≤ 16777216 * (2 : ℚ) ^ (e + s - 1) :=
                mul_le_mul_of_nonneg_left hye (by norm_num)
            _ = 8388608 * ((2 : ℚ) ^ s.toNat * (2 : ℚ) ^ e) := by rw [hsplit]; ring
        have hle : (m.natAbs : ℚ) ≤ 8388608 * (2 : ℚ) ^ s.toNat := by
          have h3 : (m.natAbs : ℚ) * (2 : ℚ) ^ e ≤ (8388608 * (2 : ℚ) ^ s.toNat) * (2 : ℚ) ^ e := by
            calc (m.natAbs : ℚ) * (2 : ℚ) ^ e ≤ y.toRat := h
              _ ≤ 8388608 * ((2 : ℚ) ^ s.toNat * (2 : ℚ) ^ e) := hyle
              _ = (8388608 * (2 : ℚ) ^ s.toNat) * (2 : ℚ) ^ e := by ring
          exact le_of_mul_le_mul_right h3 hpe
        have hleN : m.natAbs ≤ 8388608 * 2 ^ s.toNat := by exact_mod_cast hle
        have hr := F32.rne_le m.natAbs s.toNat 8388608 hk hleN
        have hrq : (F32.rne m.natAbs s.toNat : ℚ) ≤ 8388608 := by exact_mod_cast hr
        have hge : (8388608 : ℚ) * (2 : ℚ) ^ s.toNat ≤ (m.natAbs : ℚ) := by
          have e1 : 2 ^ (23 + s.toNat) = 8388608 * 2 ^ s.toNat := by
            rw [pow_add]
            norm_num
          rw [e1] at b1
          exact_mod_cast b1
        have hpp : (0 : ℚ) ≤ (2 : ℚ) ^ s.toNat * (2 : ℚ) ^ e := by positivity
        calc (F32.rne m.natAbs s.toNat : ℚ) * ((2 : ℚ) ^ s.toNat * (2 : ℚ) ^ e)
              ≤ 8388608 * ((2 : ℚ) ^ s.toNat * (2 : ℚ) ^ e) :=
                mul_le_mul_of_nonneg_right hrq hpp
          _ = (8388608 * (2 : ℚ) ^ s.toNat) * (2 : ℚ) ^ e := by ring
          _ ≤ (m.natAbs : ℚ) * (2 : ℚ) ^ e := mul_le_mul_of_nonneg_right hge (le_of_lt hpe)
          _ ≤ y.toRat := h


theorem F32.add_toRat_le (x y b : F32) (hb : F32.IsF32 b) (hb0 : 0 ≤ b.m)
    (h : x.toRat + y.toRat ≤ b.toRat) : (F32.add x y).toRat ≤ b.toRat := by
  unfold F32.add
  simp only
  apply F32.round_toRat_le _ _ b hb hb0
  have hx := F32.toRat_eq_scaled x (min x.e y.e) (min_le_left _ _)
  have hy := F32.toRat_eq_scaled y (min x.e y.e) (min_le_right _ _)
  rw [hx, hy] at h
  calc ((x.m * 2 ^ (x.e - min x.e y.e).toNat + y.m * 2 ^ (y.e - min x.e y.e).toNat : Int) : ℚ)
        * (2 : ℚ) ^ (min x.e y.e)
      = ((x.m * 2 ^ (x.e - min x.e y.e).toNat : Int) : ℚ) * (2 : ℚ) ^ (min x.e y.e) +
        ((y.m * 2 ^ (y.e - min x.e y.e).toNat : Int) : ℚ) * (2 : ℚ) ^ (min x.e y.e) := by
          push_cast
          ring
    _ ≤ b.toRat := h

/-- A float subtraction whose exact result is at most the non-negative float `b` gives at
most `b`. -/
theorem F32.sub_toRat_le (x y b : F32) (hb : F32.IsF32 b) (hb0 : 0 ≤ b.m)
    (h : x.toRat - y.toRat ≤ b.toRat) : (F32.sub x y).toRat ≤ b.toRat := by
  unfold F32.sub
  apply F32.add_toRat_le _ _ b hb hb0
  rw [F32.toRat_neg]
  linarith

theorem F32.predOne_toRat : F32.predOne.toRat = 16777215 / 16777216 := by
  unfold F32.predOne F32.toRat
  norm_num

/-- A representable float above `-1` is at least `-(1 - 2^-24)`. -/
theorem F32.ge_neg_predOne (x : F32) (hx : F32.IsF32 x) (h : -1 < x.toRat) :
    -F32.predOne.toRat ≤ x.toRat := by
  rw [F32.predOne_toRat]
  rcases le_or_lt 0 x.m with hm | hm
  · have := F32.toRat_nonneg_of_m_nonneg x hm
    linarith
  · rcases le_or_lt (-24) x.e with he | he
    · have hs := F32.toRat_eq_scaled x (-24) he
      have hp : (2 : ℚ) ^ (-24 : Int) = 1 / 16777216 := by norm_num
      rw [hp] at hs
      generalize x.m * 2 ^ (x.e - -24).toNat = I at hs
      rw [hs] at h ⊢
      have hI : (-16777216 : ℚ) < (I : ℚ) := by linarith
      have hI2 : (-16777216 : Int) < I := by exact_mod_cast hI
      have hI3 : (-16777215 : Int) ≤ I := by omega
      have hI4 : (-16777215 : ℚ) ≤ (I : ℚ) := by exact_mod_cast hI3
      linarith
    · unfold F32.toRat
      have hmb : (-16777216 : ℚ) ≤ (x.m : ℚ) := by
        have h1 := hx.1
        have h2 : -16777216 ≤ x.m := by omega
        exact_mod_cast h2
      have hpe : (2 : ℚ) ^ x.e ≤ (2 : ℚ) ^ (-25 : Int) :=
        zpow_le_zpow_right₀ (by norm_num) (by omega)
      have hp : (2 : ℚ) ^ (-25 : Int) = 1 / 33554432 := by norm_num
      rw [hp] at hpe
      have hpos : (0 : ℚ) < (2 : ℚ) ^ x.e := zpow_pos (by norm_num) _
      nlinarith

theorem wrapI32_le_self (n : Nat) : wrapI32 n ≤ (n : Int) := by
  unfold wrapI32
  omega

/-- The extent `(INT32)(hi - lo)` of a clip rectangle whose far edge `hi` is at most zero
is not positive, unless the near edge converts to a negative number. -/
theorem clip_extent_nonpos (lo hi : F32) (hlo : F32.IsF32 lo) (hhi : hi.toRat ≤ 0) :
    F32.toInt32 lo < 0 ∨ F32.toInt32 (F32.sub hi lo) ≤ 0 := by
  rcases le_or_lt lo.toRat (-1) with h1 | h1
  · exact Or.inl (F32.toInt32_neg_of_le_neg_one lo h1)
  · right
    apply F32.toInt32_nonpos_of_lt_one
    have hge := F32.ge_neg_predOne lo hlo h1
    have hle : (F32.sub hi lo).toRat ≤ F32.predOne.toRat :=
      F32.sub_toRat_le hi lo F32.predOne (by decide) (by decide) (by linarith)
    rw [F32.predOne_toRat] at hle
    linarith

/-- A clip rectangle fully outside the screen fails the test of the command loop. -/
theorem clipRejected_of_outside (W H : Nat) (r : ImVec4) (hx : F32.IsF32 r.x)
    (hy : F32.IsF32 r.y) (hout : clipOutside W H r) :
    clipRejected W H (F32.toInt32 r.x) (F32.toInt32 r.y) (F32.toInt32 (F32.sub r.z r.x))
      (F32.toInt32 (F32.sub r.w r.y)) = true := by
  unfold clipRejected
  simp only [Bool.or_eq_true, decide_eq_true_eq]
  rcases hout with h | h | h | h
  · rcases clip_extent_nonpos r.x r.z hx h with h1 | h1
    · exact Or.inl (Or.inl (Or.inl (Or.inl (Or.inl h1))))
    · exact Or.inl (Or.inl (Or.inl (Or.inr h1)))
  · rcases clip_extent_nonpos r.y r.w hy h with h1 | h1
    · exact Or.inl (Or.inl (Or.inl (Or.inl (Or.inr h1))))
    · exact Or.inl (Or.inl (Or.inr h1))
  · rcases F32.toInt32_of_ge_nat r.x W h with h1 | h1
    · exact Or.inl (Or.inl (Or.inl (Or.inl (Or.inl h1))))
    · exact Or.inl (Or.inr (le_trans (wrapI32_le_self W) h1))
  · rcases F32.toInt32_of_ge_nat r.y H h with h1 | h1
    · exact Or.inl (Or.inl (Or.inl (Or.inl (Or.inr h1))))
    · exact Or.inr (le_trans (wrapI32_le_self H) h1)


theorem renderCmd_writes_of_outside (W H : Nat) (vtx : List ImDrawVert) (idxBuf : List Nat)
    (idx : Nat) (cmd : ImDrawCmd) (hx : F32.IsF32 cmd.ClipRect.x) (hy : F32.IsF32 cmd.ClipRect.y)
    (hout : clipOutside W H cmd.ClipRect) :
    renderCmd.writes W H vtx idxBuf idx cmd = [] := by
  unfold renderCmd.writes
  cases cmd.UserCallback with
  | some cb => rfl
  | none =>
    simp only
    rw [if_pos (clipRejected_of_outside W H cmd.ClipRect hx hy hout)]

theorem renderCmds_fb_of_outside (W H F : Nat) (vtx : List ImDrawVert) (idxBuf : List Nat)
    (n : Nat) (cmds : List ImDrawCmd) (st : CmdState) (cmd_i : Nat)
    (hall : ∀ cmd ∈ cmds, F32.IsF32 cmd.ClipRect.x ∧ F32.IsF32 cmd.ClipRect.y ∧
      clipOutside W H cmd.ClipRect) :
    (renderCmds W H F vtx idxBuf n st cmd_i cmds).fb = st.fb := by
  induction cmds generalizing st cmd_i with
  | nil => rfl
  | cons c r ih =>
    unfold renderCmds
    rw [ih _ _ (fun cmd hc => hall cmd (List.mem_cons_of_mem _ hc)), renderCmd_fb_eq_applyWrites]
    obtain ⟨h1, h2, h3⟩ := hall c (List.mem_cons_self _ _)
    rw [renderCmd_writes_of_outside W H vtx idxBuf st.idx c h1 h2 h3]
    rfl

theorem renderLists_fb_of_outside (W H F : Nat) (ls : List ImDrawList) (fb : Buffer)
    (effects : List Effect) (n : Nat)
    (hall : ∀ l ∈ ls, ∀ cmd ∈ l.CmdBuffer, F32.IsF32 cmd.ClipRect.x ∧ F32.IsF32 cmd.ClipRect.y ∧
      clipOutside W H cmd.ClipRect) :
    (renderLists W H F fb effects n ls).1 = fb := by
  induction ls generalizing fb effects n with
  | nil => rfl
  | cons l r ih =>
    unfold renderLists
    simp only
    rw [ih _ _ _ (fun l2 hl2 => hall l2 (List.mem_cons_of_mem _ hl2)),
      renderCmds_fb_of_outside W H F _ _ n l.CmdBuffer _ 0 (hall l (List.mem_cons_self _ _))]

/-- C4: a geometry command whose clip rectangle lies fully outside the screen makes no
assignment to the frame buffer, whatever the vertex buffer, the index buffer and the index
cursor are; after a frame made only of such commands every cell of the frame buffer is
zero. -/
theorem RenderDrawData_clip_outside (bd : ImGui_ImplUefi_Data) (dd : ImDrawData)
    (hall : ∀ l ∈ dd.CmdLists, ∀ cmd ∈ l.CmdBuffer,
      cmd.UserCallback = none ∧ F32.IsF32 cmd.ClipRect.x ∧ F32.IsF32 cmd.ClipRect.y ∧
      clipOutside bd.ScreenWidth bd.ScreenHeight cmd.ClipRect) :
    (∀ l ∈ dd.CmdLists, ∀ cmd ∈ l.CmdBuffer, ∀ (vtx : List ImDrawVert) (idxBuf : List Nat)
        (idx : Nat),
        renderCmd.writes bd.ScreenWidth bd.ScreenHeight vtx idxBuf idx cmd = []) ∧
    (∀ i, 4 * i + 4 ≤ bd.FrameBufferSize → frameBufferAfter bd (some dd) i = 0) := by
  constructor
  · intro l hl cmd hc vtx idxBuf idx
    obtain ⟨_, h1, h2, h3⟩ := hall l hl cmd hc
    exact renderCmd_writes_of_outside _ _ vtx idxBuf idx cmd h1 h2 h3
  · intro i hi
    unfold frameBufferAfter ImGui_ImplUefi_RenderDrawData
    cases hfb : bd.FrameBuffer with
    | none => simp [hfb]
    | some fb0 =>
      simp only [hfb, Option.getD_some]
      rw [renderLists_fb_of_outside bd.ScreenWidth bd.ScreenHeight bd.FontTextureId dd.CmdLists
        _ _ _ (fun l hl cmd hc => (hall l hl cmd hc).2)]
      unfold clearBuffer
      rw [if_pos hi]

/-- C4, witness: on the 4 by 4 screen the scenario triangle under the clip rectangle
`(5,5) - (9,9)`. -/
theorem RenderDrawData_clip_outside_witness :
    renderCmd.writes 4 4 [vertexAt 0 0 4294967295, vertexAt 3 0 4294967295,
      vertexAt 0 3 4294967295] [0, 1, 2] 0 (geometryCmd 5 5 9 9 3) = [] ∧
    frameBufferAfter (exampleData 4 4) (some (triangleFrame 5 5 9 9)) 0 = 0 :=
  have hall : ∀ l ∈ (triangleFrame 5 5 9 9).CmdLists, ∀ cmd ∈ l.CmdBuffer,
      cmd.UserCallback = none ∧ F32.IsF32 cmd.ClipRect.x ∧ F32.IsF32 cmd.ClipRect.y ∧
      clipOutside (exampleData 4 4).ScreenWidth (exampleData 4 4).ScreenHeight cmd.ClipRect := by
    intro l hl cmd hc
    simp only [triangleFrame, List.mem_singleton] at hl
    subst hl
    simp only [List.mem_singleton] at hc
    subst hc
    refine ⟨rfl, by decide, by decide, Or.inr (Or.inr (Or.inl ?_))⟩
    have h5 : (geometryCmd 5 5 9 9 3).ClipRect.x = ⟨5, 0⟩ := by decide
    rw [h5]
    simp only [exampleData, F32.toRat]
    norm_num
  have h := RenderDrawData_clip_outside (exampleData 4 4) (triangleFrame 5 5 9 9) hall
  ⟨h.1 _ (List.mem_singleton.2 rfl) (geometryCmd 5 5 9 9 3) (List.mem_singleton.2 rfl) _ _ _,
    h.2 0 (by decide)⟩

/-! ## Texture table: round trip, deletion, invariants -/

theorem CreateTexture_of_free (bd : ImGui_ImplUefi_Data) (allocOk : Bool) (pixels : Nat → Nat)
    (width height : Int) (i : Nat) (hs : firstFreeSlot bd.TextureUsed = some i) :
    ImGui_ImplUefi_CreateTexture bd allocOk pixels width height =
      if allocOk then
        (i, { bd with
              Textures := Function.update bd.Textures i
                ⟨some ((List.range (wrapI32 (width * height)).toNat).map (convertPixel pixels)),
                  width, height⟩,
              TextureUsed := Function.update bd.TextureUsed i true })
      else
        (0, { bd with Textures := Function.update bd.Textures i ⟨none, width, height⟩ }) := by
  unfold ImGui_ImplUefi_CreateTexture
  rw [hs]

theorem CreateTexture_of_full (bd : ImGui_ImplUefi_Data) (allocOk : Bool) (pixels : Nat → Nat)
    (width height : Int) (hs : firstFreeSlot bd.TextureUsed = none) :
    ImGui_ImplUefi_CreateTexture bd allocOk pixels width height = (0, bd) := by
  unfold ImGui_ImplUefi_CreateTexture
  rw [hs]

theorem firstFreeSlot_isSome_of_free (used : Nat → Bool)
    (h : ∃ i, 1 ≤ i ∧ i < 256 ∧ used i = false) : ∃ i, firstFreeSlot used = some i := by
  cases hs : firstFreeSlot used with
  | some i => exact ⟨i, rfl⟩
  | none =>
    obtain ⟨i, h1, h2, h3⟩ := h
    have := (firstFreeSlot_eq_none_iff used).1 hs i h1 h2
    rw [h3] at this
    cases this

/-- C11: on a table with a free slot, a successful `ImGui_ImplUefi_CreateTexture` followed
by `ImGui_ImplUefi_DeleteTexture` on the returned handle restores the occupancy flag of
every slot, hence the number of free slots. -/
theorem CreateTexture_DeleteTexture_roundtrip (bd : ImGui_ImplUefi_Data) (pixels : Nat → Nat)
    (width height : Int) (hfree : ∃ i, 1 ≤ i ∧ i < 256 ∧ bd.TextureUsed i = false) :
    (ImGui_ImplUefi_CreateTexture bd true pixels width height).1 ≠ 0 ∧
    (ImGui_ImplUefi_DeleteTexture (ImGui_ImplUefi_CreateTexture bd true pixels width height).2
        (ImGui_ImplUefi_CreateTexture bd true pixels width height).1).TextureUsed
      = bd.TextureUsed ∧
    freeSlotCount (ImGui_ImplUefi_DeleteTexture
        (ImGui_ImplUefi_CreateTexture bd true pixels width height).2
        (ImGui_ImplUefi_CreateTexture bd true pixels width height).1).TextureUsed
      = freeSlotCount bd.TextureUsed := by
  obtain ⟨i, hs⟩ := firstFreeSlot_isSome_of_free bd.TextureUsed hfree
  have hi := (firstFreeSlot_eq_some_iff _ _).1 hs
  rw [CreateTexture_of_free bd true pixels width height i hs]
  simp only [if_true]
  have hflags : (ImGui_ImplUefi_DeleteTexture
      { bd with
        Textures := Function.update bd.Textures i
          ⟨some ((List.range (wrapI32 (width * height)).toNat).map (convertPixel pixels)),
            width, height⟩,
        TextureUsed := Function.update bd.TextureUsed i true } i).TextureUsed
      = bd.TextureUsed := by
    unfold ImGui_ImplUefi_DeleteTexture MAX_TEXTURES
    simp only [Function.update_same, and_true]
    rw [if_pos hi.2.2.1]
    simp only [Function.update_idem]
    rw [← hi.1]
    exact Function.update_eq_self i bd.TextureUsed
  refine ⟨by omega, hflags, ?_⟩
  rw [hflags]

/-- C11, witness: the empty table. -/
theorem CreateTexture_DeleteTexture_roundtrip_witness :
    (ImGui_ImplUefi_CreateTexture (emptyTableData 4 4) true (fun _ => 255) 1 1).1 ≠ 0 ∧
    (ImGui_ImplUefi_DeleteTexture
        (ImGui_ImplUefi_CreateTexture (emptyTableData 4 4) true (fun _ => 255) 1 1).2
        (ImGui_ImplUefi_CreateTexture (emptyTableData 4 4) true (fun _ => 255) 1 1).1).TextureUsed
      = (emptyTableData 4 4).TextureUsed ∧
    freeSlotCount (ImGui_ImplUefi_DeleteTexture
        (ImGui_ImplUefi_CreateTexture (emptyTableData 4 4) true (fun _ => 255) 1 1).2
        (ImGui_ImplUefi_CreateTexture (emptyTableData 4 4) true (fun _ => 255) 1 1).1).TextureUsed
      = freeSlotCount (emptyTableData 4 4).TextureUsed :=
  CreateTexture_DeleteTexture_roundtrip (emptyTableData 4 4) (fun _ => 255) 1 1
    ⟨1, by decide, by decide, rfl⟩

theorem DeleteTexture_of_used (bd : ImGui_ImplUefi_Data) (h : Nat) (h1 : h < 256)
    (h2 : bd.TextureUsed h = true) :
    ImGui_ImplUefi_DeleteTexture bd h =
      { bd with
        Textures := Function.update bd.Textures h { bd.Textures h with Pixels := none },
        TextureUsed := Function.update bd.TextureUsed h false } := by
  unfold ImGui_ImplUefi_DeleteTexture MAX_TEXTURES
  rw [if_pos ⟨h1, h2⟩]

theorem DeleteTexture_of_not_used (bd : ImGui_ImplUefi_Data) (h : Nat)
    (h1 : 256 ≤ h ∨ bd.TextureUsed h = false) : ImGui_ImplUefi_DeleteTexture bd h = bd := by
  unfold ImGui_ImplUefi_DeleteTexture MAX_TEXTURES
  rw [if_neg]
  rintro ⟨h2, h3⟩
  rcases h1 with h1 | h1
  · omega
  · rw [h1] at h3
    cases h3

/-- C12: `ImGui_ImplUefi_DeleteTexture (h)` leaves the backend data unchanged when
`h >= 256` or slot `h` is unused (in particular for `h = 0` on a table whose slot 0 is
unused); otherwise it marks slot `h` free and sets its buffer to null, leaving its width and
height and all other slots as they are.  Deleting `h` twice gives the same backend data as
deleting it once. -/
theorem DeleteTexture_spec (bd : ImGui_ImplUefi_Data) (h : Nat) :
    ((256 ≤ h ∨ bd.TextureUsed h = false) → ImGui_ImplUefi_DeleteTexture bd h = bd) ∧
    ((h < 256 ∧ bd.TextureUsed h = true) →
      (ImGui_ImplUefi_DeleteTexture bd h).TextureUsed = Function.update bd.TextureUsed h false ∧
      ((ImGui_ImplUefi_DeleteTexture bd h).Textures h).Pixels = none ∧
      ((ImGui_ImplUefi_DeleteTexture bd h).Textures h).Width = (bd.Textures h).Width ∧
      ((ImGui_ImplUefi_DeleteTexture bd h).Textures h).Height = (bd.Textures h).Height ∧
      ∀ j, j ≠ h → (ImGui_ImplUefi_DeleteTexture bd h).Textures j = bd.Textures j) ∧
    ImGui_ImplUefi_DeleteTexture (ImGui_ImplUefi_DeleteTexture bd h) h =
      ImGui_ImplUefi_DeleteTexture bd h := by
  refine ⟨DeleteTexture_of_not_used bd h, ?_, ?_⟩
  · rintro ⟨h1, h2⟩
    rw [DeleteTexture_of_used bd h h1 h2]
    refine ⟨rfl, ?_, ?_, ?_, ?_⟩
    · simp
    · simp
    · simp
    · intro j hj
      simp [Function.update_noteq hj]
  · by_cases hu : h < 256 ∧ bd.TextureUsed h = true
    · rw [DeleteTexture_of_used bd h hu.1 hu.2]
      apply DeleteTexture_of_not_used
      right
      simp
    · have hn : 256 ≤ h ∨ bd.TextureUsed h = false := by
        by_cases h1 : h < 256
        · right
          cases hb : bd.TextureUsed h with
          | false => rfl
          | true => exact absurd ⟨h1, hb⟩ hu
        · left; omega
      rw [DeleteTexture_of_not_used bd h hn, DeleteTexture_of_not_used bd h hn]
theorem CreateTexture_cases (bd : ImGui_ImplUefi_Data) (allocOk : Bool) (pixels : Nat → Nat)
    (width height : Int) :
    (firstFreeSlot bd.TextureUsed = none ∧
      ImGui_ImplUefi_CreateTexture bd allocOk pixels width height = (0, bd)) ∨
    (∃ i, firstFreeSlot bd.TextureUsed = some i ∧ 1 ≤ i ∧ i < 256 ∧ bd.TextureUsed i = false ∧
      ((allocOk = true ∧
        ImGui_ImplUefi_CreateTexture bd allocOk pixels width height =
          (i, { bd with
                Textures := Function.update bd.Textures i
                  ⟨some ((List.range (wrapI32 (width * height)).toNat).map
                    (convertPixel pixels)), width, height⟩,
                TextureUsed := Function.update bd.TextureUsed i true })) ∨
       (allocOk = false ∧
        ImGui_ImplUefi_CreateTexture bd allocOk pixels width height =
          (0, { bd with Textures := Function.update bd.Textures i ⟨none, width, height⟩ })))) := by
  cases hs : firstFreeSlot bd.TextureUsed with
  | none => exact Or.inl ⟨rfl, CreateTexture_of_full bd allocOk pixels width height hs⟩
  | some i =>
    right
    have hi := (firstFreeSlot_eq_some_iff _ _).1 hs
    refine ⟨i, rfl, hi.2.1, hi.2.2.1, hi.1, ?_⟩
    rw [CreateTexture_of_free bd allocOk pixels width height i hs]
    cases allocOk with
    | true => exact Or.inl ⟨rfl, rfl⟩
    | false => exact Or.inr ⟨rfl, rfl⟩

theorem CreateTexture_handle_range (bd : ImGui_ImplUefi_Data) (allocOk : Bool)
    (pixels : Nat → Nat) (width height : Int) :
    (ImGui_ImplUefi_CreateTexture bd allocOk pixels width height).1 = 0 ∨
    (1 ≤ (ImGui_ImplUefi_CreateTexture bd allocOk pixels width height).1 ∧
      (ImGui_ImplUefi_CreateTexture bd allocOk pixels width height).1 ≤ 255) := by
  rcases CreateTexture_cases bd allocOk pixels width height with
    ⟨_, h⟩ | ⟨i, _, h1, h2, _, ⟨_, h⟩ | ⟨_, h⟩⟩
  · rw [h]; exact Or.inl rfl
  · rw [h]; exact Or.inr ⟨h1, by omega⟩
  · rw [h]; exact Or.inl rfl

theorem CreateTexture_used_zero (bd : ImGui_ImplUefi_Data) (allocOk : Bool)
    (pixels : Nat → Nat) (width height : Int) :
    (ImGui_ImplUefi_CreateTexture bd allocOk pixels width height).2.TextureUsed 0 =
      bd.TextureUsed 0 := by
  rcases CreateTexture_cases bd allocOk pixels width height with
    ⟨_, h⟩ | ⟨i, _, h1, h2, _, ⟨_, h⟩ | ⟨_, h⟩⟩
  · rw [h]
  · rw [h]
    exact Function.update_noteq (by omega) _ _
  · rw [h]

theorem DeleteTexture_used_zero (bd : ImGui_ImplUefi_Data) (h : Nat)
    (h0 : bd.TextureUsed 0 = false) : (ImGui_ImplUefi_DeleteTexture bd h).TextureUsed 0 = false := by
  unfold ImGui_ImplUefi_DeleteTexture
  split
  · by_cases hh : h = 0
    · subst hh
      simp
    · simp only
      rw [Function.update_noteq (Ne.symm hh)]
      exact h0
  · exact h0

theorem TableOp.run_used_zero (bd : ImGui_ImplUefi_Data) (op : TableOp)
    (h0 : bd.TextureUsed 0 = false) : (op.run bd).TextureUsed 0 = false := by
  cases op with
  | Create allocOk pixels width height =>
    simp only [TableOp.run]
    rw [CreateTexture_used_zero]
    exact h0
  | Delete h => exact DeleteTexture_used_zero bd h h0
  | CreateDeviceObjects allocOk pixels width height =>
    simp only [TableOp.run, ImGui_ImplUefi_CreateDeviceObjects]
    rw [CreateTexture_used_zero]
    exact h0
  | DestroyDeviceObjects =>
    simp only [TableOp.run, ImGui_ImplUefi_DestroyDeviceObjects]
    split
    · exact DeleteTexture_used_zero bd _ h0
    · exact h0

theorem runOps_used_zero (ops : List TableOp) (bd : ImGui_ImplUefi_Data)
    (h0 : bd.TextureUsed 0 = false) : (runOps bd ops).TextureUsed 0 = false := by
  induction ops generalizing bd with
  | nil => exact h0
  | cons op ops ih => exact ih (op.run bd) (TableOp.run_used_zero bd op h0)

/-- C13: starting from a zero-initialised table, after any sequence of
`ImGui_ImplUefi_CreateTexture`, `ImGui_ImplUefi_DeleteTexture`,
`ImGui_ImplUefi_CreateDeviceObjects` and `ImGui_ImplUefi_DestroyDeviceObjects` calls slot 0
is not marked used, and a call of `ImGui_ImplUefi_CreateTexture` in the state reached returns
`0` (failure) or a handle in `1..255`. -/
theorem slot_zero_never_used (bd : ImGui_ImplUefi_Data) (ops : List TableOp)
    (hzero : ∀ i, bd.TextureUsed i = false) :
    (runOps bd ops).TextureUsed 0 = false ∧
    ∀ (allocOk : Bool) (pixels : Nat → Nat) (width height : Int),
      (ImGui_ImplUefi_CreateTexture (runOps bd ops) allocOk pixels width height).1 = 0 ∨
      (1 ≤ (ImGui_ImplUefi_CreateTexture (runOps bd ops) allocOk pixels width height).1 ∧
        (ImGui_ImplUefi_CreateTexture (runOps bd ops) allocOk pixels width height).1 ≤ 255) :=
  ⟨runOps_used_zero ops bd (hzero 0),
    fun allocOk pixels width height =>
      CreateTexture_handle_range (runOps bd ops) allocOk pixels width height⟩

/-- C13, witness: from the zero-initialised backend data, create the font texture, create
a texture, delete handle 0, destroy the device objects. -/
theorem slot_zero_never_used_witness :
    (runOps zeroData [TableOp.CreateDeviceObjects true (fun _ => 255) 2 2,
      TableOp.Create true (fun _ => 0) 1 1, TableOp.Delete 0,
      TableOp.DestroyDeviceObjects]).TextureUsed 0 = false :=
  (slot_zero_never_used zeroData [TableOp.CreateDeviceObjects true (fun _ => 255) 2 2,
      TableOp.Create true (fun _ => 0) 1 1, TableOp.Delete 0,
      TableOp.DestroyDeviceObjects] (fun _ => rfl)).1

theorem wrapI32_of_range (v : Int) (h1 : -2147483648 ≤ v) (h2 : v < 2147483648) :
    wrapI32 v = v := by
  unfold wrapI32
  omega

theorem tableInvariant_CreateTexture (bd : ImGui_ImplUefi_Data) (allocOk : Bool)
    (pixels : Nat → Nat) (width height : Int) (hinv : tableInvariant bd)
    (hs : 0 ≤ width * height ∧ width * height < 2147483648) :
    tableInvariant (ImGui_ImplUefi_CreateTexture bd allocOk pixels width height).2 := by
  rcases CreateTexture_cases bd allocOk pixels width height with
    ⟨_, h⟩ | ⟨i, _, h1, h2, hu, ⟨_, h⟩ | ⟨_, h⟩⟩
  · rw [h]; exact hinv
  · rw [h]
    intro j
    by_cases hj : j = i
    · subst hj
      simp only [Function.update_same]
      refine ⟨fun _ => ⟨_, rfl, ?_⟩, fun hf => by cases hf⟩
      rw [List.length_map, List.length_range, wrapI32_of_range _ (by omega) hs.2]
      exact Int.toNat_of_nonneg hs.1
    · simp only [Function.update_noteq hj]
      exact hinv j
  · rw [h]
    intro j
    by_cases hj : j = i
    · subst hj
      constructor
      · intro ht
        have ht2 : bd.TextureUsed j = true := ht
        rw [hu] at ht2
        cases ht2
      · intro _
        simp
    · simp only [Function.update_noteq hj]
      exact hinv j

theorem tableInvariant_DeleteTexture (bd : ImGui_ImplUefi_Data) (h : Nat)
    (hinv : tableInvariant bd) : tableInvariant (ImGui_ImplUefi_DeleteTexture bd h) := by
  unfold ImGui_ImplUefi_DeleteTexture
  split
  · intro j
    by_cases hj : j = h
    · subst hj
      constructor
      · intro hf
        simp at hf
      · intro _
        simp
    · simp only [Function.update_noteq hj]
      exact hinv j
  · exact hinv

theorem tableInvariant_run (bd : ImGui_ImplUefi_Data) (op : TableOp)
    (hinv : tableInvariant bd) (hs : op.sized) : tableInvariant (op.run bd) := by
  cases op with
  | Create allocOk pixels width height =>
    obtain ⟨h1, h2, h3⟩ := hs
    exact tableInvariant_CreateTexture bd allocOk pixels width height hinv
      ⟨le_of_lt (Int.mul_pos h1 h2), h3⟩
  | Delete h => exact tableInvariant_DeleteTexture bd h hinv
  | CreateDeviceObjects allocOk pixels width height =>
    obtain ⟨h1, h2, h3⟩ := hs
    exact tableInvariant_CreateTexture bd allocOk pixels width height hinv
      ⟨le_of_lt (Int.mul_pos h1 h2), h3⟩
  | DestroyDeviceObjects =>
    simp only [TableOp.run, ImGui_ImplUefi_DestroyDeviceObjects]
    split
    · exact tableInvariant_DeleteTexture bd _ hinv
    · exact hinv

theorem tableInvariant_runOps (ops : List TableOp) (bd : ImGui_ImplUefi_Data)
    (hinv : tableInvariant bd) (hs : ∀ op ∈ ops, op.sized) : tableInvariant (runOps bd ops) := by
  induction ops generalizing bd with
  | nil => exact hinv
  | cons op ops ih =>
    exact ih (op.run bd) (tableInvariant_run bd op hinv (hs op (List.mem_cons_self _ _)))
      (fun o ho => hs o (List.mem_cons_of_mem _ ho))

/-- C14: starting from a zero-initialised table, after any sequence of creating calls with
positive width and height (whose product is an `int`), with allocations that succeed or
fail, and of deleting calls, every used slot holds a non-null pixel buffer of exactly
`Width * Height` pixels for its recorded width and height, and every unused slot holds the
null pointer. -/
theorem texture_table_invariant (bd : ImGui_ImplUefi_Data) (ops : List TableOp)
    (hzero : ∀ i, bd.TextureUsed i = false ∧ (bd.Textures i).Pixels = none)
    (hs : ∀ op ∈ ops, op.sized) :
    ∀ i, ((runOps bd ops).TextureUsed i = true →
            ∃ l, ((runOps bd ops).Textures i).Pixels = some l ∧
              (l.length : Int) =
                ((runOps bd ops).Textures i).Width * ((runOps bd ops).Textures i).Height) ∧
         ((runOps bd ops).TextureUsed i = false → ((runOps bd ops).Textures i).Pixels = none) := by
  have hinv : tableInvariant bd := by
    intro i
    refine ⟨fun h => ?_, fun _ => (hzero i).2⟩
    rw [(hzero i).1] at h
    cases h
  exact tableInvariant_runOps ops bd hinv hs

/-- C14, witness: from the zero-initialised backend data, a 2 by 3 texture is created, an
allocation fails, the first texture is deleted and a 1 by 1 texture is created. -/
theorem texture_table_invariant_witness :
    ∃ l, ((runOps zeroData [TableOp.Create true (fun _ => 255) 2 3,
        TableOp.Create false (fun _ => 255) 4 4, TableOp.Delete 1,
        TableOp.Create true (fun _ => 7) 1 1]).Textures 1).Pixels = some l ∧
      (l.length : Int) =
        ((runOps zeroData [TableOp.Create true (fun _ => 255) 2 3,
          TableOp.Create false (fun _ => 255) 4 4, TableOp.Delete 1,
          TableOp.Create true (fun _ => 7) 1 1]).Textures 1).Width *
        ((runOps zeroData [TableOp.Create true (fun _ => 255) 2 3,
          TableOp.Create false (fun _ => 255) 4 4, TableOp.Delete 1,
          TableOp.Create true (fun _ => 7) 1 1]).Textures 1).Height :=
  (texture_table_invariant zeroData [TableOp.Create true (fun _ => 255) 2 3,
      TableOp.Create false (fun _ => 255) 4 4, TableOp.Delete 1,
      TableOp.Create true (fun _ => 7) 1 1] (fun _ => ⟨rfl, rfl⟩)
    (by
      intro op hop
      simp only [List.mem_cons, List.mem_singleton, List.not_mem_nil, or_false] at hop
      rcases hop with rfl | rfl | rfl | rfl
      · exact ⟨by decide, by decide, by decide⟩
      · exact ⟨by decide, by decide, by decide⟩
      · exact trivial
      · exact ⟨by decide, by decide, by decide⟩) 1).1 (by decide)

theorem CreateTexture_keeps_used (bd : ImGui_ImplUefi_Data) (allocOk : Bool)
    (pixels : Nat → Nat) (width height : Int) (j : Nat) (hj : bd.TextureUsed j = true) :
    (ImGui_ImplUefi_CreateTexture bd allocOk pixels width height).2.TextureUsed j = true ∧
    (ImGui_ImplUefi_CreateTexture bd allocOk pixels width height).2.Textures j = bd.Textures j := by
  rcases CreateTexture_cases bd allocOk pixels width height with
    ⟨_, h⟩ | ⟨i, _, h1, h2, hu, ⟨_, h⟩ | ⟨_, h⟩⟩
  · rw [h]; exact ⟨hj, rfl⟩
  · have hne : j ≠ i := by
      intro e
      rw [e, hu] at hj
      cases hj
    rw [h]
    exact ⟨by simp only [Function.update_noteq hne]; exact hj,
      by simp only [Function.update_noteq hne]⟩
  · have hne : j ≠ i := by
      intro e
      rw [e, hu] at hj
      cases hj
    rw [h]
    exact ⟨hj, by simp only [Function.update_noteq hne]⟩

theorem DeleteTexture_other (bd : ImGui_ImplUefi_Data) (h j : Nat) (hj : j ≠ h) :
    (ImGui_ImplUefi_DeleteTexture bd h).TextureUsed j = bd.TextureUsed j ∧
    (ImGui_ImplUefi_DeleteTexture bd h).Textures j = bd.Textures j := by
  unfold ImGui_ImplUefi_DeleteTexture
  split
  · exact ⟨by simp only [Function.update_noteq hj], by simp only [Function.update_noteq hj]⟩
  · exact ⟨rfl, rfl⟩

theorem runOps_keeps (ops : List TableOp) (bd : ImGui_ImplUefi_Data) (j : Nat)
    (hj : bd.TextureUsed j = true) (hk : ∀ op ∈ ops, op.keeps j) :
    (runOps bd ops).TextureUsed j = true ∧ (runOps bd ops).Textures j = bd.Textures j := by
  induction ops generalizing bd with
  | nil => exact ⟨hj, rfl⟩
  | cons op ops ih =>
    have hop := hk op (List.mem_cons_self _ _)
    have hstep : (op.run bd).TextureUsed j = true ∧ (op.run bd).Textures j = bd.Textures j := by
      cases op with
      | Create allocOk pixels width height =>
        exact CreateTexture_keeps_used bd allocOk pixels width height j hj
      | Delete h =>
        have hne : j ≠ h := fun e => hop e.symm
        have := DeleteTexture_other bd h j hne
        exact ⟨by rw [← hj]; exact this.1, this.2⟩
      | CreateDeviceObjects allocOk pixels width height =>
        exact CreateTexture_keeps_used bd allocOk pixels width height j hj
      | DestroyDeviceObjects => exact absurd hop id
    have hrec := ih (op.run bd) hstep.1 (fun o ho => hk o (List.mem_cons_of_mem _ ho))
    exact ⟨hrec.1, hrec.2.trans hstep.2⟩

/-- C15: a call of `ImGui_ImplUefi_CreateTexture` that returns the handle `i` changes at
most slot `i`, and `ImGui_ImplUefi_DeleteTexture (h)` changes at most slot `h`: every other
slot keeps its occupancy flag, width, height and pixels.  A failed creating call changes
no occupancy flag and no used slot.  Hence a used slot `j` is still used and holds the same
texture after any sequence of calls that create textures or delete other handles. -/
theorem texture_handles_stable (bd : ImGui_ImplUefi_Data) (allocOk : Bool)
    (pixels : Nat → Nat) (width height : Int) (h : Nat) :
    ((ImGui_ImplUefi_CreateTexture bd allocOk pixels width height).1 ≠ 0 →
      ∀ j, j ≠ (ImGui_ImplUefi_CreateTexture bd allocOk pixels width height).1 →
        (ImGui_ImplUefi_CreateTexture bd allocOk pixels width height).2.TextureUsed j =
          bd.TextureUsed j ∧
        (ImGui_ImplUefi_CreateTexture bd allocOk pixels width height).2.Textures j =
          bd.Textures j) ∧
    (∀ j, j ≠ h →
        (ImGui_ImplUefi_DeleteTexture bd h).TextureUsed j = bd.TextureUsed j ∧
        (ImGui_ImplUefi_DeleteTexture bd h).Textures j = bd.Textures j) ∧
    ((ImGui_ImplUefi_CreateTexture bd allocOk pixels width height).1 = 0 →
      (ImGui_ImplUefi_CreateTexture bd allocOk pixels width height).2.TextureUsed =
        bd.TextureUsed ∧
      ∀ j, bd.TextureUsed j = true →
        (ImGui_ImplUefi_CreateTexture bd allocOk pixels width height).2.Textures j =
          bd.Textures j) ∧
    (∀ (ops : List TableOp) (j : Nat), bd.TextureUsed j = true → (∀ op ∈ ops, op.keeps j) →
      (runOps bd ops).TextureUsed j = true ∧ (runOps bd ops).Textures j = bd.Textures j) := by
  refine ⟨?_, fun j hj => DeleteTexture_other bd h j hj, ?_,
    fun ops j hj hk => runOps_keeps ops bd j hj hk⟩
  · rcases CreateTexture_cases bd allocOk pixels width height with
      ⟨_, hc⟩ | ⟨i, _, h1, h2, hu, ⟨_, hc⟩ | ⟨_, hc⟩⟩
    · rw [hc]; intro hne; exact absurd rfl hne
    · rw [hc]
      intro _ j hj
      have hj2 : j ≠ i := hj
      exact ⟨by simp only [Function.update_noteq hj2], by simp only [Function.update_noteq hj2]⟩
    · rw [hc]; intro hne; exact absurd rfl hne
  · rcases CreateTexture_cases bd allocOk pixels width height with
      ⟨_, hc⟩ | ⟨i, _, h1, h2, hu, ⟨_, hc⟩ | ⟨_, hc⟩⟩
    · rw [hc]; intro _; exact ⟨rfl, fun _ _ => rfl⟩
    · rw [hc]; intro h0
      have : i = 0 := h0
      omega
    · rw [hc]
      intro _
      refine ⟨rfl, fun j hj => ?_⟩
      have hne : j ≠ i := by
        intro e
        rw [e, hu] at hj
        cases hj
      simp only [Function.update_noteq hne]

theorem convertPixel_eq (pixels : Nat → Nat) (j : Nat) (hbytes : ∀ k, pixels k < 256) :
    convertPixel pixels j =
      pixels (j * 4 + 3) * 16777216 + pixels (j * 4 + 0) * 65536 + pixels (j * 4 + 1) * 256 +
        pixels (j * 4 + 2) := by
  unfold convertPixel
  simp only
  have hr := hbytes (j * 4 + 0)
  have hg := hbytes (j * 4 + 1)
  have hb := hbytes (j * 4 + 2)
  have ha := hbytes (j * 4 + 3)
  rw [Nat.mod_eq_of_lt hr, Nat.mod_eq_of_lt hg, Nat.mod_eq_of_lt hb, Nat.mod_eq_of_lt ha]
  generalize pixels (j * 4 + 0) = r at *
  generalize pixels (j * 4 + 1) = g at *
  generalize pixels (j * 4 + 2) = b at *
  generalize pixels (j * 4 + 3) = a at *
  simp only [Nat.shiftLeft_eq]
  have e1 : a * 2 ^ 24 ||| r * 2 ^ 16 = 2 ^ 16 * (a * 256 + r) := by
    have h := Nat.mul_add_lt_is_or (i := 24) (b := r * 2 ^ 16) (by omega) a
    rw [Nat.mul_comm (2 ^ 24) a] at h
    rw [← h]
    ring
  have e2 : 2 ^ 16 * (a * 256 + r) ||| g * 2 ^ 8 = 2 ^ 8 * ((a * 256 + r) * 256 + g) := by
    have h := Nat.mul_add_lt_is_or (i := 16) (b := g * 2 ^ 8) (by omega) (a * 256 + r)
    rw [← h]
    ring
  have e3 : 2 ^ 8 * ((a * 256 + r) * 256 + g) ||| b =
      2 ^ 8 * ((a * 256 + r) * 256 + g) + b :=
    (Nat.mul_add_lt_is_or (i := 8) (b := b) (by omega) ((a * 256 + r) * 256 + g)).symm
  rw [e1, e2, e3]
  omega

/-- C16: for a source of bytes and a size `width * height` that is a non-negative `int`, a
successful `ImGui_ImplUefi_CreateTexture` stores `width * height` pixels, and the pixel at
index `j` is `a * 2^24 + r * 2^16 + g * 2^8 + b` for the source bytes `r`, `g`, `b`, `a`
at `4j`, `4j+1`, `4j+2`, `4j+3`; each byte is recovered from the packed value by a shift
(division by a power of two) and a mask (remainder modulo 256), also when `a >= 128`. -/
theorem CreateTexture_pixels (bd : ImGui_ImplUefi_Data) (pixels : Nat → Nat)
    (width height : Int) (hbytes : ∀ k, pixels k < 256)
    (hfree : ∃ i, 1 ≤ i ∧ i < 256 ∧ bd.TextureUsed i = false)
    (hsize : 0 ≤ width * height ∧ width * height < 2147483648) :
    ∃ l, ((ImGui_ImplUefi_CreateTexture bd true pixels width height).2.Textures
        (ImGui_ImplUefi_CreateTexture bd true pixels width height).1).Pixels = some l ∧
      (l.length : Int) = width * height ∧
      ∀ j, j < l.length →
        l.getD j 0 = pixels (j * 4 + 3) * 16777216 + pixels (j * 4 + 0) * 65536 +
          pixels (j * 4 + 1) * 256 + pixels (j * 4 + 2) ∧
        l.getD j 0 / 16777216 % 256 = pixels (j * 4 + 3) ∧
        l.getD j 0 / 65536 % 256 = pixels (j * 4 + 0) ∧
        l.getD j 0 / 256 % 256 = pixels (j * 4 + 1) ∧
        l.getD j 0 % 256 = pixels (j * 4 + 2) := by
  obtain ⟨i, hs⟩ := firstFreeSlot_isSome_of_free bd.TextureUsed hfree
  rw [CreateTexture_of_free bd true pixels width height i hs]
  simp only [if_true, Function.update_same]
  refine ⟨_, rfl, ?_, ?_⟩
  · rw [List.length_map, List.length_range, wrapI32_of_range _ (by omega) hsize.2]
    exact Int.toNat_of_nonneg hsize.1
  · intro j hj
    rw [List.length_map, List.length_range] at hj
    have hget : ((List.range (wrapI32 (width * height)).toNat).map (convertPixel pixels)).getD j 0
        = convertPixel pixels j := by
      rw [List.getD_eq_getElem?_getD, List.getElem?_map, List.getElem?_range hj]
      rfl
    rw [hget, convertPixel_eq pixels j hbytes]
    have hr := hbytes (j * 4 + 0)
    have hg := hbytes (j * 4 + 1)
    have hb := hbytes (j * 4 + 2)
    have ha := hbytes (j * 4 + 3)
    refine ⟨rfl, ?_, ?_, ?_, ?_⟩ <;> omega

/-- C16, witness: a source of bytes `200`, a 2 by 2 texture on the empty table; the stored
pixel is `0xC8C8C8C8`. -/
theorem CreateTexture_pixels_witness :
    ∃ l, ((ImGui_ImplUefi_CreateTexture (emptyTableData 4 4) true (fun _ => 200) 2 2).2.Textures
        (ImGui_ImplUefi_CreateTexture (emptyTableData 4 4) true (fun _ => 200) 2 2).1).Pixels
          = some l ∧
      (l.length : Int) = 2 * 2 ∧
      ∀ j, j < l.length →
        l.getD j 0 = 200 * 16777216 + 200 * 65536 + 200 * 256 + 200 ∧
        l.getD j 0 / 16777216 % 256 = 200 ∧
        l.getD j 0 / 65536 % 256 = 200 ∧
        l.getD j 0 / 256 % 256 = 200 ∧
        l.getD j 0 % 256 = 200 :=
  CreateTexture_pixels (emptyTableData 4 4) (fun _ => 200) 2 2 (fun _ => (by decide : (200 : Nat) < 256))
    ⟨1, by decide, by decide, rfl⟩ ⟨by decide, by decide⟩

/-! ## Input pipeline: pointer buttons -/

theorem buttonEvents_append (l1 l2 : List InputEvent) :
    buttonEvents (l1 ++ l2) = buttonEvents l1 ++ buttonEvents l2 := by
  unfold buttonEvents
  exact List.filter_append _ _

theorem buttonEvents_processKeyboard (bd : ImGui_ImplUefi_Data)
    (keyRead : Option EFI_INPUT_KEY) : buttonEvents (processKeyboard bd keyRead) = [] := by
  unfold processKeyboard
  cases bd.TextInput with
  | none => rfl
  | some t =>
    cases keyRead with
    | none => rfl
    | some key =>
      simp only
      rw [buttonEvents_append]
      split <;> split <;> (try split) <;> rfl

/-- The outcome of a successful pointer poll for the buttons: the button events and the
stored button states. -/
theorem processPointer_buttons (bd : ImGui_ImplUefi_Data) (p : Nat)
    (state : EFI_SIMPLE_POINTER_STATE) (hp : bd.Pointer = some p) :
    buttonEvents (processPointer bd (some state)).2 =
      (if decide (state.LeftButton ≠ 0) ≠ bd.MouseButtonDown 0
        then [InputEvent.MouseButton 0 (decide (state.LeftButton ≠ 0))] else []) ++
      (if decide (state.RightButton ≠ 0) ≠ bd.MouseButtonDown 1
        then [InputEvent.MouseButton 1 (decide (state.RightButton ≠ 0))] else []) ∧
    (processPointer bd (some state)).1.MouseButtonDown 0 = decide (state.LeftButton ≠ 0) ∧
    (processPointer bd (some state)).1.MouseButtonDown 1 = decide (state.RightButton ≠ 0) ∧
    (processPointer bd (some state)).1.MouseButtonDown 2 = bd.MouseButtonDown 2 ∧
    (processPointer bd (some state)).1.Pointer = some p := by
  unfold processPointer
  rw [hp]
  simp only
  generalize decide (state.LeftButton ≠ 0) = l
  generalize decide (state.RightButton ≠ 0) = r
  cases l <;> cases r <;> cases h0 : bd.MouseButtonDown 0 <;> cases h1 : bd.MouseButtonDown 1 <;>
    simp [buttonEvents, Function.update, h0, h1]

/-- C20: a successful pointer poll emits a button event for the left (right) button exactly
when the reported state differs from the stored `MouseButtonDown[0]` (`[1]`), the event
carries the new state and the stored state becomes the reported one; the number of button
events is the number of buttons that changed, and a following successful poll that reports
the same button states emits no button event. -/
theorem pointer_edge_detection (bd : ImGui_ImplUefi_Data) (p : Nat)
    (keyRead keyRead2 : Option EFI_INPUT_KEY) (state state2 : EFI_SIMPLE_POINTER_STATE)
    (hp : bd.Pointer = some p) :
    buttonEvents (ImGui_ImplUefi_ProcessInputEvents bd keyRead (some state)).2 =
      (if decide (state.LeftButton ≠ 0) ≠ bd.MouseButtonDown 0
        then [InputEvent.MouseButton 0 (decide (state.LeftButton ≠ 0))] else []) ++
      (if decide (state.RightButton ≠ 0) ≠ bd.MouseButtonDown 1
        then [InputEvent.MouseButton 1 (decide (state.RightButton ≠ 0))] else []) ∧
    (ImGui_ImplUefi_ProcessInputEvents bd keyRead (some state)).1.MouseButtonDown 0 =
      decide (state.LeftButton ≠ 0) ∧
    (ImGui_ImplUefi_ProcessInputEvents bd keyRead (some state)).1.MouseButtonDown 1 =
      decide (state.RightButton ≠ 0) ∧
    (buttonEvents (ImGui_ImplUefi_ProcessInputEvents bd keyRead (some state)).2).length =
      (if decide (state.LeftButton ≠ 0) ≠ bd.MouseButtonDown 0 then 1 else 0) +
      (if decide (state.RightButton ≠ 0) ≠ bd.MouseButtonDown 1 then 1 else 0) ∧
    (decide (state2.LeftButton ≠ 0) = decide (state.LeftButton ≠ 0) →
      decide (state2.RightButton ≠ 0) = decide (state.RightButton ≠ 0) →
      buttonEvents (ImGui_ImplUefi_ProcessInputEvents
        (ImGui_ImplUefi_ProcessInputEvents bd keyRead (some state)).1 keyRead2
        (some state2)).2 = []) := by
  have h1 := processPointer_buttons bd p state hp
  have hev : ∀ (b : ImGui_ImplUefi_Data) (k : Option EFI_INPUT_KEY)
      (s : Option EFI_SIMPLE_POINTER_STATE),
      buttonEvents (ImGui_ImplUefi_ProcessInputEvents b k s).2 =
        buttonEvents (processPointer b s).2 := by
    intro b k s
    unfold ImGui_ImplUefi_ProcessInputEvents
    simp only
    rw [buttonEvents_append, buttonEvents_processKeyboard, List.nil_append]
  have hst : (ImGui_ImplUefi_ProcessInputEvents bd keyRead (some state)).1 =
      (processPointer bd (some state)).1 := rfl
  rw [hev, hst]
  refine ⟨h1.1, h1.2.1, h1.2.2.1, ?_, ?_⟩
  · rw [h1.1, List.length_append]
    split <;> split <;> rfl
  · intro hl hr
    have h2 := processPointer_buttons (processPointer bd (some state)).1 p state2 h1.2.2.2.2
    rw [hev, h2.1, h1.2.1, h1.2.2.1, hl, hr]
    simp

/-- C20, witness: with both buttons stored as released, a poll reporting the left button
pressed emits one button event, and a second poll reporting the same states emits none. -/
theorem pointer_edge_detection_witness :
    buttonEvents (ImGui_ImplUefi_ProcessInputEvents pointerData none
        (some ⟨0, 0, 0, 1, 0⟩)).2 = [InputEvent.MouseButton 0 true] ∧
    buttonEvents (ImGui_ImplUefi_ProcessInputEvents
        (ImGui_ImplUefi_ProcessInputEvents pointerData none (some ⟨0, 0, 0, 1, 0⟩)).1 none
        (some ⟨2500, 0, 0, 1, 0⟩)).2 = [] :=
  have h := pointer_edge_detection pointerData 2 none none ⟨0, 0, 0, 1, 0⟩ ⟨2500, 0, 0, 1, 0⟩ rfl
  ⟨h.1, h.2.2.2.2 rfl rfl⟩

/-! ## Line drawing -/

theorem DrawLine.loop_eq_visited (width height : Nat) (x1 y1 dx dy sx sy : Int) (color : Nat)
    (fuel : Nat) : ∀ (buffer : Buffer) (x0 y0 err : Int),
    (DrawLine.loop width height x1 y1 dx dy sx sy color fuel buffer x0 y0 err).1 =
      (DrawLine.visited x1 y1 dx dy sx sy fuel x0 y0 err).foldl
        (DrawLine.plot width height color) buffer ∧
    ((DrawLine.loop width height x1 y1 dx dy sx sy color fuel buffer x0 y0 err).2 = true ↔
      (DrawLine.visited x1 y1 dx dy sx sy fuel x0 y0 err).getLast? = some (x1, y1)) := by
  induction fuel with
  | zero =>
    intro buffer x0 y0 err
    simp [DrawLine.loop, DrawLine.visited]
  | succ fuel ih =>
    intro buffer x0 y0 err
    unfold DrawLine.loop DrawLine.visited
    by_cases hend : x0 = x1 ∧ y0 = y1
    · rw [if_pos hend, if_pos hend]
      simp [hend.1, hend.2]
    · rw [if_neg hend, if_neg hend]
      have h := ih (DrawLine.plot width height color buffer (x0, y0))
        (DrawLine.next dx dy sx sy x0 y0 err).1 (DrawLine.next dx dy sx sy x0 y0 err).2.1
        (DrawLine.next dx dy sx sy x0 y0 err).2.2
      refine ⟨by rw [h.1, List.foldl_cons], ?_⟩
      rw [h.2]
      cases hv : DrawLine.visited x1 y1 dx dy sx sy fuel
          (DrawLine.next dx dy sx sy x0 y0 err).1 (DrawLine.next dx dy sx sy x0 y0 err).2.1
          (DrawLine.next dx dy sx sy x0 y0 err).2.2 with
      | nil =>
        simp only [List.getLast?_nil, List.getLast?_singleton, Option.some.injEq, Prod.mk.injEq]
        constructor
        · intro h0; cases h0
        · intro h0; exact absurd h0 hend
      | cons a l => rw [List.getLast?_cons_cons]

/-- The buffer of a `DrawLine` run is the buffer after the guarded assignments at the
positions of its loop iterations, in order. -/
theorem DrawLine.run_eq_points (fuel : Nat) (buffer : Buffer) (width height : Nat)
    (x0 y0 x1 y1 : Int) (color : Nat) :
    (DrawLine.run fuel buffer width height x0 y0 x1 y1 color).1 =
      (DrawLine.points fuel width height x0 y0 x1 y1).foldl
        (DrawLine.plot width height color) buffer := by
  unfold DrawLine.run DrawLine.points
  split
  · rfl
  · exact (DrawLine.loop_eq_visited _ _ _ _ _ _ _ _ _ _ _ _ _ _).1

theorem DrawLine.foldl_plot_of_not_mem (width height : Nat) (color : Nat)
    (pts : List (Int × Int)) (buffer : Buffer) (i : Nat)
    (h : ∀ p ∈ pts, DrawLine.inBounds width height p = true → cellIndex width p.1 p.2 ≠ i) :
    pts.foldl (DrawLine.plot width height color) buffer i = buffer i := by
  induction pts generalizing buffer with
  | nil => rfl
  | cons p pts ih =>
    rw [List.foldl_cons, ih _ (fun q hq => h q (List.mem_cons_of_mem _ hq))]
    unfold DrawLine.plot
    split
    · rename_i hb
      have := h p (List.mem_cons_self _ _) (by unfold DrawLine.inBounds; exact decide_eq_true hb)
      simp only [Buffer.write]
      rw [if_neg (fun e => this e.symm)]
    · rfl

theorem DrawLine.foldl_plot_of_mem (width height : Nat) (color : Nat)
    (pts : List (Int × Int)) (buffer : Buffer) (i : Nat)
    (h : ∃ p ∈ pts, DrawLine.inBounds width height p = true ∧ cellIndex width p.1 p.2 = i) :
    pts.foldl (DrawLine.plot width height color) buffer i = color := by
  induction pts generalizing buffer with
  | nil => obtain ⟨p, hp, _⟩ := h; cases hp
  | cons q pts ih =>
    rw [List.foldl_cons]
    by_cases hex : ∃ p ∈ pts, DrawLine.inBounds width height p = true ∧
        cellIndex width p.1 p.2 = i
    · exact ih _ hex
    · rw [DrawLine.foldl_plot_of_not_mem]
      · obtain ⟨p, hp, hb, hpi⟩ := h
        rcases List.mem_cons.1 hp with rfl | hp2
        · unfold DrawLine.inBounds at hb
          unfold DrawLine.plot
          rw [if_pos (of_decide_eq_true hb)]
          simp [Buffer.write, hpi]
        · exact absurd ⟨p, hp2, hb, hpi⟩ hex
      · intro p hp hb hpi
        exact hex ⟨p, hp, hb, hpi⟩

/-- The updates of one loop iteration when no `INT32` operation overflows. -/
theorem DrawLine.next_eq (dx dy sx sy x y err : Int)
    (h1 : -2147483648 ≤ 2 * err ∧ 2 * err < 2147483648)
    (h2 : -2147483648 ≤ -dy ∧ -dy < 2147483648)
    (h3 : 2 * err > -dy →
      (-2147483648 ≤ err - dy ∧ err - dy < 2147483648) ∧
      (-2147483648 ≤ x + sx ∧ x + sx < 2147483648))
    (h4 : 2 * err < dx →
      (-2147483648 ≤ (if 2 * err > -dy then err - dy else err) + dx ∧
        (if 2 * err > -dy then err - dy else err) + dx < 2147483648) ∧
      (-2147483648 ≤ y + sy ∧ y + sy < 2147483648)) :
    DrawLine.next dx dy sx sy x y err =
      (if 2 * err > -dy then x + sx else x, if 2 * err < dx then y + sy else y,
        if 2 * err < dx then (if 2 * err > -dy then err - dy else err) + dx
        else (if 2 * err > -dy then err - dy else err)) := by
  unfold DrawLine.next
  simp only
  rw [wrapI32_of_range (2 * err) h1.1 h1.2, wrapI32_of_range (-dy) h2.1 h2.2]
  by_cases c1 : 2 * err > -dy
  · have b := h3 c1
    by_cases c2 : 2 * err < dx
    · have b2 := h4 c2
      simp only [if_pos c1, if_pos c2] at b2 ⊢
      rw [wrapI32_of_range _ b.1.1 b.1.2, wrapI32_of_range _ b.2.1 b.2.2,
        wrapI32_of_range _ b2.1.1 b2.1.2, wrapI32_of_range _ b2.2.1 b2.2.2]
    · simp only [if_pos c1, if_neg c2]
      rw [wrapI32_of_range _ b.1.1 b.1.2, wrapI32_of_range _ b.2.1 b.2.2]
  · by_cases c2 : 2 * err < dx
    · have b2 := h4 c2
      simp only [if_neg c1, if_pos c2] at b2 ⊢
      rw [wrapI32_of_range _ b2.1.1 b2.1.2, wrapI32_of_range _ b2.2.1 b2.2.2]
    · simp only [if_neg c1, if_neg c2]

theorem DrawLine.next_eq_of_stepOk (dx dy sx sy x y err : Int)
    (h : DrawLine.stepOk dx dy sx sy x y err = true) :
    DrawLine.next dx dy sx sy x y err =
      (if 2 * err > -dy then x + sx else x, if 2 * err < dx then y + sy else y,
        if 2 * err < dx then (if 2 * err > -dy then err - dy else err) + dx
        else (if 2 * err > -dy then err - dy else err)) := by
  unfold DrawLine.stepOk DrawLine.inRange at h
  simp only [Bool.and_eq_true, decide_eq_true_eq] at h
  obtain ⟨⟨⟨h1, h2⟩, h3⟩, h4⟩ := h
  refine DrawLine.next_eq dx dy sx sy x y err h1 h2 (fun c => ?_) (fun c => ?_)
  · rw [if_pos c] at h3
    simpa only [Bool.and_eq_true, decide_eq_true_eq] using h3
  · rw [if_pos c] at h4
    simpa only [Bool.and_eq_true, decide_eq_true_eq] using h4

/-- An iteration that is not the last one, in a run without overflow: the updates are the
exact ones and the rest of the run is without overflow. -/
theorem DrawLine.noOverflow_succ (x1 y1 dx dy sx sy : Int) (fuel : Nat) (x y err : Int)
    (hne : ¬ (x = x1 ∧ y = y1))
    (h : DrawLine.noOverflow x1 y1 dx dy sx sy (fuel + 1) x y err = true) :
    DrawLine.next dx dy sx sy x y err =
      (if 2 * err > -dy then x + sx else x, if 2 * err < dx then y + sy else y,
        if 2 * err < dx then (if 2 * err > -dy then err - dy else err) + dx
        else (if 2 * err > -dy then err - dy else err)) ∧
    DrawLine.noOverflow x1 y1 dx dy sx sy fuel
      (DrawLine.next dx dy sx sy x y err).1 (DrawLine.next dx dy sx sy x y err).2.1
      (DrawLine.next dx dy sx sy x y err).2.2 = true := by
  unfold DrawLine.noOverflow at h
  rw [if_neg hne, Bool.and_eq_true] at h
  exact ⟨DrawLine.next_eq_of_stepOk dx dy sx sy x y err h.1, h.2⟩

theorem range_succ_map_affine (x sx : Int) (n : Nat) :
    (List.range (n + 1 + 1)).map (fun k : Nat => x + sx * (k : Int)) =
      x :: (List.range (n + 1)).map (fun k : Nat => (x + sx) + sx * (k : Int)) := by
  rw [List.range_succ_eq_map (n + 1), List.map_cons, List.map_map]
  congr 1
  · simp
  · apply List.map_congr_left
    intro k _
    simp only [Function.comp, Nat.succ_eq_add_one]
    push_cast
    ring

/-- The loop of `DrawLine` on a line whose major axis is `x` (`dy <= dx`, `dx >= 1`), from
a state with `n` steps in `x` and `m` steps in `y` left, when no operation overflows
(because `3 * dx` is below `2^31` and the coordinates are `INT32` values, or because the
run is without overflow): the loop makes `n + 1` iterations, one for each value of `x`,
the last at `(x1, y1)`, and `y` stays between the current value and `y1`. -/
theorem DrawLine.visited_xmajor (x1 y1 D E sx sy : Int) (hsx : sx = 1 ∨ sx = -1)
    (hsy : sy = 1 ∨ sy = -1) (hD : 1 ≤ D) (hE : 0 ≤ E) (hED : E ≤ D)
    (n : Nat) : ∀ (fuel : Nat) (x y err m : Int),
    n + 1 ≤ fuel → x1 = x + sx * (n : Int) → y1 = y + sy * m → 0 ≤ m →
    err = D - E + E * (n : Int) - D * m →
    D - 2 * E ≤ 2 * err → 2 * err < 3 * D - 2 * E → (D = E → err = 0) →
    ((3 * D < 2147483648 ∧ (-2147483648 ≤ x1 ∧ x1 < 2147483648) ∧
        (-2147483648 ≤ y1 ∧ y1 < 2147483648) ∧ (-2147483648 ≤ x ∧ x < 2147483648) ∧
        (-2147483648 ≤ y ∧ y < 2147483648)) ∨
      DrawLine.noOverflow x1 y1 D E sx sy fuel x y err = true) →
    (DrawLine.visited x1 y1 D E sx sy fuel x y err).length = n + 1 ∧
    (DrawLine.visited x1 y1 D E sx sy fuel x y err).getLast? = some (x1, y1) ∧
    (DrawLine.visited x1 y1 D E sx sy fuel x y err).map Prod.fst =
      (List.range (n + 1)).map (fun k : Nat => x + sx * (k : Int)) ∧
    ∀ p ∈ DrawLine.visited x1 y1 D E sx sy fuel x y err,
      ∃ m2 : Int, 0 ≤ m2 ∧ m2 ≤ m ∧ p.2 = y1 - sy * m2 := by
  induction n with
  | zero =>
    intro fuel x y err m hf hx hy hm herr hlo hhi hdiag hok
    obtain ⟨f, rfl⟩ : ∃ f, fuel = f + 1 := ⟨fuel - 1, by omega⟩
    have hxe : x = x1 := by rw [hx]; simp
    have hm0 : m = 0 := by
      by_contra hne
      have hm1 : 1 ≤ m := by omega
      have hp : D * 1 ≤ D * m := Int.mul_le_mul_of_nonneg_left hm1 (by omega)
      simp only [Nat.cast_zero, mul_zero, add_zero, mul_one] at herr hp
      omega
    have hye : y = y1 := by rw [hy, hm0]; simp
    unfold DrawLine.visited
    rw [if_pos ⟨hxe, hye⟩]
    refine ⟨rfl, by simp [hxe, hye], by simp [List.range_succ], ?_⟩
    intro p hp
    rw [List.mem_singleton] at hp
    exact ⟨0, le_refl 0, hm, by rw [hp]; simp [hye]⟩
  | succ n ih =>
    intro fuel x y err m hf hx hy hm herr hlo hhi hdiag hok
    obtain ⟨f, rfl⟩ : ∃ f, fuel = f + 1 := ⟨fuel - 1, by omega⟩
    have hne : ¬ (x = x1 ∧ y = y1) := by
      rintro ⟨hxe, -⟩
      push_cast at hx
      rcases hsx with rfl | rfl <;> omega
    have hEn : E * 1 ≤ E * ((n : Int) + 1) := Int.mul_le_mul_of_nonneg_left (by omega) hE
    have hA : E * (((n + 1 : Nat) : Int)) = E * (n : Int) + E := by push_cast; ring
    have hc1 : 2 * err > -E := by
      rcases eq_or_lt_of_le hED with h | h
      · have := hdiag h.symm
        omega
      · omega
    have hmpos : 2 * err < D → 1 ≤ m := by
      intro hc
      by_contra hcon
      have hm0 : m = 0 := by omega
      rw [hm0] at herr
      push_cast at herr
      simp only [mul_zero, sub_zero, mul_one] at herr hEn
      omega
    have hboth : DrawLine.next D E sx sy x y err =
          (if 2 * err > -E then x + sx else x, if 2 * err < D then y + sy else y,
            if 2 * err < D then (if 2 * err > -E then err - E else err) + D
            else (if 2 * err > -E then err - E else err)) ∧
        ((3 * D < 2147483648 ∧ (-2147483648 ≤ x1 ∧ x1 < 2147483648) ∧
            (-2147483648 ≤ y1 ∧ y1 < 2147483648) ∧
            (-2147483648 ≤ x + sx ∧ x + sx < 2147483648) ∧
            (-2147483648 ≤ (if 2 * err < D then y + sy else y) ∧
              (if 2 * err < D then y + sy else y) < 2147483648)) ∨
          DrawLine.noOverflow x1 y1 D E sx sy f
            (DrawLine.next D E sx sy x y err).1 (DrawLine.next D E sx sy x y err).2.1
            (DrawLine.next D E sx sy x y err).2.2 = true) := by
      rcases hok with ⟨h3, hx1, hy1, hxr, hyr⟩ | hov
      · have hx' : -2147483648 ≤ x + sx ∧ x + sx < 2147483648 := by
          push_cast at hx
          rcases hsx with rfl | rfl <;> omega
        have hy' : 2 * err < D → -2147483648 ≤ y + sy ∧ y + sy < 2147483648 := by
          intro hc
          have := hmpos hc
          rcases hsy with rfl | rfl <;> omega
        refine ⟨DrawLine.next_eq D E sx sy x y err (by omega) (by omega)
          (fun _ => ⟨by omega, hx'⟩) (fun hc => ⟨by rw [if_pos hc1]; omega, hy' hc⟩),
          Or.inl ⟨h3, hx1, hy1, hx', ?_⟩⟩
        by_cases hc : 2 * err < D
        · rw [if_pos hc]
          exact hy' hc
        · rw [if_neg hc]
          exact hyr
      · have h := DrawLine.noOverflow_succ x1 y1 D E sx sy f x y err hne hov
        exact ⟨h.1, Or.inr h.2⟩
    obtain ⟨hnext, hok2⟩ := hboth
    rw [hnext] at hok2
    simp only at hok2
    rw [if_pos hc1, if_pos hc1] at hnext hok2
    unfold DrawLine.visited
    rw [if_neg hne, hnext]
    simp only
    have hxn : x1 = (x + sx) + sx * (n : Int) := by rw [hx]; push_cast; ring
    by_cases hc2 : 2 * err < D
    · rw [if_pos hc2, if_pos hc2]
      simp only [if_pos hc2] at hok2
      have hB : D * (m - 1) = D * m - D := by ring
      have hrec := ih f (x + sx) (y + sy) (err - E + D) (m - 1) (by omega) hxn
        (by rw [hy]; ring) (by have := hmpos hc2; omega) (by rw [hB]; omega) (by omega)
        (by omega) (by intro h; have := hdiag h; omega) hok2
      obtain ⟨r1, r2, r3, r4⟩ := hrec
      refine ⟨by rw [List.length_cons, r1], ?_, ?_, ?_⟩
      · cases hv : DrawLine.visited x1 y1 D E sx sy f (x + sx) (y + sy) (err - E + D) with
        | nil => rw [hv] at r1; simp at r1
        | cons a l => rw [List.getLast?_cons_cons, ← hv, r2]
      · rw [List.map_cons, r3, range_succ_map_affine]
      · intro p hp
        rcases List.mem_cons.1 hp with rfl | hp2
        · exact ⟨m, hm, le_refl m, by simp only; rw [hy]; ring⟩
        · obtain ⟨m2, a1, a2, a3⟩ := r4 p hp2
          exact ⟨m2, a1, by omega, a3⟩
    · rw [if_neg hc2, if_neg hc2]
      simp only [if_neg hc2] at hok2
      have hrec := ih f (x + sx) y (err - E) m (by omega) hxn hy hm (by omega) (by omega)
        (by omega) (by intro h; have := hdiag h; omega) hok2
      obtain ⟨r1, r2, r3, r4⟩ := hrec
      refine ⟨by rw [List.length_cons, r1], ?_, ?_, ?_⟩
      · cases hv : DrawLine.visited x1 y1 D E sx sy f (x + sx) y (err - E) with
        | nil => rw [hv] at r1; simp at r1
        | cons a l => rw [List.getLast?_cons_cons, ← hv, r2]
      · rw [List.map_cons, r3, range_succ_map_affine]
      · intro p hp
        rcases List.mem_cons.1 hp with rfl | hp2
        · exact ⟨m, hm, le_refl m, by simp only; rw [hy]; ring⟩
        · exact r4 p hp2

/-- The loop of `DrawLine` on a line whose major axis is `y` (`dx <= dy`, `dy >= 1`), from
a state with `m` steps in `y` and `n` steps in `x` left, when no operation overflows
(because `3 * dy` is below `2^31` and the coordinates are `INT32` values, or because the
run is without overflow): the loop makes `m + 1` iterations, one for each value of `y`,
the last at `(x1, y1)`, and `x` stays between the current value and `x1`. -/
theorem DrawLine.visited_ymajor (x1 y1 D E sx sy : Int) (hsx : sx = 1 ∨ sx = -1)
    (hsy : sy = 1 ∨ sy = -1) (hD : 0 ≤ D) (hE : 1 ≤ E) (hDE : D ≤ E)
    (m : Nat) : ∀ (fuel : Nat) (x y err n : Int),
    m + 1 ≤ fuel → x1 = x + sx * n → y1 = y + sy * (m : Int) → 0 ≤ n →
    err = D - E + E * n - D * (m : Int) →
    2 * D - 3 * E < 2 * err → 2 * err ≤ 2 * D - E → (D = E → err = 0) →
    ((3 * E < 2147483648 ∧ (-2147483648 ≤ x1 ∧ x1 < 2147483648) ∧
        (-2147483648 ≤ y1 ∧ y1 < 2147483648) ∧ (-2147483648 ≤ x ∧ x < 2147483648) ∧
        (-2147483648 ≤ y ∧ y < 2147483648)) ∨
      DrawLine.noOverflow x1 y1 D E sx sy fuel x y err = true) →
    (DrawLine.visited x1 y1 D E sx sy fuel x y err).length = m + 1 ∧
    (DrawLine.visited x1 y1 D E sx sy fuel x y err).getLast? = some (x1, y1) ∧
    (DrawLine.visited x1 y1 D E sx sy fuel x y err).map Prod.snd =
      (List.range (m + 1)).map (fun k : Nat => y + sy * (k : Int)) ∧
    ∀ p ∈ DrawLine.visited x1 y1 D E sx sy fuel x y err,
      ∃ n2 : Int, 0 ≤ n2 ∧ n2 ≤ n ∧ p.1 = x1 - sx * n2 := by
  induction m with
  | zero =>
    intro fuel x y err n hf hx hy hn herr hlo hhi hdiag hok
    obtain ⟨f, rfl⟩ : ∃ f, fuel = f + 1 := ⟨fuel - 1, by omega⟩
    have hye : y = y1 := by rw [hy]; simp
    have hn0 : n = 0 := by
      by_contra hne
      have hn1 : 1 ≤ n := by omega
      have hp : E * 1 ≤ E * n := Int.mul_le_mul_of_nonneg_left hn1 (by omega)
      simp only [Nat.cast_zero, mul_zero, sub_zero, mul_one] at herr hp
      omega
    have hxe : x = x1 := by rw [hx, hn0]; simp
    unfold DrawLine.visited
    rw [if_pos ⟨hxe, hye⟩]
    refine ⟨rfl, by simp [hxe, hye], by simp [List.range_succ], ?_⟩
    intro p hp
    rw [List.mem_singleton] at hp
    exact ⟨0, le_refl 0, hn, by rw [hp]; simp [hxe]⟩
  | succ m ih =>
    intro fuel x y err n hf hx hy hn herr hlo hhi hdiag hok
    obtain ⟨f, rfl⟩ : ∃ f, fuel = f + 1 := ⟨fuel - 1, by omega⟩
    have hne : ¬ (x = x1 ∧ y = y1) := by
      rintro ⟨-, hye⟩
      push_cast at hy
      rcases hsy with rfl | rfl <;> omega
    have hDm : D * 1 ≤ D * ((m : Int) + 1) := Int.mul_le_mul_of_nonneg_left (by omega) hD
    have hA : D * (((m + 1 : Nat) : Int)) = D * (m : Int) + D := by push_cast; ring
    have hc2 : 2 * err < D := by
      rcases eq_or_lt_of_le hDE with h | h
      · have := hdiag h
        omega
      · omega
    have hnpos : 2 * err > -E → 1 ≤ n := by
      intro hc
      by_contra hcon
      have hn0 : n = 0 := by omega
      rw [hn0] at herr
      push_cast at herr
      simp only [mul_zero, add_zero, mul_one] at herr hDm
      omega
    have hboth : DrawLine.next D E sx sy x y err =
          (if 2 * err > -E then x + sx else x, if 2 * err < D then y + sy else y,
            if 2 * err < D then (if 2 * err > -E then err - E else err) + D
            else (if 2 * err > -E then err - E else err)) ∧
        ((3 * E < 2147483648 ∧ (-2147483648 ≤ x1 ∧ x1 < 2147483648) ∧
            (-2147483648 ≤ y1 ∧ y1 < 2147483648) ∧
            (-2147483648 ≤ (if 2 * err > -E then x + sx else x) ∧
              (if 2 * err > -E then x + sx else x) < 2147483648) ∧
            (-2147483648 ≤ y + sy ∧ y + sy < 2147483648)) ∨
          DrawLine.noOverflow x1 y1 D E sx sy f
            (DrawLine.next D E sx sy x y err).1 (DrawLine.next D E sx sy x y err).2.1
            (DrawLine.next D E sx sy x y err).2.2 = true) := by
      rcases hok with ⟨h3, hx1, hy1, hxr, hyr⟩ | hov
      · have hy' : -2147483648 ≤ y + sy ∧ y + sy < 2147483648 := by
          push_cast at hy
          rcases hsy with rfl | rfl <;> omega
        have hx' : 2 * err > -E → -2147483648 ≤ x + sx ∧ x + sx < 2147483648 := by
          intro hc
          have := hnpos hc
          rcases hsx with rfl | rfl <;> omega
        refine ⟨DrawLine.next_eq D E sx sy x y err (by omega) (by omega)
          (fun hc => ⟨by omega, hx' hc⟩) (fun _ => ⟨by split_ifs <;> omega, hy'⟩),
          Or.inl ⟨h3, hx1, hy1, ?_, hy'⟩⟩
        by_cases hc : 2 * err > -E
        · rw [if_pos hc]
          exact hx' hc
        · rw [if_neg hc]
          exact hxr
      · have h := DrawLine.noOverflow_succ x1 y1 D E sx sy f x y err hne hov
        exact ⟨h.1, Or.inr h.2⟩
    obtain ⟨hnext, hok2⟩ := hboth
    rw [hnext] at hok2
    simp only at hok2
    rw [if_pos hc2, if_pos hc2] at hnext hok2
    unfold DrawLine.visited
    rw [if_neg hne, hnext]
    simp only
    have hyn : y1 = (y + sy) + sy * (m : Int) := by rw [hy]; push_cast; ring
    by_cases hc1 : 2 * err > -E
    · rw [if_pos hc1, if_pos hc1]
      simp only [if_pos hc1] at hok2
      have hB : E * (n - 1) = E * n - E := by ring
      have hrec := ih f (x + sx) (y + sy) (err - E + D) (n - 1) (by omega)
        (by rw [hx]; ring) hyn (by have := hnpos hc1; omega) (by rw [hB]; omega) (by omega)
        (by omega) (by intro h; have := hdiag h; omega) hok2
      obtain ⟨r1, r2, r3, r4⟩ := hrec
      refine ⟨by rw [List.length_cons, r1], ?_, ?_, ?_⟩
      · cases hv : DrawLine.visited x1 y1 D E sx sy f (x + sx) (y + sy) (err - E + D) with
        | nil => rw [hv] at r1; simp at r1
        | cons a l => rw [List.getLast?_cons_cons, ← hv, r2]
      · rw [List.map_cons, r3, range_succ_map_affine]
      · intro p hp
        rcases List.mem_cons.1 hp with rfl | hp2
        · exact ⟨n, hn, le_refl n, by simp only; rw [hx]; ring⟩
        · obtain ⟨n2, a1, a2, a3⟩ := r4 p hp2
          exact ⟨n2, a1, by omega, a3⟩
    · rw [if_neg hc1, if_neg hc1]
      simp only [if_neg hc1] at hok2
      have hrec := ih f x (y + sy) (err + D) n (by omega) hx hyn hn (by omega) (by omega)
        (by omega) (by intro h; have := hdiag h; omega) hok2
      obtain ⟨r1, r2, r3, r4⟩ := hrec
      refine ⟨by rw [List.length_cons, r1], ?_, ?_, ?_⟩
      · cases hv : DrawLine.visited x1 y1 D E sx sy f x (y + sy) (err + D) with
        | nil => rw [hv] at r1; simp at r1
        | cons a l => rw [List.getLast?_cons_cons, ← hv, r2]
      · rw [List.map_cons, r3, range_succ_map_affine]
      · intro p hp
        rcases List.mem_cons.1 hp with rfl | hp2
        · exact ⟨n, hn, le_refl n, by simp only; rw [hx]; ring⟩
        · exact r4 p hp2

theorem DrawLine.absDiff_eq (a b : Int) (h : (b - a).natAbs < 2147483648) :
    DrawLine.absDiff a b = ((b - a).natAbs : Int) := by
  unfold DrawLine.absDiff
  rw [wrapI32_of_range (b - a) (by omega) (by omega)]
  split
  · omega
  · rw [wrapI32_of_range (-(b - a)) (by omega) (by omega)]
    omega

theorem DrawLine.absDiff_eq_of_ok (a b : Int) (h : DrawLine.absDiffOk a b = true) :
    DrawLine.absDiff a b = ((b - a).natAbs : Int) := by
  unfold DrawLine.absDiffOk DrawLine.inRange at h
  simp only [Bool.and_eq_true, decide_eq_true_eq] at h
  apply DrawLine.absDiff_eq
  by_cases hc : b - a ≥ 0
  · omega
  · rw [if_neg hc] at h
    simp only [decide_eq_true_eq] at h
    omega

theorem DrawLine.sign_cases (a b : Int) : DrawLine.sign a b = 1 ∨ DrawLine.sign a b = -1 := by
  unfold DrawLine.sign
  split
  · exact Or.inl rfl
  · exact Or.inr rfl

theorem DrawLine.sign_mul (a b : Int) :
    b = a + DrawLine.sign a b * ((b - a).natAbs : Int) := by
  unfold DrawLine.sign
  split <;> omega

/-- The iterations of the loop of `DrawLine` when no `INT32` operation overflows (because
the end points are `INT32` values with `3 * |x1 - x0|` and `3 * |y1 - y0|` below `2^31`,
or because the run is without overflow): with `D = |x1 - x0|` and `E = |y1 - y0|` there
are `max D E + 1` of them, the last at `(x1, y1)`, the major-axis coordinate advances by
one step in each, and every position lies between the end points. -/
theorem DrawLine.visited_line (x0 y0 x1 y1 : Int) (fuel : Nat)
    (hok : ((-2147483648 ≤ x0 ∧ x0 < 2147483648) ∧ (-2147483648 ≤ y0 ∧ y0 < 2147483648) ∧
        (-2147483648 ≤ x1 ∧ x1 < 2147483648) ∧ (-2147483648 ≤ y1 ∧ y1 < 2147483648) ∧
        3 * (x1 - x0).natAbs < 2147483648 ∧ 3 * (y1 - y0).natAbs < 2147483648) ∨
      DrawLine.arithOk fuel x0 y0 x1 y1 = true)
    (hfuel : max (x1 - x0).natAbs (y1 - y0).natAbs + 1 ≤ fuel) :
    (DrawLine.visited x1 y1 (DrawLine.absDiff x0 x1) (DrawLine.absDiff y0 y1)
        (DrawLine.sign x0 x1) (DrawLine.sign y0 y1) fuel x0 y0
        (wrapI32 (DrawLine.absDiff x0 x1 - DrawLine.absDiff y0 y1))).length =
      max (x1 - x0).natAbs (y1 - y0).natAbs + 1 ∧
    (DrawLine.visited x1 y1 (DrawLine.absDiff x0 x1) (DrawLine.absDiff y0 y1)
        (DrawLine.sign x0 x1) (DrawLine.sign y0 y1) fuel x0 y0
        (wrapI32 (DrawLine.absDiff x0 x1 - DrawLine.absDiff y0 y1))).getLast? =
      some (x1, y1) ∧
    ((y1 - y0).natAbs ≤ (x1 - x0).natAbs →
      (DrawLine.visited x1 y1 (DrawLine.absDiff x0 x1) (DrawLine.absDiff y0 y1)
        (DrawLine.sign x0 x1) (DrawLine.sign y0 y1) fuel x0 y0
        (wrapI32 (DrawLine.absDiff x0 x1 - DrawLine.absDiff y0 y1))).map Prod.fst =
      (List.range ((x1 - x0).natAbs + 1)).map
        (fun k : Nat => x0 + DrawLine.sign x0 x1 * (k : Int))) ∧
    ((x1 - x0).natAbs ≤ (y1 - y0).natAbs →
      (DrawLine.visited x1 y1 (DrawLine.absDiff x0 x1) (DrawLine.absDiff y0 y1)
        (DrawLine.sign x0 x1) (DrawLine.sign y0 y1) fuel x0 y0
        (wrapI32 (DrawLine.absDiff x0 x1 - DrawLine.absDiff y0 y1))).map Prod.snd =
      (List.range ((y1 - y0).natAbs + 1)).map
        (fun k : Nat => y0 + DrawLine.sign y0 y1 * (k : Int))) ∧
    ∀ p ∈ DrawLine.visited x1 y1 (DrawLine.absDiff x0 x1) (DrawLine.absDiff y0 y1)
        (DrawLine.sign x0 x1) (DrawLine.sign y0 y1) fuel x0 y0
        (wrapI32 (DrawLine.absDiff x0 x1 - DrawLine.absDiff y0 y1)),
      ((x0 ≤ p.1 ∧ p.1 ≤ x1) ∨ (x1 ≤ p.1 ∧ p.1 ≤ x0)) ∧
      ((y0 ≤ p.2 ∧ p.2 ≤ y1) ∨ (y1 ≤ p.2 ∧ p.2 ≤ y0)) := by
  have hfacts : DrawLine.absDiff x0 x1 = ((x1 - x0).natAbs : Int) ∧
      DrawLine.absDiff y0 y1 = ((y1 - y0).natAbs : Int) ∧
      wrapI32 (DrawLine.absDiff x0 x1 - DrawLine.absDiff y0 y1) =
        DrawLine.absDiff x0 x1 - DrawLine.absDiff y0 y1 ∧
      (((-2147483648 ≤ x0 ∧ x0 < 2147483648) ∧ (-2147483648 ≤ y0 ∧ y0 < 2147483648) ∧
          (-2147483648 ≤ x1 ∧ x1 < 2147483648) ∧ (-2147483648 ≤ y1 ∧ y1 < 2147483648) ∧
          3 * (x1 - x0).natAbs < 2147483648 ∧ 3 * (y1 - y0).natAbs < 2147483648) ∨
        DrawLine.noOverflow x1 y1 (DrawLine.absDiff x0 x1) (DrawLine.absDiff y0 y1)
          (DrawLine.sign x0 x1) (DrawLine.sign y0 y1) fuel x0 y0
          (wrapI32 (DrawLine.absDiff x0 x1 - DrawLine.absDiff y0 y1)) = true) := by
    rcases hok with hb | hov
    · have e1 := DrawLine.absDiff_eq x0 x1 (by omega)
      have e2 := DrawLine.absDiff_eq y0 y1 (by omega)
      refine ⟨e1, e2, ?_, Or.inl hb⟩
      rw [e1, e2]
      exact wrapI32_of_range _ (by omega) (by omega)
    · unfold DrawLine.arithOk at hov
      simp only [Bool.and_eq_true] at hov
      obtain ⟨⟨⟨o1, o2⟩, o3⟩, o4⟩ := hov
      unfold DrawLine.inRange at o3
      have o5 := of_decide_eq_true o3
      exact ⟨DrawLine.absDiff_eq_of_ok x0 x1 o1, DrawLine.absDiff_eq_of_ok y0 y1 o2,
        wrapI32_of_range _ o5.1 o5.2, Or.inr o4⟩
  obtain ⟨hD, hE, hW, hst⟩ := hfacts
  rw [hW] at hst ⊢
  rw [hD, hE] at hst ⊢
  have hsx := DrawLine.sign_cases x0 x1
  have hsy := DrawLine.sign_cases y0 y1
  have hmx := DrawLine.sign_mul x0 x1
  have hmy := DrawLine.sign_mul y0 y1
  generalize DrawLine.sign x0 x1 = sx at hsx hmx hst ⊢
  generalize DrawLine.sign y0 y1 = sy at hsy hmy hst ⊢
  generalize hDn : (x1 - x0).natAbs = Dn at hfuel hmx hst ⊢
  generalize hEn : (y1 - y0).natAbs = En at hfuel hmy hst ⊢
  have hxb : ∀ k : Int, 0 ≤ k → k ≤ (Dn : Int) →
      (x0 ≤ x1 - sx * k ∧ x1 - sx * k ≤ x1) ∨ (x1 ≤ x1 - sx * k ∧ x1 - sx * k ≤ x0) := by
    intro k hk1 hk2
    rcases hsx with rfl | rfl <;> omega
  have hyb : ∀ k : Int, 0 ≤ k → k ≤ (En : Int) →
      (y0 ≤ y1 - sy * k ∧ y1 - sy * k ≤ y1) ∨ (y1 ≤ y1 - sy * k ∧ y1 - sy * k ≤ y0) := by
    intro k hk1 hk2
    rcases hsy with rfl | rfl <;> omega
  have hxf : ∀ (l : List (Int × Int)) (N : Nat), N ≤ Dn →
      l.map Prod.fst = (List.range (N + 1)).map (fun k : Nat => x0 + sx * (k : Int)) →
      ∀ p ∈ l, (x0 ≤ p.1 ∧ p.1 ≤ x1) ∨ (x1 ≤ p.1 ∧ p.1 ≤ x0) := by
    intro l N hN hl p hp
    have hm : p.1 ∈ l.map Prod.fst := List.mem_map_of_mem _ hp
    rw [hl, List.mem_map] at hm
    obtain ⟨k, hk, hkp⟩ := hm
    rw [List.mem_range] at hk
    rw [← hkp]
    rcases hsx with rfl | rfl <;> omega
  have hyf : ∀ (l : List (Int × Int)) (N : Nat), N ≤ En →
      l.map Prod.snd = (List.range (N + 1)).map (fun k : Nat => y0 + sy * (k : Int)) →
      ∀ p ∈ l, (y0 ≤ p.2 ∧ p.2 ≤ y1) ∨ (y1 ≤ p.2 ∧ p.2 ≤ y0) := by
    intro l N hN hl p hp
    have hm : p.2 ∈ l.map Prod.snd := List.mem_map_of_mem _ hp
    rw [hl, List.mem_map] at hm
    obtain ⟨k, hk, hkp⟩ := hm
    rw [List.mem_range] at hk
    rw [← hkp]
    rcases hsy with rfl | rfl <;> omega
  have X : En ≤ Dn → 1 ≤ Dn → _ := fun h1 h2 =>
    DrawLine.visited_xmajor x1 y1 (Dn : Int) (En : Int) sx sy hsx hsy (by omega) (by omega)
      (by omega) Dn fuel x0 y0 ((Dn : Int) - (En : Int)) (En : Int)
      (by omega) hmx hmy (by omega) (by ring) (by omega) (by omega) (by intro h; omega)
      (hst.imp (fun hb => ⟨by omega, hb.2.2.1, hb.2.2.2.1, hb.1, hb.2.1⟩) id)
  have Y : Dn ≤ En → 1 ≤ En → _ := fun h1 h2 =>
    DrawLine.visited_ymajor x1 y1 (Dn : Int) (En : Int) sx sy hsx hsy (by omega) (by omega)
      (by omega) En fuel x0 y0 ((Dn : Int) - (En : Int)) (Dn : Int)
      (by omega) hmx hmy (by omega) (by ring) (by omega) (by omega) (by intro h; omega)
      (hst.imp (fun hb => ⟨by omega, hb.2.2.1, hb.2.2.2.1, hb.1, hb.2.1⟩) id)
  rcases Nat.eq_zero_or_pos (max Dn En) with hz | hpos
  · have hD0 : Dn = 0 := by omega
    have hE0 : En = 0 := by omega
    subst hD0
    subst hE0
    obtain ⟨f, rfl⟩ : ∃ f, fuel = f + 1 := ⟨fuel - 1, by omega⟩
    have hxe : x0 = x1 := by omega
    have hye : y0 = y1 := by omega
    unfold DrawLine.visited
    rw [if_pos ⟨hxe, hye⟩]
    refine ⟨rfl, by simp [hxe, hye], fun _ => by simp [List.range_succ],
      fun _ => by simp [List.range_succ], ?_⟩
    intro p hp
    rw [List.mem_singleton] at hp
    rw [hp]
    exact ⟨Or.inl ⟨le_refl _, by omega⟩, Or.inl ⟨le_refl _, by omega⟩⟩
  · rcases Nat.le_total En Dn with hle | hle
    · obtain ⟨r1, r2, r3, r4⟩ := X hle (by omega)
      refine ⟨by rw [r1]; omega, r2, fun _ => r3, ?_, ?_⟩
      · intro hge
        exact (Y hge (by omega)).2.2.1
      · intro p hp
        refine ⟨hxf _ Dn (le_refl _) r3 p hp, ?_⟩
        obtain ⟨m2, a1, a2, a3⟩ := r4 p hp
        rw [a3]
        exact hyb m2 a1 a2
    · obtain ⟨r1, r2, r3, r4⟩ := Y hle (by omega)
      refine ⟨by rw [r1]; omega, r2, ?_, fun _ => r3, ?_⟩
      · intro hge
        exact (X hge (by omega)).2.2.1
      · intro p hp
        refine ⟨?_, hyf _ En (le_refl _) r3 p hp⟩
        obtain ⟨n2, a1, a2, a3⟩ := r4 p hp
        rw [a3]
        exact hxb n2 a1 a2

theorem DrawLine.foldl_plot_eq_filter (width height : Nat) (color : Nat)
    (pts : List (Int × Int)) : ∀ buffer : Buffer,
    pts.foldl (DrawLine.plot width height color) buffer =
      (pts.filter (DrawLine.inBounds width height)).foldl
        (fun (b : Buffer) (p : Int × Int) => b.write (cellIndex width p.1 p.2) color) buffer := by
  induction pts with
  | nil => intro buffer; rfl
  | cons p pts ih =>
    intro buffer
    rw [List.foldl_cons, ih]
    by_cases hb : 0 ≤ p.1 ∧ p.1 < wrapI32 width ∧ 0 ≤ p.2 ∧ p.2 < wrapI32 height
    · have hb2 : DrawLine.inBounds width height p = true := decide_eq_true hb
      rw [List.filter_cons_of_pos hb2, List.foldl_cons]
      unfold DrawLine.plot
      rw [if_pos hb]
    · have hb2 : ¬ DrawLine.inBounds width height p = true := fun h => hb (of_decide_eq_true h)
      rw [List.filter_cons_of_neg hb2]
      unfold DrawLine.plot
      rw [if_neg hb]

theorem DrawLine.inBounds_spec (width height : Nat) (p : Int × Int)
    (h : DrawLine.inBounds width height p = true) :
    0 ≤ p.1 ∧ p.1 < (width : Int) ∧ 0 ≤ p.2 ∧ p.2 < (height : Int) ∧
      cellIndex width p.1 p.2 < width * height := by
  have hb := of_decide_eq_true h
  have hw := wrapI32_le_self width
  have hh := wrapI32_le_self height
  have hx : p.1 < (width : Int) := by omega
  have hy : p.2 < (height : Int) := by omega
  have hc := cellIndex_lt width height p.1 p.2 hb.1 hx hb.2.2.1 hy
  exact ⟨hb.1, hx, hb.2.2.1, hy, by omega⟩

theorem DrawLine.rejected_of_beyond (width height : Nat) (x0 y0 x1 y1 : Int)
    (h : (x0 < 0 ∧ x1 < 0) ∨ (x0 ≥ (width : Int) ∧ x1 ≥ (width : Int)) ∨
      (y0 < 0 ∧ y1 < 0) ∨ (y0 ≥ (height : Int) ∧ y1 ≥ (height : Int))) :
    DrawLine.rejected width height x0 y0 x1 y1 = true := by
  have hw := wrapI32_le_self width
  have hh := wrapI32_le_self height
  unfold DrawLine.rejected
  simp only [Bool.or_eq_true, decide_eq_true_eq]
  rcases h with h | h | h | h
  · exact Or.inl (Or.inl (Or.inl h))
  · exact Or.inl (Or.inr ⟨by omega, by omega⟩)
  · exact Or.inl (Or.inl (Or.inr h))
  · exact Or.inr ⟨by omega, by omega⟩

/-- C19: `DrawLine` writes only in-bounds cells. After any number of loop iterations, for
all end points, the buffer is the original one with the colour assigned at the positions
that passed the guard, every such position has `0 <= x < w` and `0 <= y < h` and its index
is below `w * h`, so a cell that changed is one of them; and when both end points are
beyond the same bound of one axis the function returns the buffer unchanged. -/
theorem DrawLine_writes_in_bounds (fuel : Nat) (buffer : Buffer) (w h : Nat)
    (x0 y0 x1 y1 : Int) (color : Nat) :
    (DrawLine.run fuel buffer w h x0 y0 x1 y1 color).1 =
      ((DrawLine.points fuel w h x0 y0 x1 y1).filter (DrawLine.inBounds w h)).foldl
        (fun (b : Buffer) (p : Int × Int) => b.write (cellIndex w p.1 p.2) color) buffer ∧
    (∀ p ∈ (DrawLine.points fuel w h x0 y0 x1 y1).filter (DrawLine.inBounds w h),
      0 ≤ p.1 ∧ p.1 < (w : Int) ∧ 0 ≤ p.2 ∧ p.2 < (h : Int) ∧ cellIndex w p.1 p.2 < w * h) ∧
    (∀ i, (DrawLine.run fuel buffer w h x0 y0 x1 y1 color).1 i ≠ buffer i →
      ∃ x y : Int, 0 ≤ x ∧ x < (w : Int) ∧ 0 ≤ y ∧ y < (h : Int) ∧ i = cellIndex w x y ∧
        i < w * h) ∧
    ((x0 < 0 ∧ x1 < 0) ∨ (x0 ≥ (w : Int) ∧ x1 ≥ (w : Int)) ∨
        (y0 < 0 ∧ y1 < 0) ∨ (y0 ≥ (h : Int) ∧ y1 ≥ (h : Int)) →
      DrawLine fuel buffer w h x0 y0 x1 y1 color = some buffer) := by
  refine ⟨?_, ?_, ?_, ?_⟩
  · rw [DrawLine.run_eq_points, DrawLine.foldl_plot_eq_filter]
  · intro p hp
    exact DrawLine.inBounds_spec w h p (List.mem_filter.1 hp).2
  · intro i hi
    by_contra hcon
    apply hi
    rw [DrawLine.run_eq_points]
    apply DrawLine.foldl_plot_of_not_mem
    intro p _ hb hpi
    have hs := DrawLine.inBounds_spec w h p hb
    exact hcon ⟨p.1, p.2, hs.1, hs.2.1, hs.2.2.1, hs.2.2.2.1, hpi.symm, by rw [← hpi]; exact hs.2.2.2.2⟩
  · intro hb
    have hr := DrawLine.rejected_of_beyond w h x0 y0 x1 y1 hb
    unfold DrawLine DrawLine.run
    rw [hr]
    simp

theorem DrawLine.visited_head (x1 y1 dx dy sx sy : Int) (fuel : Nat) (x0 y0 err : Int) :
    (x0, y0) ∈ DrawLine.visited x1 y1 dx dy sx sy (fuel + 1) x0 y0 err := by
  unfold DrawLine.visited
  split
  · exact List.mem_singleton.2 rfl
  · exact List.mem_cons_self _ _

theorem DrawLine.affine_nodup (x sx : Int) (hsx : sx = 1 ∨ sx = -1) (n : Nat) :
    ((List.range n).map (fun k : Nat => x + sx * (k : Int))).Nodup := by
  apply List.Nodup.map _ (List.nodup_range n)
  intro a b hab
  simp only at hab
  rcases hsx with rfl | rfl <;> omega

/-- C18: the loop of `DrawLine` terminates. For all integer end points, in or out of
bounds, when no `INT32` operation of the call overflows, the loop started by `DrawLine`
leaves through its `break` within any allowance of at least `max(|x1-x0|,|y1-y0|) + 1`
iterations: it makes exactly that many iterations, the last of them at `(x1, y1)`, and the
call returns. -/
theorem DrawLine_loop_terminates (x0 y0 x1 y1 : Int) (fuel : Nat)
    (hov : DrawLine.arithOk fuel x0 y0 x1 y1 = true)
    (hfuel : max (x1 - x0).natAbs (y1 - y0).natAbs + 1 ≤ fuel)
    (buffer : Buffer) (w h : Nat) (color : Nat) :
    (DrawLine.loop w h x1 y1 (DrawLine.absDiff x0 x1) (DrawLine.absDiff y0 y1)
        (DrawLine.sign x0 x1) (DrawLine.sign y0 y1) color fuel buffer x0 y0
        (wrapI32 (DrawLine.absDiff x0 x1 - DrawLine.absDiff y0 y1))).2 = true ∧
    (DrawLine.visited x1 y1 (DrawLine.absDiff x0 x1) (DrawLine.absDiff y0 y1)
        (DrawLine.sign x0 x1) (DrawLine.sign y0 y1) fuel x0 y0
        (wrapI32 (DrawLine.absDiff x0 x1 - DrawLine.absDiff y0 y1))).length =
      max (x1 - x0).natAbs (y1 - y0).natAbs + 1 ∧
    (DrawLine.visited x1 y1 (DrawLine.absDiff x0 x1) (DrawLine.absDiff y0 y1)
        (DrawLine.sign x0 x1) (DrawLine.sign y0 y1) fuel x0 y0
        (wrapI32 (DrawLine.absDiff x0 x1 - DrawLine.absDiff y0 y1))).getLast? =
      some (x1, y1) ∧
    (DrawLine fuel buffer w h x0 y0 x1 y1 color).isSome = true ∧
    (DrawLine.points fuel w h x0 y0 x1 y1).length ≤
      max (x1 - x0).natAbs (y1 - y0).natAbs + 1 := by
  obtain ⟨r1, r2, -, -, -⟩ := DrawLine.visited_line x0 y0 x1 y1 fuel (Or.inr hov) hfuel
  have hl := (DrawLine.loop_eq_visited w h x1 y1 (DrawLine.absDiff x0 x1)
    (DrawLine.absDiff y0 y1) (DrawLine.sign x0 x1) (DrawLine.sign y0 y1) color fuel buffer x0 y0
    (wrapI32 (DrawLine.absDiff x0 x1 - DrawLine.absDiff y0 y1))).2.2 r2
  refine ⟨hl, r1, r2, ?_, ?_⟩
  · have hrun : (DrawLine.run fuel buffer w h x0 y0 x1 y1 color).2 = true := by
      unfold DrawLine.run
      split
      · rfl
      · exact hl
    unfold DrawLine
    rw [if_pos hrun]
    rfl
  · unfold DrawLine.points
    split
    · simp
    · rw [r1]

/-- C18, witness: the line from `(-2, 5)` to `(3, 7)`, partly outside a 4 by 4 buffer, with
an allowance of six iterations. -/
theorem DrawLine_loop_terminates_witness :
    (DrawLine 6 (fun _ => 0) 4 4 (-2) 5 3 7 9).isSome = true ∧
    (DrawLine.points 6 4 4 (-2) 5 3 7).length ≤ 6 :=
  have h := DrawLine_loop_terminates (-2) 5 3 7 6 (by decide) (by decide) (fun _ => 0) 4 4 9
  ⟨h.2.2.2.1, h.2.2.2.2⟩


theorem DrawLine.rejected_of_inside (w h : Nat) (x0 y0 x1 y1 : Int) (hw : w < 2147483648)
    (hh : h < 2147483648) (hx0 : 0 ≤ x0 ∧ x0 < (w : Int)) (hy0 : 0 ≤ y0 ∧ y0 < (h : Int)) :
    wrapI32 (w : Int) = (w : Int) ∧ wrapI32 (h : Int) = (h : Int) ∧
      DrawLine.rejected w h x0 y0 x1 y1 = false := by
  have hww : wrapI32 (w : Int) = (w : Int) := wrapI32_of_range _ (by omega) (by omega)
  have hwh2 : wrapI32 (h : Int) = (h : Int) := wrapI32_of_range _ (by omega) (by omega)
  refine ⟨hww, hwh2, ?_⟩
  unfold DrawLine.rejected
  rw [hww, hwh2]
  simp only [Bool.or_eq_false_iff, decide_eq_false_iff_not]
  refine ⟨⟨⟨?_, ?_⟩, ?_⟩, ?_⟩ <;> omega

theorem DrawLine.between_inside (w : Nat) (a b v : Int) (ha : 0 ≤ a ∧ a < (w : Int))
    (hb : 0 ≤ b ∧ b < (w : Int)) (hv : (a ≤ v ∧ v ≤ b) ∨ (b ≤ v ∧ v ≤ a)) :
    0 ≤ v ∧ v < (w : Int) := by
  omega

theorem rowMajor_int_injective (w : Nat) (p q : Int × Int)
    (hp : 0 ≤ p.1 ∧ p.1 < (w : Int) ∧ 0 ≤ p.2) (hq : 0 ≤ q.1 ∧ q.1 < (w : Int) ∧ 0 ≤ q.2)
    (h : p.2.toNat * w + p.1.toNat = q.2.toNat * w + q.1.toNat) : p = q := by
  have hinj := rowMajor_injective w p.2.toNat p.1.toNat q.2.toNat q.1.toNat (by omega)
    (by omega) h
  apply Prod.ext <;> omega

/-- C17: a line between two end points inside the buffer. With `w, h < 2^31`,
`w * h <= 2^32` and differences of the end points small enough for the arithmetic not to
overflow (`3 * |x1 - x0|` and `3 * |y1 - y0|` below `2^31`), `DrawLine` returns; the
result holds the colour at both end points; the loop makes `max(|x1-x0|,|y1-y0|) + 1`
iterations, at positions inside the buffer whose cells are pairwise distinct; the result
is the colour at these cells and the original buffer at every other cell; and the
major-axis coordinates of the iterations are `x0, x0 + sx, ..., x1` (when
`|y1-y0| <= |x1-x0|`), respectively `y0, y0 + sy, ..., y1` (when `|x1-x0| <= |y1-y0|`), one
iteration for each value. -/
theorem DrawLine_line_cells (fuel : Nat) (buffer : Buffer) (w h : Nat) (x0 y0 x1 y1 : Int)
    (color : Nat) (hw : w < 2147483648) (hh : h < 2147483648) (hwh : w * h ≤ 4294967296)
    (hx0 : 0 ≤ x0 ∧ x0 < (w : Int)) (hy0 : 0 ≤ y0 ∧ y0 < (h : Int))
    (hx1 : 0 ≤ x1 ∧ x1 < (w : Int)) (hy1 : 0 ≤ y1 ∧ y1 < (h : Int))
    (hdx : 3 * (x1 - x0).natAbs < 2147483648) (hdy : 3 * (y1 - y0).natAbs < 2147483648)
    (hfuel : max (x1 - x0).natAbs (y1 - y0).natAbs + 1 ≤ fuel) :
    ∃ result : Buffer,
      DrawLine fuel buffer w h x0 y0 x1 y1 color = some result ∧
      result (cellIndex w x0 y0) = color ∧ result (cellIndex w x1 y1) = color ∧
      (DrawLine.points fuel w h x0 y0 x1 y1).length =
        max (x1 - x0).natAbs (y1 - y0).natAbs + 1 ∧
      (∀ p ∈ DrawLine.points fuel w h x0 y0 x1 y1,
        0 ≤ p.1 ∧ p.1 < (w : Int) ∧ 0 ≤ p.2 ∧ p.2 < (h : Int)) ∧
      ((DrawLine.points fuel w h x0 y0 x1 y1).map (fun p => cellIndex w p.1 p.2)).Nodup ∧
      (∀ i, result i =
        if i ∈ (DrawLine.points fuel w h x0 y0 x1 y1).map (fun p => cellIndex w p.1 p.2)
        then color else buffer i) ∧
      ((y1 - y0).natAbs ≤ (x1 - x0).natAbs →
        (DrawLine.points fuel w h x0 y0 x1 y1).map Prod.fst =
          (List.range ((x1 - x0).natAbs + 1)).map
            (fun k : Nat => x0 + DrawLine.sign x0 x1 * (k : Int))) ∧
      ((x1 - x0).natAbs ≤ (y1 - y0).natAbs →
        (DrawLine.points fuel w h x0 y0 x1 y1).map Prod.snd =
          (List.range ((y1 - y0).natAbs + 1)).map
            (fun k : Nat => y0 + DrawLine.sign y0 y1 * (k : Int))) := by
  obtain ⟨hww, hwh2, hrej⟩ := DrawLine.rejected_of_inside w h x0 y0 x1 y1 hw hh hx0 hy0
  have hf1 : 1 ≤ fuel := le_trans (Nat.succ_le_succ (Nat.zero_le _)) hfuel
  have i32 : ∀ (n : Nat) (v : Int), n < 2147483648 → 0 ≤ v ∧ v < (n : Int) →
      -2147483648 ≤ v ∧ v < 2147483648 := by
    intro n v hn hv
    clear hdx hdy hfuel
    omega
  obtain ⟨r1, r2, r3, r4, r5⟩ := DrawLine.visited_line x0 y0 x1 y1 fuel
    (Or.inl ⟨i32 w x0 hw hx0, i32 h y0 hh hy0, i32 w x1 hw hx1, i32 h y1 hh hy1, hdx, hdy⟩)
    hfuel
  have hpts : DrawLine.points fuel w h x0 y0 x1 y1 =
      DrawLine.visited x1 y1 (DrawLine.absDiff x0 x1) (DrawLine.absDiff y0 y1)
        (DrawLine.sign x0 x1) (DrawLine.sign y0 y1) fuel x0 y0
        (wrapI32 (DrawLine.absDiff x0 x1 - DrawLine.absDiff y0 y1)) := by
    unfold DrawLine.points
    rw [hrej]
    rfl
  rw [← hpts] at r1 r2 r3 r4 r5
  have hin : ∀ p ∈ DrawLine.points fuel w h x0 y0 x1 y1,
      0 ≤ p.1 ∧ p.1 < (w : Int) ∧ 0 ≤ p.2 ∧ p.2 < (h : Int) := by
    intro p hp
    have hb := r5 p hp
    have b1 := DrawLine.between_inside w x0 x1 p.1 hx0 hx1 hb.1
    have b2 := DrawLine.between_inside h y0 y1 p.2 hy0 hy1 hb.2
    exact ⟨b1.1, b1.2, b2.1, b2.2⟩
  have hinb : ∀ p ∈ DrawLine.points fuel w h x0 y0 x1 y1,
      DrawLine.inBounds w h p = true := by
    intro p hp
    have := hin p hp
    unfold DrawLine.inBounds
    rw [hww, hwh2]
    exact decide_eq_true this
  have hrun : (DrawLine.run fuel buffer w h x0 y0 x1 y1 color).2 = true := by
    unfold DrawLine.run
    rw [hrej]
    rw [hpts] at r2
    exact (DrawLine.loop_eq_visited w h x1 y1 (DrawLine.absDiff x0 x1)
      (DrawLine.absDiff y0 y1) (DrawLine.sign x0 x1) (DrawLine.sign y0 y1) color fuel buffer
      x0 y0 (wrapI32 (DrawLine.absDiff x0 x1 - DrawLine.absDiff y0 y1))).2.2 r2
  have hres : ∀ i, (DrawLine.run fuel buffer w h x0 y0 x1 y1 color).1 i =
      if i ∈ (DrawLine.points fuel w h x0 y0 x1 y1).map (fun p => cellIndex w p.1 p.2)
      then color else buffer i := by
    intro i
    rw [DrawLine.run_eq_points]
    by_cases hi : i ∈ (DrawLine.points fuel w h x0 y0 x1 y1).map
        (fun p => cellIndex w p.1 p.2)
    · rw [if_pos hi]
      obtain ⟨p, hp, hpi⟩ := List.mem_map.1 hi
      exact DrawLine.foldl_plot_of_mem w h color _ buffer i ⟨p, hp, hinb p hp, hpi⟩
    · rw [if_neg hi]
      apply DrawLine.foldl_plot_of_not_mem
      intro p hp _ hpi
      exact hi (List.mem_map.2 ⟨p, hp, hpi⟩)
  have hfirst : (x0, y0) ∈ DrawLine.points fuel w h x0 y0 x1 y1 := by
    obtain ⟨f, rfl⟩ : ∃ f, fuel = f + 1 := ⟨fuel - 1, (Nat.sub_add_cancel hf1).symm⟩
    rw [hpts]
    exact DrawLine.visited_head _ _ _ _ _ _ _ _ _ _
  have hlast : (x1, y1) ∈ DrawLine.points fuel w h x0 y0 x1 y1 :=
    List.mem_of_getLast?_eq_some r2
  have hnd : (DrawLine.points fuel w h x0 y0 x1 y1).Nodup := by
    rcases Nat.le_total (y1 - y0).natAbs (x1 - x0).natAbs with hle | hle
    · apply List.Nodup.of_map Prod.fst
      rw [r3 hle]
      exact DrawLine.affine_nodup _ _ (DrawLine.sign_cases x0 x1) _
    · apply List.Nodup.of_map Prod.snd
      rw [r4 hle]
      exact DrawLine.affine_nodup _ _ (DrawLine.sign_cases y0 y1) _
  have hcells : ((DrawLine.points fuel w h x0 y0 x1 y1).map
      (fun p => cellIndex w p.1 p.2)).Nodup := by
    apply List.Nodup.map_on _ hnd
    intro p hp q hq hpq
    have bp := hin p hp
    have bq := hin q hq
    simp only at hpq
    rw [cellIndex_eq w h hwh p.1 p.2 bp.1 bp.2.1 bp.2.2.1 bp.2.2.2,
      cellIndex_eq w h hwh q.1 q.2 bq.1 bq.2.1 bq.2.2.1 bq.2.2.2] at hpq
    exact rowMajor_int_injective w p q ⟨bp.1, bp.2.1, bp.2.2.1⟩ ⟨bq.1, bq.2.1, bq.2.2.1⟩ hpq
  refine ⟨(DrawLine.run fuel buffer w h x0 y0 x1 y1 color).1, ?_, ?_, ?_, r1, hin, hcells,
    hres, r3, r4⟩
  · unfold DrawLine
    rw [if_pos hrun]
  · rw [hres, if_pos (List.mem_map.2 ⟨(x0, y0), hfirst, rfl⟩)]
  · rw [hres, if_pos (List.mem_map.2 ⟨(x1, y1), hlast, rfl⟩)]


/-- C17, witness: the line from `(0, 0)` to `(3, 1)` in a 4 by 4 buffer of zeros. -/
theorem DrawLine_line_cells_witness :
    ∃ result : Buffer,
      DrawLine 4 (fun _ => 0) 4 4 0 0 3 1 7 = some result ∧
      result (cellIndex 4 0 0) = 7 ∧ result (cellIndex 4 3 1) = 7 ∧
      (DrawLine.points 4 4 4 0 0 3 1).length = 4 :=
  have h := DrawLine_line_cells 4 (fun _ => 0) 4 4 0 0 3 1 7 (by decide) (by decide)
    (by decide) (by decide) (by decide) (by decide) (by decide) (by decide) (by decide)
    (by decide)
  h.imp (fun _ hr => ⟨hr.1, hr.2.1, hr.2.2.1, hr.2.2.2.1⟩)

/-! ## Input pipeline: position, keyboard, unavailable devices -/

theorem positionEvents_append (l1 l2 : List InputEvent) :
    positionEvents (l1 ++ l2) = positionEvents l1 ++ positionEvents l2 := by
  unfold positionEvents
  exact List.filter_append _ _

theorem keyboardEvents_append (l1 l2 : List InputEvent) :
    keyboardEvents (l1 ++ l2) = keyboardEvents l1 ++ keyboardEvents l2 := by
  unfold keyboardEvents
  exact List.filter_append _ _

/-- The keyboard part emits keyboard events only. -/
theorem processKeyboard_channels (bd : ImGui_ImplUefi_Data) (keyRead : Option EFI_INPUT_KEY) :
    keyboardEvents (processKeyboard bd keyRead) = processKeyboard bd keyRead ∧
    positionEvents (processKeyboard bd keyRead) = [] ∧
    buttonEvents (processKeyboard bd keyRead) = [] := by
  unfold processKeyboard
  cases bd.TextInput <;> cases keyRead <;>
    simp only [keyboardEvents, positionEvents, buttonEvents, List.filter_nil, and_self]
  rename_i t key
  by_cases h1 : key.ScanCode ≠ SCAN_NULL <;>
    by_cases h2 : UefiKeyToImGuiKey key.ScanCode ≠ ImGuiKey.None <;>
    by_cases h3 : key.UnicodeChar ≠ 0 <;>
    simp [h1, h2, h3]

/-- The pointer part emits no keyboard event. -/
theorem processPointer_keyboardEvents (bd : ImGui_ImplUefi_Data)
    (ptrRead : Option EFI_SIMPLE_POINTER_STATE) :
    keyboardEvents (processPointer bd ptrRead).2 = [] := by
  unfold processPointer
  cases bd.Pointer <;> cases ptrRead <;> simp only [keyboardEvents, List.filter_nil]
  rename_i p state
  by_cases h1 : decide (state.LeftButton ≠ 0) ≠ bd.MouseButtonDown 0 <;>
    by_cases h2 : decide (state.RightButton ≠ 0) ≠
      (if decide (state.LeftButton ≠ 0) ≠ bd.MouseButtonDown 0 then
        Function.update bd.MouseButtonDown 0 (decide (state.LeftButton ≠ 0))
       else bd.MouseButtonDown) 1 <;>
    simp [h1, h2]

/-- The position of a successful pointer poll. -/
theorem processPointer_position (bd : ImGui_ImplUefi_Data) (p : Nat)
    (state : EFI_SIMPLE_POINTER_STATE) (hp : bd.Pointer = some p) :
    (processPointer bd (some state)).1.MouseX =
      ImClampI (wrapI32 (bd.MouseX + Int.tdiv state.RelativeMovementX 1000)) 0
        (wrapI32 (wrapI32 bd.ScreenWidth - 1)) ∧
    (processPointer bd (some state)).1.MouseY =
      ImClampI (wrapI32 (bd.MouseY + Int.tdiv state.RelativeMovementY 1000)) 0
        (wrapI32 (wrapI32 bd.ScreenHeight - 1)) ∧
    (processPointer bd (some state)).1.ScreenWidth = bd.ScreenWidth ∧
    (processPointer bd (some state)).1.ScreenHeight = bd.ScreenHeight ∧
    positionEvents (processPointer bd (some state)).2 =
      [InputEvent.MousePos (F32.ofInt (processPointer bd (some state)).1.MouseX)
        (F32.ofInt (processPointer bd (some state)).1.MouseY)] := by
  unfold processPointer
  rw [hp]
  simp only
  refine ⟨trivial, trivial, trivial, trivial, ?_⟩
  by_cases h1 : decide (state.LeftButton ≠ 0) ≠ bd.MouseButtonDown 0 <;>
    by_cases h2 : decide (state.RightButton ≠ 0) ≠
      (if decide (state.LeftButton ≠ 0) ≠ bd.MouseButtonDown 0 then
        Function.update bd.MouseButtonDown 0 (decide (state.LeftButton ≠ 0))
       else bd.MouseButtonDown) 1 <;>
    simp [positionEvents, h1, h2]

theorem ImClampI_bounds (v w : Int) (hw : 1 ≤ w) (hw2 : w < 2147483648) :
    0 ≤ ImClampI (wrapI32 v) 0 (wrapI32 (wrapI32 w - 1)) ∧
    ImClampI (wrapI32 v) 0 (wrapI32 (wrapI32 w - 1)) ≤ w - 1 ∧
    (-2147483648 ≤ v ∧ v < 2147483648 →
      ImClampI (wrapI32 v) 0 (wrapI32 (wrapI32 w - 1)) = max 0 (min v (w - 1))) := by
  have h1 : wrapI32 (wrapI32 w - 1) = w - 1 := by
    rw [wrapI32_of_range w (by omega) (by omega), wrapI32_of_range (w - 1) (by omega) (by omega)]
  rw [h1]
  unfold ImClampI
  refine ⟨?_, ?_, ?_⟩
  · split_ifs <;> omega
  · split_ifs <;> omega
  · intro hv
    rw [wrapI32_of_range v hv.1 hv.2]
    split_ifs with c1 c2
    · rw [min_eq_left (by omega), max_eq_left (by omega)]
    · rw [min_eq_right (by omega), max_eq_right (by omega)]
    · rw [min_eq_left (by omega), max_eq_right (by omega)]

/-- The position stays on the screen over a call of the pointer part, whatever the outcome
of the read. -/
theorem processPointer_bounds (bd : ImGui_ImplUefi_Data)
    (ptrRead : Option EFI_SIMPLE_POINTER_STATE)
    (hw : 1 ≤ bd.ScreenWidth ∧ bd.ScreenWidth < 2147483648)
    (hh : 1 ≤ bd.ScreenHeight ∧ bd.ScreenHeight < 2147483648)
    (hb : 0 ≤ bd.MouseX ∧ bd.MouseX ≤ (bd.ScreenWidth : Int) - 1 ∧
      0 ≤ bd.MouseY ∧ bd.MouseY ≤ (bd.ScreenHeight : Int) - 1) :
    (processPointer bd ptrRead).1.ScreenWidth = bd.ScreenWidth ∧
    (processPointer bd ptrRead).1.ScreenHeight = bd.ScreenHeight ∧
    0 ≤ (processPointer bd ptrRead).1.MouseX ∧
    (processPointer bd ptrRead).1.MouseX ≤ (bd.ScreenWidth : Int) - 1 ∧
    0 ≤ (processPointer bd ptrRead).1.MouseY ∧
    (processPointer bd ptrRead).1.MouseY ≤ (bd.ScreenHeight : Int) - 1 := by
  cases hp : bd.Pointer with
  | none =>
    have e : processPointer bd ptrRead = (bd, []) := by
      unfold processPointer
      rw [hp]
    rw [e]
    exact ⟨rfl, rfl, hb⟩
  | some p =>
    cases ptrRead with
    | none =>
      have e : processPointer bd none = (bd, []) := by
        unfold processPointer
        rw [hp]
      rw [e]
      exact ⟨rfl, rfl, hb⟩
    | some state =>
      obtain ⟨ex, ey, ew, eh, -⟩ := processPointer_position bd p state hp
      rw [ex, ey, ew, eh]
      have bx := ImClampI_bounds (bd.MouseX + Int.tdiv state.RelativeMovementX 1000)
        bd.ScreenWidth (by omega) (by omega)
      have by2 := ImClampI_bounds (bd.MouseY + Int.tdiv state.RelativeMovementY 1000)
        bd.ScreenHeight (by omega) (by omega)
      exact ⟨rfl, rfl, bx.1, bx.2.1, by2.1, by2.2.1⟩

theorem pollAll_bounds (reads : List (Option EFI_INPUT_KEY × Option EFI_SIMPLE_POINTER_STATE)) :
    ∀ (bd : ImGui_ImplUefi_Data),
    (1 ≤ bd.ScreenWidth ∧ bd.ScreenWidth < 2147483648) →
    (1 ≤ bd.ScreenHeight ∧ bd.ScreenHeight < 2147483648) →
    (0 ≤ bd.MouseX ∧ bd.MouseX ≤ (bd.ScreenWidth : Int) - 1 ∧
      0 ≤ bd.MouseY ∧ bd.MouseY ≤ (bd.ScreenHeight : Int) - 1) →
    (pollAll bd reads).ScreenWidth = bd.ScreenWidth ∧
    (pollAll bd reads).ScreenHeight = bd.ScreenHeight ∧
    0 ≤ (pollAll bd reads).MouseX ∧
    (pollAll bd reads).MouseX ≤ (bd.ScreenWidth : Int) - 1 ∧
    0 ≤ (pollAll bd reads).MouseY ∧
    (pollAll bd reads).MouseY ≤ (bd.ScreenHeight : Int) - 1 := by
  induction reads with
  | nil =>
    intro bd hw hh hb
    exact ⟨rfl, rfl, hb⟩
  | cons r rest ih =>
    intro bd hw hh hb
    have hstep := processPointer_bounds bd r.2 hw hh hb
    have e : pollAll bd (r :: rest) = pollAll (processPointer bd r.2).1 rest := rfl
    rw [e]
    have hrec := ih (processPointer bd r.2).1 (by rw [hstep.1]; exact hw)
      (by rw [hstep.2.1]; exact hh)
      (by rw [hstep.1, hstep.2.1]; exact hstep.2.2)
    rw [hstep.1, hstep.2.1] at hrec
    exact hrec

/-- The backend data that a successful `ImGui_ImplUefi_Init` registers: the screen size is
the resolution of the current mode, the pointer position is `(0, 0)`, no button is stored
as pressed, the frame buffer is allocated and its size in bytes is the `UINT32` product of
the resolutions times four. -/
theorem Init_registered (io : ImGuiIO) (env : InitEnv) (gop : EFI_GRAPHICS_OUTPUT_PROTOCOL)
    (textInput pointer : Option Nat) (r : Bool × ImGuiIO)
    (h : ImGui_ImplUefi_Init io env gop textInput pointer = some r) (hr : r.1 = true) :
    ∃ bd, r.2.BackendRendererUserData = some bd ∧
      bd.ScreenWidth = gop.HorizontalResolution ∧ bd.ScreenHeight = gop.VerticalResolution ∧
      bd.MouseX = 0 ∧ bd.MouseY = 0 ∧ (∀ i, bd.MouseButtonDown i = false) ∧
      bd.TextInput = textInput ∧ bd.Pointer = pointer ∧
      bd.FrameBuffer.isSome = true ∧
      bd.FrameBufferSize =
        (gop.HorizontalResolution * gop.VerticalResolution) % 4294967296 * 4 := by
  unfold ImGui_ImplUefi_Init at h
  split_ifs at h with c1 c2 c3
  · simp only [Option.some.injEq] at h
    rw [← h] at hr
    cases hr
  · simp only [Option.some.injEq] at h
    rw [← h] at hr
    cases hr
  · simp only [Option.some.injEq] at h
    rw [← h]
    refine ⟨_, rfl, ?_⟩
    unfold ImGui_ImplUefi_CreateDeviceObjects ImGui_ImplUefi_CreateTexture
    simp only
    cases hs : firstFreeSlot _ with
    | none => exact ⟨rfl, rfl, rfl, rfl, fun _ => rfl, rfl, rfl, rfl, rfl⟩
    | some i =>
      simp only
      split_ifs <;> exact ⟨rfl, rfl, rfl, rfl, fun _ => rfl, rfl, rfl, rfl, rfl⟩

/-- C21: on a screen with `1 <= ScreenWidth, ScreenHeight < 2^31`, every successful pointer
poll leaves `0 <= MouseX <= ScreenWidth - 1` and `0 <= MouseY <= ScreenHeight - 1` and emits
exactly one position event, which carries the new `(MouseX, MouseY)`; when the `INT32`
addition `MouseX + RelativeMovementX / 1000` does not overflow, the new `MouseX` is that sum
clamped to `[0, ScreenWidth - 1]`, and likewise for `MouseY`.  The bounds hold for the data
that a successful `ImGui_ImplUefi_Init` registers, and they are kept by every sequence of
polls, successful or not. -/
theorem pointer_position_clamped (bd : ImGui_ImplUefi_Data)
    (hw : 1 ≤ bd.ScreenWidth ∧ bd.ScreenWidth < 2147483648)
    (hh : 1 ≤ bd.ScreenHeight ∧ bd.ScreenHeight < 2147483648) :
    (∀ (p : Nat) (keyRead : Option EFI_INPUT_KEY) (state : EFI_SIMPLE_POINTER_STATE),
      bd.Pointer = some p →
      (0 ≤ (ImGui_ImplUefi_ProcessInputEvents bd keyRead (some state)).1.MouseX ∧
        (ImGui_ImplUefi_ProcessInputEvents bd keyRead (some state)).1.MouseX ≤
          (bd.ScreenWidth : Int) - 1 ∧
        0 ≤ (ImGui_ImplUefi_ProcessInputEvents bd keyRead (some state)).1.MouseY ∧
        (ImGui_ImplUefi_ProcessInputEvents bd keyRead (some state)).1.MouseY ≤
          (bd.ScreenHeight : Int) - 1) ∧
      positionEvents (ImGui_ImplUefi_ProcessInputEvents bd keyRead (some state)).2 =
        [InputEvent.MousePos
          (F32.ofInt (ImGui_ImplUefi_ProcessInputEvents bd keyRead (some state)).1.MouseX)
          (F32.ofInt (ImGui_ImplUefi_ProcessInputEvents bd keyRead (some state)).1.MouseY)] ∧
      (-2147483648 ≤ bd.MouseX + Int.tdiv state.RelativeMovementX 1000 ∧
          bd.MouseX + Int.tdiv state.RelativeMovementX 1000 < 2147483648 →
        (ImGui_ImplUefi_ProcessInputEvents bd keyRead (some state)).1.MouseX =
          max 0 (min (bd.MouseX + Int.tdiv state.RelativeMovementX 1000)
            ((bd.ScreenWidth : Int) - 1))) ∧
      (-2147483648 ≤ bd.MouseY + Int.tdiv state.RelativeMovementY 1000 ∧
          bd.MouseY + Int.tdiv state.RelativeMovementY 1000 < 2147483648 →
        (ImGui_ImplUefi_ProcessInputEvents bd keyRead (some state)).1.MouseY =
          max 0 (min (bd.MouseY + Int.tdiv state.RelativeMovementY 1000)
            ((bd.ScreenHeight : Int) - 1)))) ∧
    (∀ reads : List (Option EFI_INPUT_KEY × Option EFI_SIMPLE_POINTER_STATE),
      (0 ≤ bd.MouseX ∧ bd.MouseX ≤ (bd.ScreenWidth : Int) - 1 ∧
        0 ≤ bd.MouseY ∧ bd.MouseY ≤ (bd.ScreenHeight : Int) - 1) →
      (pollAll bd reads).ScreenWidth = bd.ScreenWidth ∧
      (pollAll bd reads).ScreenHeight = bd.ScreenHeight ∧
      0 ≤ (pollAll bd reads).MouseX ∧
      (pollAll bd reads).MouseX ≤ (bd.ScreenWidth : Int) - 1 ∧
      0 ≤ (pollAll bd reads).MouseY ∧
      (pollAll bd reads).MouseY ≤ (bd.ScreenHeight : Int) - 1) ∧
    (∀ (io : ImGuiIO) (env : InitEnv) (address : Nat) (textInput pointer : Option Nat)
      (r : Bool × ImGuiIO),
      ImGui_ImplUefi_Init io env ⟨address, bd.ScreenWidth, bd.ScreenHeight⟩ textInput pointer =
        some r → r.1 = true →
      ∃ bd2, r.2.BackendRendererUserData = some bd2 ∧
        bd2.ScreenWidth = bd.ScreenWidth ∧ bd2.ScreenHeight = bd.ScreenHeight ∧
        0 ≤ bd2.MouseX ∧ bd2.MouseX ≤ (bd.ScreenWidth : Int) - 1 ∧
        0 ≤ bd2.MouseY ∧ bd2.MouseY ≤ (bd.ScreenHeight : Int) - 1) := by
  refine ⟨?_, ?_, ?_⟩
  · intro p keyRead state hp
    obtain ⟨ex, ey, ew, eh, epos⟩ := processPointer_position bd p state hp
    have bx := ImClampI_bounds (bd.MouseX + Int.tdiv state.RelativeMovementX 1000)
      bd.ScreenWidth (by omega) (by omega)
    have by2 := ImClampI_bounds (bd.MouseY + Int.tdiv state.RelativeMovementY 1000)
      bd.ScreenHeight (by omega) (by omega)
    have e1 : (ImGui_ImplUefi_ProcessInputEvents bd keyRead (some state)).1 =
        (processPointer bd (some state)).1 := rfl
    have e2 : (ImGui_ImplUefi_ProcessInputEvents bd keyRead (some state)).2 =
        processKeyboard bd keyRead ++ (processPointer bd (some state)).2 := rfl
    rw [e1, e2, positionEvents_append, (processKeyboard_channels bd keyRead).2.1,
      List.nil_append, epos, ex, ey]
    exact ⟨⟨bx.1, bx.2.1, by2.1, by2.2.1⟩, rfl, bx.2.2, by2.2.2⟩
  · intro reads hb
    exact pollAll_bounds reads bd hw hh hb
  · intro io env address textInput pointer r h hr
    obtain ⟨bd2, h1, h2, h3, h4, h5, -⟩ :=
      Init_registered io env ⟨address, bd.ScreenWidth, bd.ScreenHeight⟩ textInput pointer r h hr
    refine ⟨bd2, h1, h2, h3, ?_⟩
    rw [h4, h5]
    omega

/-- C21, witness: a poll on a 4 by 4 screen that reports a movement of 2500 units to the
right and 9000 units down from the position `(0, 0)`. -/
theorem pointer_position_clamped_witness :
    (ImGui_ImplUefi_ProcessInputEvents pointerData none (some ⟨2500, 9000, 0, 0, 0⟩)).1.MouseX =
      max 0 (min (0 + Int.tdiv 2500 1000) ((4 : Int) - 1)) ∧
    (ImGui_ImplUefi_ProcessInputEvents pointerData none (some ⟨2500, 9000, 0, 0, 0⟩)).1.MouseY =
      max 0 (min (0 + Int.tdiv 9000 1000) ((4 : Int) - 1)) :=
  have h := (pointer_position_clamped pointerData (by decide) (by decide)).1 2 none
    ⟨2500, 9000, 0, 0, 0⟩ rfl
  ⟨h.2.2.1 (by decide), h.2.2.2 (by decide)⟩

theorem UefiKeyToImGuiKey_none_iff (s : Nat) :
    UefiKeyToImGuiKey s = ImGuiKey.None ↔ ¬ (1 ≤ s ∧ s ≤ 23) := by
  constructor
  · intro h hs
    obtain ⟨h1, h2⟩ := hs
    interval_cases s <;> revert h <;> decide
  · intro hs
    unfold UefiKeyToImGuiKey
    have h0 : s = 0 ∨ 24 ≤ s := by omega
    rcases h0 with h0 | h0
    · rw [h0]
      rfl
    · repeat rw [if_neg (by omega)]

/-- C22: for a successful keyboard read with scan code `s` and character `c`, the keyboard
events of `ImGui_ImplUefi_ProcessInputEvents` are, in this order, a press and a release of
the key `k` of `s` when `s` is one of the 23 mapped scan codes (`1` to `23`: arrows, Home,
End, Insert, Delete, PageUp, PageDown, F1 to F12, Escape), nothing for `SCAN_NULL` and for
every other code, and then one text-input event for `c` when `c != 0`; they come before
all pointer events of the call. -/
theorem keyboard_events (bd : ImGui_ImplUefi_Data) (t : Nat) (key : EFI_INPUT_KEY)
    (ptrRead : Option EFI_SIMPLE_POINTER_STATE) (ht : bd.TextInput = some t) :
    keyboardEvents (ImGui_ImplUefi_ProcessInputEvents bd (some key) ptrRead).2 =
      (if 1 ≤ key.ScanCode ∧ key.ScanCode ≤ 23 then
        [InputEvent.Key (UefiKeyToImGuiKey key.ScanCode) true,
          InputEvent.Key (UefiKeyToImGuiKey key.ScanCode) false]
       else []) ++
      (if key.UnicodeChar ≠ 0 then [InputEvent.Char key.UnicodeChar] else []) ∧
    (∃ rest, (ImGui_ImplUefi_ProcessInputEvents bd (some key) ptrRead).2 =
        keyboardEvents (ImGui_ImplUefi_ProcessInputEvents bd (some key) ptrRead).2 ++ rest ∧
      keyboardEvents rest = []) ∧
    (1 ≤ key.ScanCode ∧ key.ScanCode ≤ 23 ↔ UefiKeyToImGuiKey key.ScanCode ≠ ImGuiKey.None) ∧
    UefiKeyToImGuiKey SCAN_NULL = ImGuiKey.None ∧
    (List.range 24).map UefiKeyToImGuiKey =
      [ImGuiKey.None, ImGuiKey.UpArrow, ImGuiKey.DownArrow, ImGuiKey.RightArrow,
        ImGuiKey.LeftArrow, ImGuiKey.Home, ImGuiKey.End, ImGuiKey.Insert, ImGuiKey.Delete,
        ImGuiKey.PageUp, ImGuiKey.PageDown, ImGuiKey.F1, ImGuiKey.F2, ImGuiKey.F3,
        ImGuiKey.F4, ImGuiKey.F5, ImGuiKey.F6, ImGuiKey.F7, ImGuiKey.F8, ImGuiKey.F9,
        ImGuiKey.F10, ImGuiKey.F11, ImGuiKey.F12, ImGuiKey.Escape] := by
  have hiff := UefiKeyToImGuiKey_none_iff key.ScanCode
  have hk : processKeyboard bd (some key) =
      (if 1 ≤ key.ScanCode ∧ key.ScanCode ≤ 23 then
        [InputEvent.Key (UefiKeyToImGuiKey key.ScanCode) true,
          InputEvent.Key (UefiKeyToImGuiKey key.ScanCode) false]
       else []) ++
      (if key.UnicodeChar ≠ 0 then [InputEvent.Char key.UnicodeChar] else []) := by
    unfold processKeyboard
    rw [ht]
    simp only
    congr 1
    by_cases hs : 1 ≤ key.ScanCode ∧ key.ScanCode ≤ 23
    · have h1 : key.ScanCode ≠ SCAN_NULL := by unfold SCAN_NULL; omega
      have h2 : UefiKeyToImGuiKey key.ScanCode ≠ ImGuiKey.None := fun h => hiff.1 h hs
      rw [if_pos hs, if_pos h1, if_pos h2]
    · have h2 : ¬ UefiKeyToImGuiKey key.ScanCode ≠ ImGuiKey.None := fun h => h (hiff.2 hs)
      rw [if_neg hs, if_neg h2]
      split <;> rfl
  have e2 : (ImGui_ImplUefi_ProcessInputEvents bd (some key) ptrRead).2 =
      processKeyboard bd (some key) ++ (processPointer bd ptrRead).2 := rfl
  have hkk := (processKeyboard_channels bd (some key)).1
  have hpk := processPointer_keyboardEvents bd ptrRead
  have hke : keyboardEvents (ImGui_ImplUefi_ProcessInputEvents bd (some key) ptrRead).2 =
      processKeyboard bd (some key) := by
    rw [e2, keyboardEvents_append, hkk, hpk, List.append_nil]
  refine ⟨by rw [hke, hk], ⟨(processPointer bd ptrRead).2, by rw [hke, e2], hpk⟩, ?_, rfl,
    by decide⟩
  constructor
  · intro hs h
    exact hiff.1 h hs
  · intro h
    by_contra hs
    exact h (hiff.2 hs)

/-- C22, witness: a keyboard read that reports the scan code of the up arrow together with
the character `a`. -/
theorem keyboard_events_witness :
    keyboardEvents (ImGui_ImplUefi_ProcessInputEvents pointerData (some ⟨1, 97⟩) none).2 =
      [InputEvent.Key ImGuiKey.UpArrow true, InputEvent.Key ImGuiKey.UpArrow false,
        InputEvent.Char 97] :=
  (keyboard_events pointerData 1 ⟨1, 97⟩ none rfl).1

/-- C23: an unavailable device is not an error.  With a null keyboard handle or a failed
key read the call emits no key and no text event; with a null pointer handle or a failed
pointer read it emits no position and no button event and returns the backend data
unchanged.  The channels do not influence each other: the pointer events and the new backend
data are the same for every keyboard handle and every outcome of the key read, and the
keyboard events are the same for every pointer handle and every outcome of the pointer
read. -/
theorem device_unavailable (bd : ImGui_ImplUefi_Data) (keyRead : Option EFI_INPUT_KEY)
    (ptrRead : Option EFI_SIMPLE_POINTER_STATE) :
    ((bd.TextInput = none ∨ keyRead = none) →
      keyboardEvents (ImGui_ImplUefi_ProcessInputEvents bd keyRead ptrRead).2 = []) ∧
    ((bd.Pointer = none ∨ ptrRead = none) →
      (ImGui_ImplUefi_ProcessInputEvents bd keyRead ptrRead).1 = bd ∧
      positionEvents (ImGui_ImplUefi_ProcessInputEvents bd keyRead ptrRead).2 = [] ∧
      buttonEvents (ImGui_ImplUefi_ProcessInputEvents bd keyRead ptrRead).2 = []) ∧
    (∀ (t2 : Option Nat) (keyRead2 : Option EFI_INPUT_KEY),
      (ImGui_ImplUefi_ProcessInputEvents { bd with TextInput := t2 } keyRead2 ptrRead).1 =
        { (ImGui_ImplUefi_ProcessInputEvents bd keyRead ptrRead).1 with TextInput := t2 } ∧
      positionEvents
          (ImGui_ImplUefi_ProcessInputEvents { bd with TextInput := t2 } keyRead2 ptrRead).2 =
        positionEvents (ImGui_ImplUefi_ProcessInputEvents bd keyRead ptrRead).2 ∧
      buttonEvents
          (ImGui_ImplUefi_ProcessInputEvents { bd with TextInput := t2 } keyRead2 ptrRead).2 =
        buttonEvents (ImGui_ImplUefi_ProcessInputEvents bd keyRead ptrRead).2) ∧
    (∀ (p2 : Option Nat) (ptrRead2 : Option EFI_SIMPLE_POINTER_STATE),
      keyboardEvents
          (ImGui_ImplUefi_ProcessInputEvents { bd with Pointer := p2 } keyRead ptrRead2).2 =
        keyboardEvents (ImGui_ImplUefi_ProcessInputEvents bd keyRead ptrRead).2) := by
  have e2 : ∀ (b : ImGui_ImplUefi_Data) (k : Option EFI_INPUT_KEY)
      (q : Option EFI_SIMPLE_POINTER_STATE),
      (ImGui_ImplUefi_ProcessInputEvents b k q).2 =
        processKeyboard b k ++ (processPointer b q).2 := fun _ _ _ => rfl
  have e1 : ∀ (b : ImGui_ImplUefi_Data) (k : Option EFI_INPUT_KEY)
      (q : Option EFI_SIMPLE_POINTER_STATE),
      (ImGui_ImplUefi_ProcessInputEvents b k q).1 = (processPointer b q).1 := fun _ _ _ => rfl
  refine ⟨?_, ?_, ?_, ?_⟩
  · intro h
    rw [e2, keyboardEvents_append, processPointer_keyboardEvents, List.append_nil]
    unfold processKeyboard
    rcases h with h | h
    · rw [h]
      rfl
    · rw [h]
      cases bd.TextInput <;> rfl
  · intro h
    have hp : processPointer bd ptrRead = (bd, []) := by
      unfold processPointer
      rcases h with h | h
      · rw [h]
      · rw [h]
        cases bd.Pointer <;> rfl
    rw [e1, e2, hp, List.append_nil]
    exact ⟨rfl, (processKeyboard_channels bd keyRead).2.1,
      (processKeyboard_channels bd keyRead).2.2⟩
  · intro t2 keyRead2
    have hpp : processPointer { bd with TextInput := t2 } ptrRead =
        ({ (processPointer bd ptrRead).1 with TextInput := t2 }, (processPointer bd ptrRead).2) := by
      unfold processPointer
      simp only
      split <;> rfl
    rw [e1, e1, e2, e2, hpp, positionEvents_append, positionEvents_append, buttonEvents_append,
      buttonEvents_append, (processKeyboard_channels _ keyRead2).2.1,
      (processKeyboard_channels _ keyRead2).2.2, (processKeyboard_channels _ keyRead).2.1,
      (processKeyboard_channels _ keyRead).2.2]
    exact ⟨rfl, rfl, rfl⟩
  · intro p2 ptrRead2
    rw [e2, e2, keyboardEvents_append, keyboardEvents_append, processPointer_keyboardEvents,
      processPointer_keyboardEvents]
    rfl

/-! ## Lifecycle: calls without a backend, repeated initialisation, failed allocations -/

/-- C24, evaluation: without registered backend data `ImGui_ImplUefi_GetBackendData` returns
null; `ImGui_ImplUefi_RenderDrawData` then returns at once for a null `draw_data`, but for
every non-null `draw_data` it evaluates `bd->FrameBuffer` with the null `bd`. -/
theorem RenderDrawData_without_backend (ctx : Option ImGuiIO) (dd : ImDrawData) :
    ImGui_ImplUefi_GetBackendData (some freshContext) = none ∧
    ImGui_ImplUefi_GetBackendData none = none ∧
    (ImGui_ImplUefi_GetBackendData ctx = none →
      ImGui_ImplUefi_RenderDrawData.call ctx none = some (ctx, []) ∧
      ImGui_ImplUefi_RenderDrawData.call ctx (some dd) = none) := by
  refine ⟨rfl, rfl, ?_⟩
  intro h
  unfold ImGui_ImplUefi_RenderDrawData.call
  rw [h]
  exact ⟨rfl, rfl⟩

/-- C25, counterexample: `ImGui_ImplUefi_Init` on an `ImGuiIO` that holds the registered
backend data of a 4 by 4 screen, called for a display of 2 by 2 with succeeding allocations,
does not return failure.  With `IM_ASSERT` active the call does not return at all; with
`IM_ASSERT` compiled out it returns `true` and the registered data have `ScreenWidth = 2`. -/
theorem Init_registered_no_failure :
    (ImGui_ImplUefi_Init { freshContext with BackendRendererUserData := some (exampleData 4 4) }
        { plainEnv with assertsEnabled := true } ⟨1, 2, 2⟩ none none).isSome = false ∧
    (ImGui_ImplUefi_Init { freshContext with BackendRendererUserData := some (exampleData 4 4) }
        plainEnv ⟨1, 2, 2⟩ none none).map
      (fun r => (r.1, r.2.BackendRendererUserData.map (fun bd => bd.ScreenWidth))) =
      some (true, some 2) := by
  decide

/-- C25, amended: a registered backend is guarded by the assertion
`IM_ASSERT(io.BackendRendererUserData == nullptr)` and is not reported through the return
value.  For an `ImGuiIO` with registered backend data: with `IM_ASSERT` active the call of
`ImGui_ImplUefi_Init` does not return (the assertion is the first statement, before any
allocation or assignment); with `IM_ASSERT` compiled out the call proceeds as on an
`ImGuiIO` without backend data, that is, it returns `false` with the `ImGuiIO` unchanged
when the allocation of the data fails, and otherwise gives the result of the call on the
`ImGuiIO` without backend data, which registers newly initialised data; whenever the call
returns `false`, the allocation of the data or of the frame buffer has failed. -/
theorem Init_registered_guard (io : ImGuiIO) (env : InitEnv)
    (gop : EFI_GRAPHICS_OUTPUT_PROTOCOL) (textInput pointer : Option Nat)
    (hreg : io.BackendRendererUserData.isSome = true) :
    (env.assertsEnabled = true → ImGui_ImplUefi_Init io env gop textInput pointer = none) ∧
    (env.assertsEnabled = false → env.dataAllocOk = false →
      ImGui_ImplUefi_Init io env gop textInput pointer = some (false, io)) ∧
    (env.assertsEnabled = false → env.dataAllocOk = true →
      ImGui_ImplUefi_Init io env gop textInput pointer =
        ImGui_ImplUefi_Init { io with BackendRendererUserData := none } env gop textInput
          pointer ∧
      ∃ r bd, ImGui_ImplUefi_Init io env gop textInput pointer = some r ∧
        r.2.BackendRendererUserData = some bd ∧
        bd.ScreenWidth = gop.HorizontalResolution ∧
        bd.ScreenHeight = gop.VerticalResolution ∧ bd.MouseX = 0 ∧ bd.MouseY = 0 ∧
        ∀ i, bd.TextureUsed i = true → i = bd.FontTextureId) ∧
    (∀ r, ImGui_ImplUefi_Init io env gop textInput pointer = some r → r.1 = false →
      env.dataAllocOk = false ∨ env.frameBufferAllocOk = false) := by
  refine ⟨?_, ?_, ?_, ?_⟩
  · intro h
    unfold ImGui_ImplUefi_Init
    rw [if_pos ⟨h, hreg⟩]
  · intro h1 h2
    unfold ImGui_ImplUefi_Init
    rw [if_neg (by rw [h1]; simp), if_pos h2]
  · intro h1 h2
    constructor
    · have e : ∀ io2 : ImGuiIO, ¬ (env.assertsEnabled = true ∧
          io2.BackendRendererUserData.isSome = true) := by
        intro io2 hc
        rw [h1] at hc
        cases hc.1
      have e2 : ¬ env.dataAllocOk = false := by rw [h2]; simp
      unfold ImGui_ImplUefi_Init
      rw [if_neg (e _), if_neg (e _), if_neg e2, if_neg e2]
    · unfold ImGui_ImplUefi_Init
      rw [if_neg (by rw [h1]; simp), if_neg (by rw [h2]; simp)]
      by_cases h3 : env.frameBufferAllocOk = false
      · rw [if_pos h3]
        refine ⟨_, _, rfl, rfl, rfl, rfl, rfl, rfl, ?_⟩
        intro i hi
        cases hi
      · rw [if_neg h3]
        refine ⟨_, _, rfl, rfl, ?_⟩
        unfold ImGui_ImplUefi_CreateDeviceObjects ImGui_ImplUefi_CreateTexture
        simp only
        cases hs : firstFreeSlot _ with
        | none =>
          refine ⟨rfl, rfl, rfl, rfl, ?_⟩
          intro i hi
          cases hi
        | some s =>
          simp only
          split_ifs
          · refine ⟨rfl, rfl, rfl, rfl, ?_⟩
            intro i hi
            simp only [zeroData, Function.update_apply] at hi
            by_cases his : i = s
            · exact his
            · rw [if_neg his] at hi
              cases hi
          · refine ⟨rfl, rfl, rfl, rfl, ?_⟩
            intro i hi
            cases hi
  · intro r h hr
    unfold ImGui_ImplUefi_Init at h
    split_ifs at h with c1 c2 c3
    · exact Or.inl c2
    · exact Or.inr c3
    · simp only [Option.some.injEq] at h
      rw [← h] at hr
      cases hr

/-- C25, amended, witness: the `ImGuiIO` with the registered data of a 4 by 4 screen and
`IM_ASSERT` active; the call for a display of 2 by 2 does not return. -/
theorem Init_registered_guard_witness :
    ImGui_ImplUefi_Init { freshContext with BackendRendererUserData := some (exampleData 4 4) }
        { plainEnv with assertsEnabled := true } ⟨1, 2, 2⟩ none none = none :=
  (Init_registered_guard { freshContext with BackendRendererUserData := some (exampleData 4 4) }
    { plainEnv with assertsEnabled := true } ⟨1, 2, 2⟩ none none rfl).1 rfl

/-- C26, evaluation: `ImGui_ImplUefi_Init` returns what `ImGui_ImplUefi_CreateDeviceObjects`
returns, which is `true` in every case.  When the data and the frame buffer are allocated
and the pixel allocation of the font texture fails, `ImGui_ImplUefi_Init` returns `true`
and the registered backend data has a frame buffer and `FontTextureId = 0`.  The other
parts of the claim hold: after a return of `true` the frame buffer is not null, and a failed
frame buffer allocation gives `false`. -/
theorem Init_true_without_font_texture :
    (∀ (io : ImGuiIO) (env : InitEnv) (gop : EFI_GRAPHICS_OUTPUT_PROTOCOL)
      (textInput pointer : Option Nat),
      io.BackendRendererUserData = none → env.dataAllocOk = true →
      env.frameBufferAllocOk = true → env.textureAllocOk = false →
      ∃ r bd, ImGui_ImplUefi_Init io env gop textInput pointer = some r ∧ r.1 = true ∧
        r.2.BackendRendererUserData = some bd ∧ bd.FrameBuffer.isSome = true ∧
        bd.FontTextureId = 0) ∧
    (∀ (io : ImGuiIO) (env : InitEnv) (gop : EFI_GRAPHICS_OUTPUT_PROTOCOL)
      (textInput pointer : Option Nat) (r : Bool × ImGuiIO),
      ImGui_ImplUefi_Init io env gop textInput pointer = some r → r.1 = true →
      ∃ bd, r.2.BackendRendererUserData = some bd ∧ bd.FrameBuffer.isSome = true) ∧
    (∀ (io : ImGuiIO) (env : InitEnv) (gop : EFI_GRAPHICS_OUTPUT_PROTOCOL)
      (textInput pointer : Option Nat) (r : Bool × ImGuiIO),
      ImGui_ImplUefi_Init io env gop textInput pointer = some r →
      env.frameBufferAllocOk = false → r.1 = false) ∧
    (ImGui_ImplUefi_Init freshContext { plainEnv with textureAllocOk := false } ⟨1, 4, 4⟩
        none none).map
      (fun r => (r.1, r.2.BackendRendererUserData.map (fun bd => bd.FontTextureId))) =
      some (true, some 0) := by
  refine ⟨?_, ?_, ?_, by decide⟩
  · intro io env gop textInput pointer h0 h1 h2 h3
    unfold ImGui_ImplUefi_Init
    rw [if_neg (by rw [h0]; simp), if_neg (by rw [h1]; simp), if_neg (by rw [h2]; simp)]
    refine ⟨_, _, rfl, rfl, rfl, ?_⟩
    unfold ImGui_ImplUefi_CreateDeviceObjects ImGui_ImplUefi_CreateTexture
    simp only
    cases hs : firstFreeSlot _ with
    | none => exact ⟨rfl, rfl⟩
    | some s =>
      simp only
      rw [h3]
      exact ⟨rfl, rfl⟩
  · intro io env gop textInput pointer r h hr
    obtain ⟨bd, h1, -, -, -, -, -, -, -, h2, -⟩ :=
      Init_registered io env gop textInput pointer r h hr
    exact ⟨bd, h1, h2⟩
  · intro io env gop textInput pointer r h hf
    unfold ImGui_ImplUefi_Init at h
    split_ifs at h with c1 c2
    · simp only [Option.some.injEq] at h
      rw [← h]
    · simp only [Option.some.injEq] at h
      rw [← h]

/-- C27: on registered backend data, `ImGui_ImplUefi_RenderDrawData` with a null
`draw_data`, or with a null frame buffer, returns the backend data as they are and has no
effect on the display (no blit, no callback); the same holds for the call through the
context, which leaves the `ImGuiIO` as it is. -/
theorem RenderDrawData_noop (bd : ImGui_ImplUefi_Data) (draw_data : Option ImDrawData)
    (io : ImGuiIO) :
    ImGui_ImplUefi_RenderDrawData bd none = (bd, []) ∧
    (bd.FrameBuffer = none → ImGui_ImplUefi_RenderDrawData bd draw_data = (bd, [])) ∧
    (io.BackendRendererUserData = some bd →
      ImGui_ImplUefi_RenderDrawData.call (some io) none = some (some io, []) ∧
      (bd.FrameBuffer = none →
        ImGui_ImplUefi_RenderDrawData.call (some io) draw_data = some (some io, []))) := by
  have h2 : bd.FrameBuffer = none → ImGui_ImplUefi_RenderDrawData bd draw_data = (bd, []) := by
    intro h
    unfold ImGui_ImplUefi_RenderDrawData
    rw [h]
    cases draw_data <;> rfl
  have h1 : ImGui_ImplUefi_RenderDrawData bd none = (bd, []) := by
    unfold ImGui_ImplUefi_RenderDrawData
    split
    · rfl
    · rfl
    · rename_i hd _
      cases hd
  refine ⟨h1, h2, ?_⟩
  intro hio
  refine ⟨rfl, ?_⟩
  intro hfb
  cases draw_data with
  | none => rfl
  | some dd =>
    have h3 := h2 hfb
    unfold ImGui_ImplUefi_RenderDrawData.call ImGui_ImplUefi_GetBackendData
    simp only
    rw [hio]
    simp only
    rw [h3]
    simp only [Option.map_some', Option.some.injEq, Prod.mk.injEq, and_true]
    cases io
    simp only at hio
    rw [hio]

/-! ## The frame: clearing, trace, blit -/

theorem renderCmd_idx_advance (W H F : Nat) (vtx : List ImDrawVert) (idxBuf : List Nat)
    (n : Nat) (st : CmdState) (cmd_i : Nat) (cmd : ImDrawCmd) :
    (renderCmd W H F vtx idxBuf n st cmd_i cmd).idx = st.idx + renderCmd.advance W H cmd := by
  unfold renderCmd renderCmd.advance
  cases hcb : cmd.UserCallback with
  | some cb => cases cb <;> rfl
  | none =>
    simp only
    split <;> rfl

/-- Processing a command adds callback invocations only to the effects. -/
theorem renderCmd_effects (W H F : Nat) (vtx : List ImDrawVert) (idxBuf : List Nat)
    (n : Nat) (st : CmdState) (cmd_i : Nat) (cmd : ImDrawCmd) :
    ∃ cbs, (renderCmd W H F vtx idxBuf n st cmd_i cmd).effects = st.effects ++ cbs ∧
      ∀ e ∈ cbs, Effect.isCallback e = true := by
  unfold renderCmd
  cases hcb : cmd.UserCallback with
  | some cb =>
    cases cb with
    | ResetRenderState => exact ⟨[], by simp, by simp⟩
    | User fn =>
      refine ⟨[Effect.Callback fn n cmd_i], rfl, ?_⟩
      intro e he
      rw [List.mem_singleton] at he
      rw [he]
      rfl
  | none =>
    simp only
    split <;> exact ⟨[], by simp, by simp⟩

theorem renderCmds_trace (W H F : Nat) (vtx : List ImDrawVert) (idxBuf : List Nat) (n : Nat)
    (cmds : List ImDrawCmd) : ∀ (st : CmdState) (cmd_i : Nat),
    (renderCmds W H F vtx idxBuf n st cmd_i cmds).fb =
      applyWrites W st.fb (renderCmds.writes W H vtx idxBuf st.idx cmds) ∧
    ∃ cbs, (renderCmds W H F vtx idxBuf n st cmd_i cmds).effects = st.effects ++ cbs ∧
      ∀ e ∈ cbs, Effect.isCallback e = true := by
  induction cmds with
  | nil =>
    intro st cmd_i
    exact ⟨rfl, [], by simp [renderCmds], by simp⟩
  | cons cmd rest ih =>
    intro st cmd_i
    obtain ⟨h1, cbs2, h2, h3⟩ := ih (renderCmd W H F vtx idxBuf n st cmd_i cmd) (cmd_i + 1)
    obtain ⟨cbs1, g2, g3⟩ := renderCmd_effects W H F vtx idxBuf n st cmd_i cmd
    have e : renderCmds W H F vtx idxBuf n st cmd_i (cmd :: rest) =
        renderCmds W H F vtx idxBuf n (renderCmd W H F vtx idxBuf n st cmd_i cmd)
          (cmd_i + 1) rest := rfl
    rw [e]
    refine ⟨?_, cbs1 ++ cbs2, ?_, ?_⟩
    · have ew : renderCmds.writes W H vtx idxBuf st.idx (cmd :: rest) =
          renderCmd.writes W H vtx idxBuf st.idx cmd ++
            renderCmds.writes W H vtx idxBuf (st.idx + renderCmd.advance W H cmd) rest := rfl
      rw [h1, renderCmd_fb_eq_applyWrites, renderCmd_idx_advance, ew, applyWrites_append]
    · rw [h2, g2, List.append_assoc]
    · intro e2 he
      rcases List.mem_append.1 he with he | he
      · exact g3 e2 he
      · exact h3 e2 he

theorem renderLists_trace (W H F : Nat) (ls : List ImDrawList) :
    ∀ (fb : Buffer) (effects : List Effect) (n : Nat),
    (renderLists W H F fb effects n ls).1 = applyWrites W fb (renderLists.writes W H ls) ∧
    ∃ cbs, (renderLists W H F fb effects n ls).2 = effects ++ cbs ∧
      ∀ e ∈ cbs, Effect.isCallback e = true := by
  induction ls with
  | nil =>
    intro fb effects n
    exact ⟨rfl, [], by simp [renderLists], by simp⟩
  | cons l rest ih =>
    intro fb effects n
    obtain ⟨g1, cbs1, g2, g3⟩ := renderCmds_trace W H F l.VtxBuffer l.IdxBuffer n l.CmdBuffer
      ⟨fb, 0, effects⟩ 0
    obtain ⟨h1, cbs2, h2, h3⟩ := ih
      (renderCmds W H F l.VtxBuffer l.IdxBuffer n ⟨fb, 0, effects⟩ 0 l.CmdBuffer).fb
      (renderCmds W H F l.VtxBuffer l.IdxBuffer n ⟨fb, 0, effects⟩ 0 l.CmdBuffer).effects (n + 1)
    have e : renderLists W H F fb effects n (l :: rest) =
        renderLists W H F
          (renderCmds W H F l.VtxBuffer l.IdxBuffer n ⟨fb, 0, effects⟩ 0 l.CmdBuffer).fb
          (renderCmds W H F l.VtxBuffer l.IdxBuffer n ⟨fb, 0, effects⟩ 0 l.CmdBuffer).effects
          (n + 1) rest := rfl
    rw [e]
    refine ⟨?_, cbs1 ++ cbs2, ?_, ?_⟩
    · have ew : renderLists.writes W H (l :: rest) =
          renderCmds.writes W H l.VtxBuffer l.IdxBuffer 0 l.CmdBuffer ++
            renderLists.writes W H rest := rfl
      rw [h1, g1, ew, applyWrites_append]
    · rw [h2, g2, List.append_assoc]
    · intro e2 he
      rcases List.mem_append.1 he with he | he
      · exact g3 e2 he
      · exact h3 e2 he

/-- The value of a cell after a trace depends on the buffer through this cell only. -/
theorem applyWrites_congr (W : Nat) (ws : List PixelWrite) (i : Nat) :
    ∀ (b1 b2 : Buffer), b1 i = b2 i → applyWrites W b1 ws i = applyWrites W b2 ws i := by
  induction ws with
  | nil =>
    intro b1 b2 h
    exact h
  | cons p ws ih =>
    intro b1 b2 h
    rw [applyWrites_cons, applyWrites_cons]
    apply ih
    simp only [Buffer.write]
    split
    · rfl
    · exact h

theorem clearBuffer_zero (fb : Buffer) (size n i : Nat) (hsize : 4 * n ≤ size) (hi : i < n) :
    clearBuffer fb size i = 0 := by
  unfold clearBuffer
  rw [if_pos (by omega)]

theorem mem_renderCmds_writes (W H : Nat) (vtx : List ImDrawVert) (idxBuf : List Nat)
    (cmds : List ImDrawCmd) (p : PixelWrite) : ∀ (idx : Nat),
    p ∈ renderCmds.writes W H vtx idxBuf idx cmds →
    ∃ cmd ∈ cmds, ∃ idx2, p ∈ renderCmd.writes W H vtx idxBuf idx2 cmd := by
  induction cmds with
  | nil =>
    intro idx hp
    cases hp
  | cons cmd rest ih =>
    intro idx hp
    have ew : renderCmds.writes W H vtx idxBuf idx (cmd :: rest) =
        renderCmd.writes W H vtx idxBuf idx cmd ++
          renderCmds.writes W H vtx idxBuf (idx + renderCmd.advance W H cmd) rest := rfl
    rw [ew] at hp
    rcases List.mem_append.1 hp with hp | hp
    · exact ⟨cmd, List.mem_cons_self _ _, idx, hp⟩
    · obtain ⟨c, hc, i2, h2⟩ := ih _ hp
      exact ⟨c, List.mem_cons_of_mem _ hc, i2, h2⟩

theorem mem_renderLists_writes (W H : Nat) (ls : List ImDrawList) (p : PixelWrite)
    (hp : p ∈ renderLists.writes W H ls) :
    ∃ l ∈ ls, ∃ cmd ∈ l.CmdBuffer, ∃ idx,
      p ∈ renderCmd.writes W H l.VtxBuffer l.IdxBuffer idx cmd := by
  induction ls with
  | nil => cases hp
  | cons l rest ih =>
    have ew : renderLists.writes W H (l :: rest) =
        renderCmds.writes W H l.VtxBuffer l.IdxBuffer 0 l.CmdBuffer ++
          renderLists.writes W H rest := rfl
    rw [ew] at hp
    rcases List.mem_append.1 hp with hp | hp
    · obtain ⟨c, hc, i2, h2⟩ := mem_renderCmds_writes W H _ _ _ p 0 hp
      exact ⟨l, List.mem_cons_self _ _, c, hc, i2, h2⟩
    · obtain ⟨l2, hl2, c, hc, i2, h2⟩ := ih hp
      exact ⟨l2, List.mem_cons_of_mem _ hl2, c, hc, i2, h2⟩

/-- The frame buffer and the effects of `ImGui_ImplUefi_RenderDrawData` for a non-null
frame and a non-null frame buffer. -/
theorem RenderDrawData_some (bd : ImGui_ImplUefi_Data) (fb0 : Buffer) (dd : ImDrawData)
    (hfb : bd.FrameBuffer = some fb0) :
    ImGui_ImplUefi_RenderDrawData bd (some dd) =
      ({ bd with FrameBuffer := some (renderLists bd.ScreenWidth bd.ScreenHeight
            bd.FontTextureId (clearBuffer fb0 bd.FrameBufferSize) [] 0 dd.CmdLists).1 },
        (renderLists bd.ScreenWidth bd.ScreenHeight bd.FontTextureId
            (clearBuffer fb0 bd.FrameBufferSize) [] 0 dd.CmdLists).2 ++
          [Effect.Blt (renderLists bd.ScreenWidth bd.ScreenHeight bd.FontTextureId
            (clearBuffer fb0 bd.FrameBufferSize) [] 0 dd.CmdLists).1 0 0 0 0
            bd.ScreenWidth bd.ScreenHeight 0]) := by
  unfold ImGui_ImplUefi_RenderDrawData
  rw [hfb]

/-- C28: for every non-null frame and every prior content of a non-null frame buffer whose
size covers the screen (`FrameBufferSize >= 4 * ScreenWidth * ScreenHeight`),
`ImGui_ImplUefi_RenderDrawData` yields the cleared buffer with the assignments of the
triangles of this frame applied: a cell below `ScreenWidth * ScreenHeight` that no triangle
of the frame assigns is zero, an empty frame gives zeros, the result on the screen does not
depend on the prior content; the effects are user callbacks followed by exactly one blit,
the last effect, of the resulting buffer with source and destination `(0, 0)` and extent
`ScreenWidth` by `ScreenHeight`. -/
theorem RenderDrawData_clear_and_blit (bd : ImGui_ImplUefi_Data) (fb0 : Buffer)
    (dd : ImDrawData) (hfb : bd.FrameBuffer = some fb0)
    (hsize : 4 * (bd.ScreenWidth * bd.ScreenHeight) ≤ bd.FrameBufferSize) :
    ∃ (fb : Buffer) (cbs : List Effect),
      ImGui_ImplUefi_RenderDrawData bd (some dd) =
        ({ bd with FrameBuffer := some fb },
          cbs ++ [Effect.Blt fb 0 0 0 0 bd.ScreenWidth bd.ScreenHeight 0]) ∧
      (∀ e ∈ cbs, Effect.isCallback e = true) ∧
      fb = applyWrites bd.ScreenWidth (clearBuffer fb0 bd.FrameBufferSize)
        (renderLists.writes bd.ScreenWidth bd.ScreenHeight dd.CmdLists) ∧
      (∀ p ∈ renderLists.writes bd.ScreenWidth bd.ScreenHeight dd.CmdLists,
        ∃ l ∈ dd.CmdLists, ∃ cmd ∈ l.CmdBuffer, ∃ idx,
          p ∈ renderCmd.writes bd.ScreenWidth bd.ScreenHeight l.VtxBuffer l.IdxBuffer idx cmd) ∧
      (∀ i, i < bd.ScreenWidth * bd.ScreenHeight →
        (∀ p ∈ renderLists.writes bd.ScreenWidth bd.ScreenHeight dd.CmdLists,
          cellIndex bd.ScreenWidth p.x p.y ≠ i) → fb i = 0) ∧
      (dd.CmdLists = [] → ∀ i, i < bd.ScreenWidth * bd.ScreenHeight → fb i = 0) ∧
      (∀ (fb1 : Buffer) (i : Nat), i < bd.ScreenWidth * bd.ScreenHeight →
        frameBufferAfter { bd with FrameBuffer := some fb1 } (some dd) i = fb i) := by
  obtain ⟨t1, cbs, t2, t3⟩ := renderLists_trace bd.ScreenWidth bd.ScreenHeight bd.FontTextureId
    dd.CmdLists (clearBuffer fb0 bd.FrameBufferSize) [] 0
  have hzero : ∀ (b : Buffer) (i : Nat), i < bd.ScreenWidth * bd.ScreenHeight →
      clearBuffer b bd.FrameBufferSize i = 0 := fun b i hi =>
    clearBuffer_zero b bd.FrameBufferSize (bd.ScreenWidth * bd.ScreenHeight) i hsize hi
  refine ⟨_, cbs, ?_, t3, t1, ?_, ?_, ?_, ?_⟩
  · rw [RenderDrawData_some bd fb0 dd hfb, t2, List.nil_append]
  · intro p hp
    exact mem_renderLists_writes _ _ _ p hp
  · intro i hi hno
    rw [t1, applyWrites_of_not_mem _ _ _ _ hno]
    exact hzero fb0 i hi
  · intro hempty i hi
    rw [t1, hempty]
    exact hzero fb0 i hi
  · intro fb1 i hi
    unfold frameBufferAfter
    rw [RenderDrawData_some { bd with FrameBuffer := some fb1 } fb1 dd rfl]
    simp only [Option.getD_some]
    rw [t1, (renderLists_trace bd.ScreenWidth bd.ScreenHeight bd.FontTextureId dd.CmdLists
      (clearBuffer fb1 bd.FrameBufferSize) [] 0).1]
    apply applyWrites_congr
    rw [hzero fb1 i hi, hzero fb0 i hi]

/-- C28, witness: the empty frame on a 4 by 4 screen whose frame buffer holds `9` in every
cell. -/
theorem RenderDrawData_clear_and_blit_witness :
    ∃ (fb : Buffer) (cbs : List Effect),
      ImGui_ImplUefi_RenderDrawData { exampleData 4 4 with FrameBuffer := some (fun _ => 9) }
          (some ⟨[]⟩) =
        ({ exampleData 4 4 with FrameBuffer := some fb },
          cbs ++ [Effect.Blt fb 0 0 0 0 4 4 0]) ∧
      ∀ i, i < 4 * 4 → fb i = 0 :=
  (RenderDrawData_clear_and_blit { exampleData 4 4 with FrameBuffer := some (fun _ => 9) }
    (fun _ => 9) ⟨[]⟩ rfl (by decide)).imp
    (fun fb h => h.imp (fun cbs h2 => ⟨h2.1, h2.2.2.2.2.2.1 rfl⟩))

/-- C29, counterexample: the example of the claim.  On a 20 by 20 screen the command with the
clip rectangle `(-1,-1) - (10,10)` has `clipX = clipY = -1` and `clipW = clipH = 11`, a
rectangle of positive width and height that overlaps the screen; the triangle `(0,0)`,
`(3,0)`, `(0,3)` is not on one side of it.  The command is rejected as a whole by
`clipX < 0 || clipY < 0 || ...`: no pixel is assigned and the frame buffer stays zero at
`(0, 0)`, while with the clip rectangle `(0,0) - (10,10)` the same triangle is drawn.  The
same holds for every clip rectangle with a negative left or top edge. -/
theorem RenderDrawData_negative_clip_origin :
    (∀ (W H : Nat) (clipX clipY clipW clipH : Int), clipX < 0 ∨ clipY < 0 →
      clipRejected W H clipX clipY clipW clipH = true) ∧
    F32.toInt32 (geometryCmd (-1) (-1) 10 10 3).ClipRect.x = -1 ∧
    F32.toInt32 (geometryCmd (-1) (-1) 10 10 3).ClipRect.y = -1 ∧
    F32.toInt32 (F32.sub (geometryCmd (-1) (-1) 10 10 3).ClipRect.z
      (geometryCmd (-1) (-1) 10 10 3).ClipRect.x) = 11 ∧
    F32.toInt32 (F32.sub (geometryCmd (-1) (-1) 10 10 3).ClipRect.w
      (geometryCmd (-1) (-1) 10 10 3).ClipRect.y) = 11 ∧
    triangleRejected (-1) (-1) 11 11 (vertexAt 0 0 0).pos (vertexAt 3 0 0).pos
      (vertexAt 0 3 0).pos = false ∧
    renderCmd.writes 20 20 [vertexAt 0 0 4294967295, vertexAt 3 0 4294967295,
      vertexAt 0 3 4294967295] [0, 1, 2] 0 (geometryCmd (-1) (-1) 10 10 3) = [] ∧
    frameBufferAfter (exampleData 20 20) (some (triangleFrame (-1) (-1) 10 10)) 0 = 0 ∧
    frameBufferAfter (exampleData 20 20) (some (triangleFrame 0 0 10 10)) 0 = 4294967295 := by
  refine ⟨?_, by decide, by decide, by decide, by decide, by decide, by decide, by decide,
    by decide⟩
  intro W H clipX clipY clipW clipH h
  unfold clipRejected
  rcases h with h | h
  · simp [h]
  · simp [h]

/-- The rejection test of a geometry command on a screen with
`ScreenWidth, ScreenHeight < 2^31`, where the casts `(INT32)ScreenWidth` and
`(INT32)ScreenHeight` keep the value. -/
theorem clipRejected_iff (W H : Nat) (clipX clipY clipW clipH : Int)
    (hW : W < 2147483648) (hH : H < 2147483648) :
    clipRejected W H clipX clipY clipW clipH = true ↔
      clipX < 0 ∨ clipY < 0 ∨ clipW ≤ 0 ∨ clipH ≤ 0 ∨ (W : Int) ≤ clipX ∨ (H : Int) ≤ clipY := by
  have hwW : wrapI32 (W : Int) = (W : Int) := wrapI32_of_range _ (by omega) (by omega)
  have hwH : wrapI32 (H : Int) = (H : Int) := wrapI32_of_range _ (by omega) (by omega)
  unfold clipRejected
  rw [hwW, hwH]
  simp only [Bool.or_eq_true, decide_eq_true_eq, ge_iff_le]
  omega

/-- C29, amended: for a geometry command on a screen with `ScreenWidth, ScreenHeight < 2^31`
and the clip rectangle converted to `INT32` values `clipX`, `clipY`,
`clipW = (INT32)(z - x)`, `clipH = (INT32)(w - y)`.  The command is rejected as a whole
exactly when `clipX < 0`, `clipY < 0`, `clipW <= 0`, `clipH <= 0`, `clipX >= ScreenWidth`
or `clipY >= ScreenHeight`; a rejected command leaves frame buffer, index cursor and effects
as they are and assigns no pixel.  A command with `0 <= clipX < ScreenWidth`,
`0 <= clipY < ScreenHeight`, `clipW > 0` and `clipH > 0` runs the triangle loop over
`i = 0, 3, 6, ... < ElemCount`, which leaves the frame buffer as it is for a triangle whose
three vertices are on one side of the rectangle and calls `FillTriangle` for every other
triangle. -/
theorem renderCmd_clip_rejection (W H font : Nat) (vtx : List ImDrawVert) (idxBuf : List Nat)
    (n : Nat) (st : CmdState) (cmd_i : Nat) (cmd : ImDrawCmd) (clipX clipY clipW clipH : Int)
    (hW : W < 2147483648) (hH : H < 2147483648)
    (hc : cmd.UserCallback = none)
    (hX : clipX = F32.toInt32 cmd.ClipRect.x) (hY : clipY = F32.toInt32 cmd.ClipRect.y)
    (hCW : clipW = F32.toInt32 (F32.sub cmd.ClipRect.z cmd.ClipRect.x))
    (hCH : clipH = F32.toInt32 (F32.sub cmd.ClipRect.w cmd.ClipRect.y)) :
    (clipRejected W H clipX clipY clipW clipH = true ↔
      clipX < 0 ∨ clipY < 0 ∨ clipW ≤ 0 ∨ clipH ≤ 0 ∨ (W : Int) ≤ clipX ∨ (H : Int) ≤ clipY) ∧
    (clipX < 0 ∨ clipY < 0 ∨ clipW ≤ 0 ∨ clipH ≤ 0 ∨ (W : Int) ≤ clipX ∨ (H : Int) ≤ clipY →
      renderCmd W H font vtx idxBuf n st cmd_i cmd = st ∧
      renderCmd.writes W H vtx idxBuf st.idx cmd = []) ∧
    (0 ≤ clipX ∧ clipX < (W : Int) ∧ 0 ≤ clipY ∧ clipY < (H : Int) ∧ 0 < clipW ∧ 0 < clipH →
      (renderCmd W H font vtx idxBuf n st cmd_i cmd).fb =
        ((List.range ((cmd.ElemCount + 2) / 3)).map (fun k => 3 * k)).foldl
          (renderTriangle W H font cmd vtx idxBuf st.idx clipX clipY clipW clipH) st.fb ∧
      (renderCmd W H font vtx idxBuf n st cmd_i cmd).idx = st.idx + cmd.ElemCount ∧
      (renderCmd W H font vtx idxBuf n st cmd_i cmd).effects = st.effects) ∧
    (∀ (fb : Buffer) (i : Nat) (v0 v1 v2 : ImDrawVert),
      v0 = vtx.getD (idxBuf.getD (st.idx + i + 0) 0) default →
      v1 = vtx.getD (idxBuf.getD (st.idx + i + 1) 0) default →
      v2 = vtx.getD (idxBuf.getD (st.idx + i + 2) 0) default →
      (triangleRejected clipX clipY clipW clipH v0.pos v1.pos v2.pos = true →
        renderTriangle W H font cmd vtx idxBuf st.idx clipX clipY clipW clipH fb i = fb) ∧
      (triangleRejected clipX clipY clipW clipH v0.pos v1.pos v2.pos = false →
        renderTriangle W H font cmd vtx idxBuf st.idx clipX clipY clipW clipH fb i =
          FillTriangle fb W H v0.pos v1.pos v2.pos v0.col v1.col v2.col)) := by
  have hiff := clipRejected_iff W H clipX clipY clipW clipH hW hH
  refine ⟨hiff, ?_, ?_, ?_⟩
  · intro hcond
    have hrej := hiff.2 hcond
    rw [hX, hY, hCW, hCH] at hrej
    constructor
    · unfold renderCmd
      rw [hc]
      simp only
      rw [if_pos hrej]
    · unfold renderCmd.writes
      rw [hc]
      simp only
      rw [if_pos hrej]
  · intro hcond
    have hrej : ¬ clipRejected W H clipX clipY clipW clipH = true := by
      rw [hiff]
      omega
    rw [hX, hY, hCW, hCH] at hrej
    subst hX hY hCW hCH
    unfold renderCmd
    rw [hc]
    simp only
    rw [if_neg hrej]
    exact ⟨rfl, rfl, rfl⟩
  · intro fb i v0 v1 v2 e0 e1 e2
    subst e0 e1 e2
    unfold renderTriangle
    simp only
    constructor
    · intro h
      rw [if_pos h]
    · intro h
      rw [if_neg (by rw [h]; simp)]
      split_ifs <;> rfl

/-- C29, amended, witness: on a 20 by 20 screen the command with the clip rectangle
`(-1,-1) - (10,10)` is rejected and leaves the state of the command loop as it is; the
command with the clip rectangle `(0,0) - (10,10)` advances the index cursor by its three
indices, and its triangle `(0,0)`, `(3,0)`, `(0,3)` is drawn by `FillTriangle`. -/
theorem renderCmd_clip_rejection_witness :
    (renderCmd 20 20 1 [vertexAt 0 0 4294967295, vertexAt 3 0 4294967295,
        vertexAt 0 3 4294967295] [0, 1, 2] 0 ⟨fun _ => 0, 0, []⟩ 0
        (geometryCmd (-1) (-1) 10 10 3)).idx = 0 ∧
    (renderCmd 20 20 1 [vertexAt 0 0 4294967295, vertexAt 3 0 4294967295,
        vertexAt 0 3 4294967295] [0, 1, 2] 0 ⟨fun _ => 0, 0, []⟩ 0
        (geometryCmd 0 0 10 10 3)).idx = 3 ∧
    renderTriangle 20 20 1 (geometryCmd 0 0 10 10 3) [vertexAt 0 0 4294967295,
        vertexAt 3 0 4294967295, vertexAt 0 3 4294967295] [0, 1, 2] 0 0 0 10 10
        (fun _ => 0) 0 =
      FillTriangle (fun _ => 0) 20 20 (vertexAt 0 0 4294967295).pos
        (vertexAt 3 0 4294967295).pos (vertexAt 0 3 4294967295).pos
        4294967295 4294967295 4294967295 :=
  ⟨congrArg CmdState.idx
      ((renderCmd_clip_rejection 20 20 1 [vertexAt 0 0 4294967295, vertexAt 3 0 4294967295,
        vertexAt 0 3 4294967295] [0, 1, 2] 0 ⟨fun _ => 0, 0, []⟩ 0
        (geometryCmd (-1) (-1) 10 10 3) (-1) (-1) 11 11 (by decide) (by decide) rfl
        (by decide) (by decide) (by decide) (by decide)).2.1 (Or.inl (by decide))).1,
    ((renderCmd_clip_rejection 20 20 1 [vertexAt 0 0 4294967295, vertexAt 3 0 4294967295,
        vertexAt 0 3 4294967295] [0, 1, 2] 0 ⟨fun _ => 0, 0, []⟩ 0
        (geometryCmd 0 0 10 10 3) 0 0 10 10 (by decide) (by decide) rfl
        (by decide) (by decide) (by decide) (by decide)).2.2.1
        ⟨by decide, by decide, by decide, by decide, by decide, by decide⟩).2.1,
    ((renderCmd_clip_rejection 20 20 1 [vertexAt 0 0 4294967295, vertexAt 3 0 4294967295,
        vertexAt 0 3 4294967295] [0, 1, 2] 0 ⟨fun _ => 0, 0, []⟩ 0
        (geometryCmd 0 0 10 10 3) 0 0 10 10 (by decide) (by decide) rfl
        (by decide) (by decide) (by decide) (by decide)).2.2.2 (fun _ => 0) 0
        (vertexAt 0 0 4294967295) (vertexAt 3 0 4294967295) (vertexAt 0 3 4294967295)
        rfl rfl rfl).2 (by decide)⟩

/-! ## Binary32 arithmetic: symmetries and exact cases -/

theorem F32.rne_zero (k : Nat) : F32.rne 0 k = 0 := by
  unfold F32.rne
  have hh : 0 < 2 ^ (k - 1) := Nat.pos_pow_of_pos _ (by decide)
  simp only [Nat.zero_div, Nat.zero_mod]
  rw [if_neg]
  rintro (h | ⟨h, -⟩) <;> omega

theorem F32.round_neg (m e : Int) : F32.round (-m) e = F32.neg (F32.round m e) := by
  unfold F32.round F32.neg
  simp only [Int.natAbs_neg]
  split
  · rfl
  · rcases lt_trichotomy m 0 with h | h | h
    · rw [if_neg (by omega), if_pos h]
      simp
    · subst h
      simp [F32.rne_zero]
    · rw [if_pos (by omega), if_neg (by omega)]

theorem F32.round_zero_m (e : Int) : (F32.round 0 e).m = 0 := by
  unfold F32.round
  simp only
  split
  · rfl
  · simp [F32.rne_zero]

theorem F32.round_m_nonneg (m e : Int) (hm : 0 ≤ m) : 0 ≤ (F32.round m e).m := by
  have h1 := F32.round_m_nonpos (-m) e (by omega)
  rw [F32.round_neg] at h1
  unfold F32.neg at h1
  simp only at h1
  omega

theorem F32.add_comm (x y : F32) : F32.add x y = F32.add y x := by
  unfold F32.add
  simp only
  rw [min_comm y.e x.e, Int.add_comm]

theorem F32.mul_comm (x y : F32) : F32.mul x y = F32.mul y x := by
  unfold F32.mul
  rw [Int.mul_comm, Int.add_comm]

theorem F32.mul_neg_left (x y : F32) : F32.mul (F32.neg x) y = F32.neg (F32.mul x y) := by
  unfold F32.mul
  have h : (F32.neg x).m * y.m = -(x.m * y.m) := by
    unfold F32.neg
    simp
  have h2 : (F32.neg x).e = x.e := rfl
  rw [h, h2, F32.round_neg]

theorem F32.mul_neg_right (x y : F32) : F32.mul x (F32.neg y) = F32.neg (F32.mul x y) := by
  rw [F32.mul_comm, F32.mul_neg_left, F32.mul_comm]

theorem F32.neg_neg (x : F32) : F32.neg (F32.neg x) = x := by
  unfold F32.neg
  simp

theorem F32.sub_swap (x y : F32) : F32.sub y x = F32.neg (F32.sub x y) := by
  unfold F32.sub F32.add
  have h1 : (F32.neg x).e = x.e := rfl
  have h2 : (F32.neg y).e = y.e := rfl
  have h3 : (F32.neg x).m = -x.m := rfl
  have h4 : (F32.neg y).m = -y.m := rfl
  simp only [h1, h2, h3, h4]
  rw [min_comm y.e x.e, ← F32.round_neg]
  congr 1
  ring

theorem F32.add_neg_self_m (x : F32) : (F32.add x (F32.neg x)).m = 0 := by
  unfold F32.add
  have h1 : (F32.neg x).e = x.e := rfl
  have h3 : (F32.neg x).m = -x.m := rfl
  simp only [h1, h3, min_self]
  have : x.m * 2 ^ (x.e - x.e).toNat + -x.m * 2 ^ (x.e - x.e).toNat = 0 := by ring
  rw [this]
  exact F32.round_zero_m _

theorem F32.add_m_zero (x y : F32) (hx : x.m = 0) (hy : y.m = 0) : (F32.add x y).m = 0 := by
  unfold F32.add
  simp only [hx, hy, zero_mul, add_zero]
  exact F32.round_zero_m _

theorem F32.add_m_nonneg (x y : F32) (hx : 0 ≤ x.m) (hy : 0 ≤ y.m) : 0 ≤ (F32.add x y).m := by
  unfold F32.add
  apply F32.round_m_nonneg
  positivity

theorem F32.sub_self_m (x : F32) : (F32.sub x x).m = 0 := F32.add_neg_self_m x

theorem F32.mul_m_zero_left (x y : F32) (hx : x.m = 0) : (F32.mul x y).m = 0 := by
  unfold F32.mul
  rw [hx, zero_mul]
  exact F32.round_zero_m _

theorem F32.mul_m_zero_right (x y : F32) (hy : y.m = 0) : (F32.mul x y).m = 0 := by
  rw [F32.mul_comm]
  exact F32.mul_m_zero_left y x hy

theorem F32.div_m_zero (x y : F32) (hx : x.m = 0) : (F32.div x y).m = 0 := by
  unfold F32.div
  simp only [hx]
  split
  · rfl
  · simp only [Int.natAbs_zero, Nat.zero_mul, Nat.zero_div, Nat.zero_mod, if_true, Nat.mul_zero,
      Nat.add_zero, Nat.cast_zero, neg_zero, ite_self]
    exact F32.round_zero_m _

/-- A non-zero float divided by itself is exactly one. -/
theorem F32.div_self (d : F32) (h : d.m ≠ 0) : F32.div d d = ⟨8388608, -23⟩ := by
  unfold F32.div
  have hb : d.m.natAbs ≠ 0 := by omega
  have hpos : 0 < d.m.natAbs := by omega
  simp only
  rw [if_neg hb]
  have hk : 26 + bitLen d.m.natAbs - bitLen d.m.natAbs = 26 := by omega
  rw [hk, Nat.mul_div_cancel_left _ hpos, Nat.mul_mod_right]
  simp only [if_true, bne_self_eq_false, Bool.false_eq_true, if_false]
  have he : d.e - d.e - ((26 : Nat) : Int) - 1 = -27 := by omega
  rw [he]
  decide

theorem F32.ge_ofInt_zero (x : F32) (h : 0 ≤ x.m) : F32.ge x (F32.ofInt 0) = true := by
  rw [F32.ge_iff, F32.toRat_ofInt_zero]
  exact F32.toRat_nonneg_of_m_nonneg x h

theorem bitLen_two_pow (j : Nat) : bitLen (2 ^ j) = j + 1 := by
  obtain ⟨h1, h2, h3⟩ := bitLen_spec (2 ^ j) (Nat.pos_pow_of_pos _ (by decide))
  have a1 : bitLen (2 ^ j) - 1 ≤ j := (Nat.pow_le_pow_iff_right (by decide)).1 h1
  have a2 : j < bitLen (2 ^ j) := (Nat.pow_lt_pow_iff_right (by decide)).1 h2
  omega

/-- Rounding the exact value one, given as `2^j * 2^(-j)`, yields one. -/
theorem F32.round_two_pow (j : Nat) (e : Int) (he : e = -(j : Int)) :
    (F32.round (2 ^ j) e).toRat = 1 := by
  subst he
  unfold F32.round
  have hn : ((2 : Int) ^ j).natAbs = 2 ^ j := by
    rw [Int.natAbs_pow]
    rfl
  simp only [hn, bitLen_two_pow]
  split
  · unfold F32.toRat
    simp only
    push_cast
    rw [zpow_neg, zpow_natCast]
    exact mul_inv_cancel₀ (by positivity)
  · rename_i hs
    have hj : 24 ≤ j := by
      by_contra hc
      apply hs
      simp only [max_le_iff]
      constructor <;> push_cast <;> omega
    have hmax : max ((((j + 1 : Nat) : Int)) - 24) (-149 - -(j : Int)) = (j : Int) - 23 := by
      rw [max_eq_left (by push_cast; omega)]
      push_cast
      omega
    rw [hmax]
    have hpos : ¬ ((2 : Int) ^ j < 0) := by
      have : (0 : Int) < 2 ^ j := by positivity
      omega
    rw [if_neg hpos]
    have htn : ((j : Int) - 23).toNat = j - 23 := by omega
    rw [htn]
    have hr : F32.rne (2 ^ j) (j - 23) = 2 ^ 23 := by
      unfold F32.rne
      have hsplit : 2 ^ j = 2 ^ 23 * 2 ^ (j - 23) := by
        rw [← Nat.pow_add]
        congr 1
        omega
      have hp : 0 < 2 ^ (j - 23) := Nat.pos_pow_of_pos _ (by decide)
      have hq : 2 ^ j / 2 ^ (j - 23) = 2 ^ 23 := by
        rw [hsplit]
        exact Nat.mul_div_cancel _ hp
      have hm : 2 ^ j % 2 ^ (j - 23) = 0 := by
        rw [hsplit]
        exact Nat.mul_mod_left _ _
      have hh : 0 < 2 ^ (j - 23 - 1) := Nat.pos_pow_of_pos _ (by decide)
      simp only [hq, hm]
      rw [if_neg]
      rintro (h | ⟨h, -⟩) <;> omega
    rw [hr]
    unfold F32.toRat
    simp only
    have he2 : -(j : Int) + ((j : Int) - 23) = -23 := by omega
    rw [he2]
    norm_num

/-- The difference of two floats that denote the same number is a zero. -/
theorem F32.sub_m_zero_of_toRat_eq (x y : F32) (h : x.toRat = y.toRat) :
    (F32.sub x y).m = 0 := by
  unfold F32.sub F32.add
  have h1 : (F32.neg y).e = y.e := rfl
  have h2 : (F32.neg y).m = -y.m := rfl
  simp only [h1, h2]
  have hx := F32.toRat_eq_scaled x (min x.e y.e) (min_le_left _ _)
  have hy := F32.toRat_eq_scaled y (min x.e y.e) (min_le_right _ _)
  rw [hx, hy] at h
  have hne : (2 : ℚ) ^ (min x.e y.e) ≠ 0 := zpow_ne_zero _ (by norm_num)
  have h3 := mul_right_cancel₀ hne h
  have h4 : x.m * 2 ^ (x.e - min x.e y.e).toNat = y.m * 2 ^ (y.e - min x.e y.e).toNat := by
    exact_mod_cast h3
  have h5 : x.m * 2 ^ (x.e - min x.e y.e).toNat + -y.m * 2 ^ (y.e - min x.e y.e).toNat = 0 := by
    rw [h4]
    ring
  rw [h5]
  exact F32.round_zero_m _

theorem F32.ofInt_one : F32.ofInt 1 = ⟨1, 0⟩ := by decide

/-- One minus a zero is one. -/
theorem F32.one_sub_zero (a : F32) (h : a.m = 0) : (F32.sub (F32.ofInt 1) a).toRat = 1 := by
  rw [F32.ofInt_one]
  unfold F32.sub F32.add
  have h1 : (F32.neg a).e = a.e := rfl
  have h2 : (F32.neg a).m = 0 := by
    unfold F32.neg
    simp [h]
  simp only [h1, h2, zero_mul, add_zero, one_mul]
  apply F32.round_two_pow
  have : min (0 : Int) a.e ≤ 0 := min_le_left _ _
  omega

theorem F32.one_toRat : (⟨8388608, -23⟩ : F32).toRat = 1 := by
  unfold F32.toRat
  norm_num

theorem F32.toRat_ImMin_le (a b : F32) :
    (ImMin a b).toRat ≤ a.toRat ∧ (ImMin a b).toRat ≤ b.toRat := by
  unfold ImMin
  by_cases h : F32.lt a b = true
  · rw [if_pos h]
    have := (F32.lt_iff a b).1 h
    exact ⟨le_refl _, le_of_lt this⟩
  · rw [if_neg h]
    have h2 : ¬ a.toRat < b.toRat := fun hc => h ((F32.lt_iff a b).2 hc)
    exact ⟨not_lt.1 h2, le_refl _⟩

theorem F32.le_toRat_ImMax (a b : F32) :
    a.toRat ≤ (ImMax a b).toRat ∧ b.toRat ≤ (ImMax a b).toRat := by
  unfold ImMax
  by_cases h : F32.ge a b = true
  · rw [if_pos h]
    exact ⟨le_refl _, (F32.ge_iff a b).1 h⟩
  · rw [if_neg h]
    have h2 : ¬ b.toRat ≤ a.toRat := fun hc => h ((F32.ge_iff a b).2 hc)
    exact ⟨le_of_lt (not_le.1 h2), le_refl _⟩

theorem ImMax_cases (a b : F32) : ImMax a b = a ∨ ImMax a b = b := by
  unfold ImMax
  split
  · exact Or.inl rfl
  · exact Or.inr rfl

/-- The conversion `(INT32)u` of a number that is at most the non-negative integer `x` is at
most `x`. -/
theorem F32.toInt32_le_of_toRat_le (u : F32) (x : Int) (hx : 0 ≤ x) (h : u.toRat ≤ (x : ℚ)) :
    F32.toInt32 u ≤ x := by
  have hb := F32.trunc_bounds u
  have ht : F32.trunc u ≤ x := by
    by_contra hc
    have h1 : x + 1 ≤ F32.trunc u := by omega
    have h1q : (x : ℚ) + 1 ≤ ((F32.trunc u : Int) : ℚ) := by exact_mod_cast h1
    linarith [hb.1]
  unfold F32.toInt32
  split
  · exact ht
  · omega

/-- The conversion `(INT32)v` of a number below `2^31` that is at least the non-negative
integer `x` is at least `x`. -/
theorem F32.le_toInt32_of_le_toRat (v : F32) (x : Int) (hx : 0 ≤ x) (h : (x : ℚ) ≤ v.toRat)
    (hr : v.toRat < 2147483648) : x ≤ F32.toInt32 v := by
  have hb := F32.trunc_bounds v
  have hxq : (0 : ℚ) ≤ (x : ℚ) := by exact_mod_cast hx
  have ht : x ≤ F32.trunc v := by
    by_contra hc
    have h1 : F32.trunc v + 1 ≤ x := by omega
    have h1q : ((F32.trunc v : Int) : ℚ) + 1 ≤ (x : ℚ) := by exact_mod_cast h1
    linarith [hb.2.1]
  have ht2 : F32.trunc v ≤ 2147483647 := by
    by_contra hc
    have h1 : (2147483648 : Int) ≤ F32.trunc v := by omega
    have h1q : (2147483648 : ℚ) ≤ ((F32.trunc v : Int) : ℚ) := by exact_mod_cast h1
    linarith [hb.2.2 (le_trans hxq h)]
  unfold F32.toInt32
  rw [if_pos ⟨by omega, ht2⟩]
  exact ht

/-! ## Vertices of a triangle -/

theorem FillTriangle.denom_m_ne_zero (p0 p1 p2 : ImVec2)
    (hnd : FillTriangle.degenerate p0 p1 p2 = false) : (FillTriangle.denom p0 p1 p2).m ≠ 0 := by
  intro h0
  have hz : (FillTriangle.denom p0 p1 p2).toRat = 0 := by
    unfold F32.toRat
    rw [h0]
    simp
  have hdeg := (FillTriangle.degenerate_iff p0 p1 p2).2
    ⟨by rw [hz]; linarith [F32.eps_pos], by rw [hz]; exact F32.eps_pos⟩
  rw [hnd] at hdeg
  cases hdeg

theorem FillTriangle.inside_of_weights (p0 p1 p2 : ImVec2) (x y : Int)
    (ha : 0 ≤ (FillTriangle.a p0 p1 p2 x y).m) (hb : 0 ≤ (FillTriangle.b p0 p1 p2 x y).m)
    (hc : 0 ≤ (FillTriangle.c p0 p1 p2 x y).m) : FillTriangle.inside p0 p1 p2 x y = true := by
  unfold FillTriangle.inside
  rw [F32.ge_ofInt_zero _ ha, F32.ge_ofInt_zero _ hb, F32.ge_ofInt_zero _ hc]
  rfl

/-- At the first vertex the weights are `a = 1`, `b = 0`, `c = 0`. -/
theorem FillTriangle.inside_vertex0 (p0 p1 p2 : ImVec2) (x y : Int)
    (hx : p0.x = F32.ofInt x) (hy : p0.y = F32.ofInt y)
    (hd : (FillTriangle.denom p0 p1 p2).m ≠ 0) : FillTriangle.inside p0 p1 p2 x y = true := by
  have ha : FillTriangle.a p0 p1 p2 x y = ⟨8388608, -23⟩ := by
    unfold FillTriangle.a
    rw [← hx, ← hy]
    exact F32.div_self _ hd
  have hb : (FillTriangle.b p0 p1 p2 x y).m = 0 := by
    unfold FillTriangle.b
    rw [← hx, ← hy]
    apply F32.div_m_zero
    rw [F32.sub_swap p0.y p2.y, F32.mul_neg_left,
      F32.mul_comm (F32.sub p0.x p2.x) (F32.sub p0.y p2.y), F32.add_comm]
    exact F32.add_neg_self_m _
  have hc : (FillTriangle.c p0 p1 p2 x y).m = 0 := by
    unfold FillTriangle.c
    rw [ha]
    have hz : (F32.sub (F32.ofInt 1) ⟨8388608, -23⟩).m = 0 := by decide
    unfold F32.sub
    apply F32.add_m_zero _ _ hz
    unfold F32.neg
    simp [hb]
  apply FillTriangle.inside_of_weights
  · rw [ha]
    decide
  · omega
  · omega

/-- At the second vertex the weights are `a = 0`, `b = 1`, `c = 0`. -/
theorem FillTriangle.inside_vertex1 (p0 p1 p2 : ImVec2) (x y : Int)
    (hx : p1.x = F32.ofInt x) (hy : p1.y = F32.ofInt y)
    (hd : (FillTriangle.denom p0 p1 p2).m ≠ 0) : FillTriangle.inside p0 p1 p2 x y = true := by
  have ha : (FillTriangle.a p0 p1 p2 x y).m = 0 := by
    unfold FillTriangle.a
    rw [← hx, ← hy]
    apply F32.div_m_zero
    rw [F32.sub_swap p1.x p2.x, F32.mul_neg_left,
      F32.mul_comm (F32.sub p1.x p2.x) (F32.sub p1.y p2.y)]
    exact F32.add_neg_self_m _
  have hb : FillTriangle.b p0 p1 p2 x y = ⟨8388608, -23⟩ := by
    unfold FillTriangle.b
    rw [← hx, ← hy]
    have e1 : F32.mul (F32.sub p2.y p0.y) (F32.sub p1.x p2.x) =
        F32.mul (F32.sub p2.x p1.x) (F32.sub p0.y p2.y) := by
      rw [F32.sub_swap p0.y p2.y, F32.sub_swap p1.x p2.x, F32.mul_neg_left, F32.mul_neg_left,
        F32.mul_comm]
    have e2 : F32.add (F32.mul (F32.sub p2.y p0.y) (F32.sub p1.x p2.x))
        (F32.mul (F32.sub p0.x p2.x) (F32.sub p1.y p2.y)) = FillTriangle.denom p0 p1 p2 := by
      unfold FillTriangle.denom
      rw [e1, F32.mul_comm (F32.sub p0.x p2.x) (F32.sub p1.y p2.y), F32.add_comm]
    rw [e2]
    exact F32.div_self _ hd
  have hc : (FillTriangle.c p0 p1 p2 x y).m = 0 := by
    unfold FillTriangle.c
    rw [hb]
    apply F32.sub_m_zero_of_toRat_eq
    rw [F32.one_sub_zero _ ha, F32.one_toRat]
  apply FillTriangle.inside_of_weights
  · omega
  · rw [hb]
    decide
  · omega

/-- At the third vertex the weights are `a = 0`, `b = 0`, `c = 1`. -/
theorem FillTriangle.inside_vertex2 (p0 p1 p2 : ImVec2) (x y : Int)
    (hx : p2.x = F32.ofInt x) (hy : p2.y = F32.ofInt y) :
    FillTriangle.inside p0 p1 p2 x y = true := by
  have ha : (FillTriangle.a p0 p1 p2 x y).m = 0 := by
    unfold FillTriangle.a
    rw [← hx, ← hy]
    apply F32.div_m_zero
    exact F32.add_m_zero _ _ (F32.mul_m_zero_right _ _ (F32.sub_self_m _))
      (F32.mul_m_zero_right _ _ (F32.sub_self_m _))
  have hb : (FillTriangle.b p0 p1 p2 x y).m = 0 := by
    unfold FillTriangle.b
    rw [← hx, ← hy]
    apply F32.div_m_zero
    exact F32.add_m_zero _ _ (F32.mul_m_zero_right _ _ (F32.sub_self_m _))
      (F32.mul_m_zero_right _ _ (F32.sub_self_m _))
  have hn : ∀ z : F32, z.m = 0 → 0 ≤ (F32.neg z).m := by
    intro z hz
    unfold F32.neg
    simp [hz]
  have hc : 0 ≤ (FillTriangle.c p0 p1 p2 x y).m := by
    unfold FillTriangle.c F32.sub
    apply F32.add_m_nonneg _ _ _ (hn _ hb)
    apply F32.add_m_nonneg _ _ _ (hn _ ha)
    rw [F32.ofInt_one]
    decide
  apply FillTriangle.inside_of_weights
  · omega
  · omega
  · exact hc

/-- The integer bounding box of three floats contains every non-negative integer among
them, when the floats are below `2^31`. -/
theorem bbox_contains (a b c : F32) (x : Int) (hx : 0 ≤ x)
    (hv : a.toRat = (x : ℚ) ∨ b.toRat = (x : ℚ) ∨ c.toRat = (x : ℚ))
    (ha : a.toRat < 2147483648) (hb : b.toRat < 2147483648) (hc : c.toRat < 2147483648) :
    F32.toInt32 (ImMin (ImMin a b) c) ≤ x ∧ x ≤ F32.toInt32 (ImMax (ImMax a b) c) := by
  have m1 := F32.toRat_ImMin_le (ImMin a b) c
  have m2 := F32.toRat_ImMin_le a b
  have M1 := F32.le_toRat_ImMax (ImMax a b) c
  have M2 := F32.le_toRat_ImMax a b
  have hr : (ImMax (ImMax a b) c).toRat < 2147483648 := by
    rcases ImMax_cases (ImMax a b) c with h | h
    · rw [h]
      rcases ImMax_cases a b with h2 | h2
      · rw [h2]; exact ha
      · rw [h2]; exact hb
    · rw [h]; exact hc
  constructor
  · apply F32.toInt32_le_of_toRat_le _ x hx
    rcases hv with h | h | h <;> linarith [m1.1, m1.2, m2.1, m2.2]
  · apply F32.le_toInt32_of_le_toRat _ x hx _ hr
    rcases hv with h | h | h <;> linarith [M1.1, M1.2, M2.1, M2.2]

/-- C30, evaluation: in a 4 by 4 buffer the call with the vertices `(0,0)`, `(3,0)`,
`(0,3)` leaves the cells `(1,0)` and `(2,0)` unfilled and fills `(0,1)` and `(0,2)`; the
call with the same points in the order `(0,0)`, `(0,3)`, `(3,0)` fills `(1,0)` and `(2,0)`
and leaves `(0,1)` and `(0,2)` unfilled. -/
theorem FillTriangle_order_dependent :
    (FillTriangle.writes 4 4 (vertexAt 0 0 0).pos (vertexAt 3 0 0).pos (vertexAt 0 3 0).pos
        1).map (fun p => (p.x, p.y)) =
      [(0, 0), (3, 0), (0, 1), (1, 1), (2, 1), (0, 2), (1, 2), (0, 3)] ∧
    (FillTriangle.writes 4 4 (vertexAt 0 0 0).pos (vertexAt 0 3 0).pos (vertexAt 3 0 0).pos
        1).map (fun p => (p.x, p.y)) =
      [(0, 0), (1, 0), (2, 0), (3, 0), (1, 1), (2, 1), (1, 2), (0, 3)] ∧
    FillTriangle (fun _ => 0) 4 4 (vertexAt 0 0 0).pos (vertexAt 3 0 0).pos
      (vertexAt 0 3 0).pos 1 1 1 (cellIndex 4 1 0) = 0 ∧
    FillTriangle (fun _ => 0) 4 4 (vertexAt 0 0 0).pos (vertexAt 0 3 0).pos
      (vertexAt 3 0 0).pos 1 1 1 (cellIndex 4 1 0) = 1 := by
  decide

/-- Vertices are filled: for a buffer with `w, h < 2^31` and three points whose coordinates are
below `2^31`, in whatever order they are passed, a call of `FillTriangle` that does not take
the triangle for degenerate fills the cell of each of the three points that has integer
coordinates `(x, y)` inside the buffer, with the colour passed first. -/
theorem FillTriangle_fills_vertex (buffer : Buffer) (w h : Nat) (p0 p1 p2 : ImVec2)
    (col0 col1 col2 : Nat) (x y : Int)
    (hw : w < 2147483648) (hh : h < 2147483648)
    (hnd : FillTriangle.degenerate p0 p1 p2 = false)
    (hx : 0 ≤ x ∧ x < (w : Int)) (hy : 0 ≤ y ∧ y < (h : Int))
    (hex : (F32.ofInt x).toRat = (x : ℚ) ∧ (F32.ofInt y).toRat = (y : ℚ))
    (hv : (p0.x = F32.ofInt x ∧ p0.y = F32.ofInt y) ∨ (p1.x = F32.ofInt x ∧ p1.y = F32.ofInt y) ∨
      (p2.x = F32.ofInt x ∧ p2.y = F32.ofInt y))
    (hr : ∀ c ∈ [p0.x, p1.x, p2.x, p0.y, p1.y, p2.y], c.toRat < 2147483648) :
    FillTriangle buffer w h p0 p1 p2 col0 col1 col2 (cellIndex w x y) = col0 := by
  have hd := FillTriangle.denom_m_ne_zero p0 p1 p2 hnd
  have hin : FillTriangle.inside p0 p1 p2 x y = true := by
    rcases hv with hv | hv | hv
    · exact FillTriangle.inside_vertex0 p0 p1 p2 x y hv.1 hv.2 hd
    · exact FillTriangle.inside_vertex1 p0 p1 p2 x y hv.1 hv.2 hd
    · exact FillTriangle.inside_vertex2 p0 p1 p2 x y hv.1 hv.2
  have hbx := bbox_contains p0.x p1.x p2.x x hx.1
    (by rcases hv with hv | hv | hv
        · exact Or.inl (by rw [hv.1]; exact hex.1)
        · exact Or.inr (Or.inl (by rw [hv.1]; exact hex.1))
        · exact Or.inr (Or.inr (by rw [hv.1]; exact hex.1)))
    (hr _ (by simp)) (hr _ (by simp)) (hr _ (by simp))
  have hby := bbox_contains p0.y p1.y p2.y y hy.1
    (by rcases hv with hv | hv | hv
        · exact Or.inl (by rw [hv.2]; exact hex.2)
        · exact Or.inr (Or.inl (by rw [hv.2]; exact hex.2))
        · exact Or.inr (Or.inr (by rw [hv.2]; exact hex.2)))
    (hr _ (by simp)) (hr _ (by simp)) (hr _ (by simp))
  have hcx : FillTriangle.minX p0 p1 p2 ≤ x ∧ x ≤ FillTriangle.maxX w p0 p1 p2 := by
    unfold FillTriangle.minX FillTriangle.maxX bboxMinX bboxMaxX
    rw [ImMaxI_eq_max, ImMinI_eq_min, clamp_upper_eq w hw]
    simp only [max_le_iff, le_min_iff]
    exact ⟨⟨hbx.1, hx.1⟩, hbx.2, by omega⟩
  have hcy : FillTriangle.minY p0 p1 p2 ≤ y ∧ y ≤ FillTriangle.maxY h p0 p1 p2 := by
    unfold FillTriangle.minY FillTriangle.maxY bboxMinY bboxMaxY
    rw [ImMaxI_eq_max, ImMinI_eq_min, clamp_upper_eq h hh]
    simp only [max_le_iff, le_min_iff]
    exact ⟨⟨hby.1, hy.1⟩, hby.2, by omega⟩
  rw [FillTriangle_eq_applyWrites]
  apply applyWrites_of_mem w col0
  · intro p hp
    exact ((mem_FillTriangle_writes w h p0 p1 p2 col0 p).1 hp).2.2.2.2
  · exact ⟨⟨x, y, col0⟩,
      (mem_FillTriangle_writes w h p0 p1 p2 col0 _).2 ⟨hcx, hcy, hnd, hin, rfl⟩, rfl⟩

theorem F32.toRat_mk_zero_exp (m : Int) : (⟨m, 0⟩ : F32).toRat = (m : ℚ) := by
  unfold F32.toRat
  simp

/-- An instance of `FillTriangle_fills_vertex`: the vertex `(3, 0)` of the triangle `(0,0)`, `(3,0)`, `(0,3)` in
a 4 by 4 buffer, passed as second vertex. -/
theorem FillTriangle_fills_vertex_witness :
    FillTriangle (fun _ => 0) 4 4 (vertexAt 0 0 0).pos (vertexAt 3 0 0).pos
      (vertexAt 0 3 0).pos 5 6 7 (cellIndex 4 3 0) = 5 :=
  have e0 : F32.ofInt 0 = ⟨0, 0⟩ := by decide
  have e3 : F32.ofInt 3 = ⟨3, 0⟩ := by decide
  FillTriangle_fills_vertex (fun _ => 0) 4 4 (vertexAt 0 0 0).pos (vertexAt 3 0 0).pos
    (vertexAt 0 3 0).pos 5 6 7 3 0 (by decide) (by decide) (by decide) (by decide) (by decide)
    ⟨by rw [e3, F32.toRat_mk_zero_exp], by rw [e0, F32.toRat_mk_zero_exp]⟩
    (Or.inr (Or.inl ⟨rfl, rfl⟩))
    (by
      intro c hc
      have hc2 : c = ⟨0, 0⟩ ∨ c = ⟨3, 0⟩ := by
        simp only [vertexAt, e0, e3, List.mem_cons, List.mem_singleton, List.not_mem_nil,
          or_false] at hc
        tauto
      rcases hc2 with h | h <;> rw [h, F32.toRat_mk_zero_exp] <;> norm_num)

/-! ## Input pipeline: scaling of the pointer motion -/

theorem tdiv_small (d : Int) (h : -1000 < d ∧ d < 1000) : Int.tdiv d 1000 = 0 := by
  have hb := tdiv_bounds d 1000 (by decide)
  generalize Int.tdiv d 1000 = q at hb
  rcases le_total 0 d with h0 | h0
  · have := hb.1 h0
    omega
  · have := hb.2 h0
    omega

/-- A poll that fails, or that reports less than 1000 units on both axes, leaves a position
that is on the screen where it is. -/
theorem processPointer_small (bd : ImGui_ImplUefi_Data)
    (ptrRead : Option EFI_SIMPLE_POINTER_STATE)
    (hw : 1 ≤ bd.ScreenWidth ∧ bd.ScreenWidth < 2147483648)
    (hh : 1 ≤ bd.ScreenHeight ∧ bd.ScreenHeight < 2147483648)
    (hb : 0 ≤ bd.MouseX ∧ bd.MouseX ≤ (bd.ScreenWidth : Int) - 1 ∧
      0 ≤ bd.MouseY ∧ bd.MouseY ≤ (bd.ScreenHeight : Int) - 1)
    (hs : ∀ s, ptrRead = some s →
      (-1000 < s.RelativeMovementX ∧ s.RelativeMovementX < 1000) ∧
      (-1000 < s.RelativeMovementY ∧ s.RelativeMovementY < 1000)) :
    (processPointer bd ptrRead).1.MouseX = bd.MouseX ∧
    (processPointer bd ptrRead).1.MouseY = bd.MouseY ∧
    (processPointer bd ptrRead).1.ScreenWidth = bd.ScreenWidth ∧
    (processPointer bd ptrRead).1.ScreenHeight = bd.ScreenHeight := by
  cases hp : bd.Pointer with
  | none =>
    have e : processPointer bd ptrRead = (bd, []) := by
      unfold processPointer
      rw [hp]
    rw [e]
    exact ⟨rfl, rfl, rfl, rfl⟩
  | some p =>
    cases ptrRead with
    | none =>
      have e : processPointer bd none = (bd, []) := by
        unfold processPointer
        rw [hp]
      rw [e]
      exact ⟨rfl, rfl, rfl, rfl⟩
    | some state =>
      obtain ⟨ex, ey, ew, eh, -⟩ := processPointer_position bd p state hp
      obtain ⟨sx, sy⟩ := hs state rfl
      rw [ex, ey, ew, eh, tdiv_small _ sx, tdiv_small _ sy, add_zero, add_zero]
      have bx := (ImClampI_bounds bd.MouseX bd.ScreenWidth (by omega) (by omega)).2.2
        (by omega)
      have by2 := (ImClampI_bounds bd.MouseY bd.ScreenHeight (by omega) (by omega)).2.2
        (by omega)
      rw [bx, by2, min_eq_left (by omega), max_eq_right (by omega), min_eq_left (by omega),
        max_eq_right (by omega)]
      exact ⟨rfl, rfl, rfl, rfl⟩

theorem pollAll_small (reads : List (Option EFI_INPUT_KEY × Option EFI_SIMPLE_POINTER_STATE)) :
    ∀ (bd : ImGui_ImplUefi_Data),
    (1 ≤ bd.ScreenWidth ∧ bd.ScreenWidth < 2147483648) →
    (1 ≤ bd.ScreenHeight ∧ bd.ScreenHeight < 2147483648) →
    (0 ≤ bd.MouseX ∧ bd.MouseX ≤ (bd.ScreenWidth : Int) - 1 ∧
      0 ≤ bd.MouseY ∧ bd.MouseY ≤ (bd.ScreenHeight : Int) - 1) →
    (∀ r ∈ reads, ∀ s, r.2 = some s →
      (-1000 < s.RelativeMovementX ∧ s.RelativeMovementX < 1000) ∧
      (-1000 < s.RelativeMovementY ∧ s.RelativeMovementY < 1000)) →
    (pollAll bd reads).MouseX = bd.MouseX ∧ (pollAll bd reads).MouseY = bd.MouseY := by
  induction reads with
  | nil =>
    intro bd hw hh hb hs
    exact ⟨rfl, rfl⟩
  | cons r rest ih =>
    intro bd hw hh hb hs
    obtain ⟨e1, e2, e3, e4⟩ := processPointer_small bd r.2 hw hh hb
      (hs r (List.mem_cons_self _ _))
    have e : pollAll bd (r :: rest) = pollAll (processPointer bd r.2).1 rest := rfl
    rw [e]
    have hrec := ih (processPointer bd r.2).1 (by rw [e3]; exact hw) (by rw [e4]; exact hh)
      (by rw [e1, e2, e3, e4]; exact hb) (fun q hq => hs q (List.mem_cons_of_mem _ hq))
    rw [e1, e2] at hrec
    exact hrec

/-- C31: the pointer motion is scaled by the division by 1000 that truncates toward zero,
and no remainder is kept.  On a screen with `1 <= ScreenWidth, ScreenHeight < 2^31` and
with the position on the screen, a poll that reports less than 1000 units in absolute value
on both axes leaves `MouseX` and `MouseY` as they are, and so does every sequence of such
polls, whatever the sum of the reported movements.  Two successful polls from the same state
that report `d` and `-d` give the positions `MouseX + q` and `MouseX - q` clamped to the
screen, with the same quotient `q` of `d` by 1000 truncated toward zero (when the `INT32`
additions do not overflow); likewise for `MouseY`. -/
theorem pointer_motion_truncated (bd : ImGui_ImplUefi_Data)
    (hw : 1 ≤ bd.ScreenWidth ∧ bd.ScreenWidth < 2147483648)
    (hh : 1 ≤ bd.ScreenHeight ∧ bd.ScreenHeight < 2147483648)
    (hb : 0 ≤ bd.MouseX ∧ bd.MouseX ≤ (bd.ScreenWidth : Int) - 1 ∧
      0 ≤ bd.MouseY ∧ bd.MouseY ≤ (bd.ScreenHeight : Int) - 1) :
    (∀ (keyRead : Option EFI_INPUT_KEY) (state : EFI_SIMPLE_POINTER_STATE),
      (-1000 < state.RelativeMovementX ∧ state.RelativeMovementX < 1000) →
      (-1000 < state.RelativeMovementY ∧ state.RelativeMovementY < 1000) →
      (ImGui_ImplUefi_ProcessInputEvents bd keyRead (some state)).1.MouseX = bd.MouseX ∧
      (ImGui_ImplUefi_ProcessInputEvents bd keyRead (some state)).1.MouseY = bd.MouseY) ∧
    (∀ reads : List (Option EFI_INPUT_KEY × Option EFI_SIMPLE_POINTER_STATE),
      (∀ r ∈ reads, ∀ s, r.2 = some s →
        (-1000 < s.RelativeMovementX ∧ s.RelativeMovementX < 1000) ∧
        (-1000 < s.RelativeMovementY ∧ s.RelativeMovementY < 1000)) →
      (pollAll bd reads).MouseX = bd.MouseX ∧ (pollAll bd reads).MouseY = bd.MouseY) ∧
    (∀ (p : Nat) (keyRead : Option EFI_INPUT_KEY) (s1 s2 : EFI_SIMPLE_POINTER_STATE),
      bd.Pointer = some p →
      s2.RelativeMovementX = -s1.RelativeMovementX →
      s2.RelativeMovementY = -s1.RelativeMovementY →
      ((-2147483648 ≤ bd.MouseX + Int.tdiv s1.RelativeMovementX 1000 ∧
          bd.MouseX + Int.tdiv s1.RelativeMovementX 1000 < 2147483648) →
        (ImGui_ImplUefi_ProcessInputEvents bd keyRead (some s1)).1.MouseX =
          max 0 (min (bd.MouseX + Int.tdiv s1.RelativeMovementX 1000)
            ((bd.ScreenWidth : Int) - 1))) ∧
      ((-2147483648 ≤ bd.MouseX - Int.tdiv s1.RelativeMovementX 1000 ∧
          bd.MouseX - Int.tdiv s1.RelativeMovementX 1000 < 2147483648) →
        (ImGui_ImplUefi_ProcessInputEvents bd keyRead (some s2)).1.MouseX =
          max 0 (min (bd.MouseX - Int.tdiv s1.RelativeMovementX 1000)
            ((bd.ScreenWidth : Int) - 1))) ∧
      ((-2147483648 ≤ bd.MouseY + Int.tdiv s1.RelativeMovementY 1000 ∧
          bd.MouseY + Int.tdiv s1.RelativeMovementY 1000 < 2147483648) →
        (ImGui_ImplUefi_ProcessInputEvents bd keyRead (some s1)).1.MouseY =
          max 0 (min (bd.MouseY + Int.tdiv s1.RelativeMovementY 1000)
            ((bd.ScreenHeight : Int) - 1))) ∧
      ((-2147483648 ≤ bd.MouseY - Int.tdiv s1.RelativeMovementY 1000 ∧
          bd.MouseY - Int.tdiv s1.RelativeMovementY 1000 < 2147483648) →
        (ImGui_ImplUefi_ProcessInputEvents bd keyRead (some s2)).1.MouseY =
          max 0 (min (bd.MouseY - Int.tdiv s1.RelativeMovementY 1000)
            ((bd.ScreenHeight : Int) - 1)))) ∧
    (∀ d : Int,
      (0 ≤ d → 0 ≤ Int.tdiv d 1000 ∧ 1000 * Int.tdiv d 1000 ≤ d ∧
        d < 1000 * Int.tdiv d 1000 + 1000) ∧
      (d ≤ 0 → Int.tdiv d 1000 ≤ 0 ∧ d ≤ 1000 * Int.tdiv d 1000 ∧
        1000 * Int.tdiv d 1000 - 1000 < d) ∧
      Int.tdiv (-d) 1000 = -Int.tdiv d 1000) := by
  have e1 : ∀ (k : Option EFI_INPUT_KEY) (q : Option EFI_SIMPLE_POINTER_STATE),
      (ImGui_ImplUefi_ProcessInputEvents bd k q).1 = (processPointer bd q).1 := fun _ _ => rfl
  refine ⟨?_, ?_, ?_, ?_⟩
  · intro keyRead state sx sy
    rw [e1]
    have h := processPointer_small bd (some state) hw hh hb (by
      intro s hs
      cases hs
      exact ⟨sx, sy⟩)
    exact ⟨h.1, h.2.1⟩
  · intro reads hs
    exact pollAll_small reads bd hw hh hb hs
  · intro p keyRead s1 s2 hp hx hy
    obtain ⟨ax, ay, -, -, -⟩ := processPointer_position bd p s1 hp
    obtain ⟨bx, by2, -, -, -⟩ := processPointer_position bd p s2 hp
    rw [hx, Int.neg_tdiv] at bx
    rw [hy, Int.neg_tdiv] at by2
    rw [e1, e1, ax, ay, bx, by2]
    have cx := fun v => (ImClampI_bounds v bd.ScreenWidth (by omega) (by omega)).2.2
    have cy := fun v => (ImClampI_bounds v bd.ScreenHeight (by omega) (by omega)).2.2
    exact ⟨cx _, cx _, cy _, cy _⟩
  · intro d
    have hb2 := tdiv_bounds d 1000 (by decide)
    refine ⟨?_, ?_, Int.neg_tdiv d 1000⟩
    · intro h0
      have := hb2.1 h0
      generalize Int.tdiv d 1000 = q at this
      omega
    · intro h0
      have := hb2.2 h0
      generalize Int.tdiv d 1000 = q at this
      omega

/-- C31, witness: from the position `(2, 1)` on a 4 by 4 screen, two polls that report 999
units each to the right, 999 units down and then 999 units up: the position is still
`(2, 1)`, although the movements to the right add up to 1998 units. -/
theorem pointer_motion_truncated_witness :
    (pollAll { pointerData with MouseX := 2, MouseY := 1 }
      [(none, some ⟨999, 999, 0, 0, 0⟩), (none, some ⟨999, -999, 0, 0, 0⟩)]).MouseX = 2 ∧
    (pollAll { pointerData with MouseX := 2, MouseY := 1 }
      [(none, some ⟨999, 999, 0, 0, 0⟩), (none, some ⟨999, -999, 0, 0, 0⟩)]).MouseY = 1 :=
  (pointer_motion_truncated { pointerData with MouseX := 2, MouseY := 1 } (by decide)
    (by decide) (by decide)).2.1
    [(none, some ⟨999, 999, 0, 0, 0⟩), (none, some ⟨999, -999, 0, 0, 0⟩)]
    (by
      intro r hr s hs
      simp only [List.mem_cons, List.mem_singleton, List.not_mem_nil, or_false] at hr
      rcases hr with rfl | rfl
      · simp only [Option.some.injEq] at hs
        subst hs
        decide
      · simp only [Option.some.injEq] at hs
        subst hs
        decide)

end ImplUefi
